import Mathlib

/-!
# Pursuit: configuration parser and tick engine of `src/pursuit.cpp`

A shallow embedding of the class `Simulation`: the line grammars of `S_re`, the
property setters, the parsing constructor, and `singleStepSimulate` / `simulate`.

Modelling conventions.

* Numbers.  `double` and `float` are idealised as the elements of a linearly
  ordered field `F` (with a floor function where a value is converted to
  `sf::Uint8`).  Decimal numerals are read exactly; rounding and the range
  errors of `std::stod` are outside the model.  The two places where the source
  uses a non-real value as a sentinel are kept: a duration lives in `WithTop F`
  (`⊤` is `HUGE_VAL`) and the start heading of a rotation is an `Option F`
  (`none` is `std::nan("")`).
* Rounding.  Where a property turns on the rounding of the machine numbers the
  operations are rounded by a function `fl`: `alphaRounded` is `alpha` on
  `double`, and `stepTailFloat` has the arithmetic of the `float` trail timer.
  `binary32` and `binary64` are the rounding to nearest, ties to even, of the
  two formats on the rational numbers.
* Leaving the model.  The tick engine returns an `Except Fault`: a step fails
  with `Fault.notReal` where the source computes a value that is no real number
  (a division by zero, the square root of a negative number, the use of a NaN
  heading), and with `Fault.pastTheEnd` where it dereferences `current_movement`
  off the list.  The engine `singleStepSimulateN` goes on where the arithmetic
  of a predator leaves the real numbers: the position of that predator is then
  no real vector (`none`), as it is a NaN in the source.
* Library functions.  `std::sqrt`, `std::cos`, `std::sin` and `std::atan2` are
  taken as a parameter (`Libm F`).
* Regular expressions.  `std::regex_match` is embedded as a backtracking
  matcher over a small regex syntax, with the priorities of the ECMAScript
  grammar (greedy and lazy quantifiers, capture groups).  A sub-match that did
  not take part in the match is the empty string, which is all the source
  observes of it (`length()`, `str()`).
* Drawing state.  The `sf::CircleShape` bases, the view and the window are not
  modelled; calls that only touch them (`setPosition`, `setRotation`,
  `setFillColor`, `align_rotation_to_vec`, ...) are dropped, and so is the text
  written to `std::cout`.
-/

namespace Pursuit

/-! ## Regular expressions -/

/-- The table of sub-matches of a `std::smatch`: entry `i` is `match[i].str()`. -/
abbrev SMatch := List (List Char)

/-- Entry `i` of a sub-match table; an index beyond the table is an unmatched
sub-match, whose string is empty. -/
def SMatch.at (m : SMatch) (i : Nat) : List Char := m.getD i []

/-- Continuation of a match: what to do with the rest of the input. -/
abbrev Cont := List Char → SMatch → Option SMatch

/-- A matcher in continuation-passing style. -/
abbrev Matcher := List Char → SMatch → Cont → Option SMatch

/-- The regex syntax used by `S_re`. -/
inductive Regex where
  | eps
  | cls (p : Char → Bool)
  | seq (r s : Regex)
  | opt (r : Regex)
  | star (r : Regex)
  | starLazy (r : Regex)
  | group (n : Nat) (r : Regex)

/-- Greedy iteration `r*`: first try one more iteration (which must consume
input), then the continuation. -/
def starGreedy (m : Matcher) : Nat → Matcher
  | 0, inp, caps, k => k inp caps
  | fuel + 1, inp, caps, k =>
    match m inp caps (fun rest caps' =>
        if rest.length < inp.length then starGreedy m fuel rest caps' k else none) with
    | some out => some out
    | none => k inp caps

/-- Lazy iteration `r*?`: first try the continuation, then one more
iteration. -/
def starNonGreedy (m : Matcher) : Nat → Matcher
  | 0, inp, caps, k => k inp caps
  | fuel + 1, inp, caps, k =>
    match k inp caps with
    | some out => some out
    | none => m inp caps (fun rest caps' =>
        if rest.length < inp.length then starNonGreedy m fuel rest caps' k else none)

/-- The backtracking matcher of a regex.  The number of iterations of a star
is bounded by the length of the input, since every iteration consumes input. -/
def Regex.run : Regex → Matcher
  | .eps => fun inp caps k => k inp caps
  | .cls p => fun inp caps k =>
    match inp with
    | [] => none
    | c :: cs => if p c then k cs caps else none
  | .seq r s => fun inp caps k => r.run inp caps (fun rest caps' => s.run rest caps' k)
  | .opt r => fun inp caps k =>
    match r.run inp caps k with
    | some out => some out
    | none => k inp caps
  | .star r => fun inp caps k => starGreedy r.run inp.length inp caps k
  | .starLazy r => fun inp caps k => starNonGreedy r.run inp.length inp caps k
  | .group n r => fun inp caps k =>
    r.run inp caps (fun rest caps' =>
      k rest (caps'.set n (inp.take (inp.length - rest.length))))

/-- The last continuation of `std::regex_match`: the match succeeds if no
input is left. -/
def atEnd : Cont := fun rest caps => if rest.isEmpty then some caps else none

/-- `std::regex_match(str, match, re)` for a regex with `groups` capture
groups: the whole of `str` must be matched; `none` is `false`. -/
def regex_match (re : Regex) (groups : Nat) (str : List Char) : Option SMatch :=
  re.run str (str :: List.replicate groups []) atEnd

/-- Concatenation of regexes. -/
def Regex.cat : List Regex → Regex
  | [] => .eps
  | r :: rs => .seq r (Regex.cat rs)

/-- The regex `r+`. -/
def Regex.plus (r : Regex) : Regex := .seq r (.star r)

/-- The regex `r+?`. -/
def Regex.plusLazy (r : Regex) : Regex := .seq r (.starLazy r)

/-- A literal character. -/
def Regex.chr (c : Char) : Regex := .cls (fun d => d == c)

/-- A literal string. -/
def Regex.lit (s : List Char) : Regex := Regex.cat (s.map Regex.chr)

/-- The class `\s` (the "C" locale's `isspace`). -/
def isSpace (c : Char) : Bool :=
  c == ' ' || c == '\t' || c == '\n' || c == '\x0b' || c == '\x0c' || c == '\r'

/-- The class `\d`. -/
def isDigit (c : Char) : Bool := '0' ≤ c && c ≤ '9'

/-- The class `[_a-zA-Z0-9]`. -/
def isWord (c : Char) : Bool :=
  c == '_' || ('a' ≤ c && c ≤ 'z') || ('A' ≤ c && c ≤ 'Z') || ('0' ≤ c && c ≤ '9')

/-- The class `.`: any character but a line terminator. -/
def isAny (c : Char) : Bool := !(c == '\n' || c == '\r')

namespace S_re

/-- The regex `\s*`. -/
def ws : Regex := .star (.cls isSpace)

/-- The regex `(?:;.*)?`. -/
def comment : Regex := .opt (Regex.cat [Regex.chr ';', .star (.cls isAny)])

/-- The regex `-?\d+(?:\.\d*)?`. -/
def number : Regex :=
  Regex.cat [.opt (Regex.chr '-'), Regex.plus (.cls isDigit),
    .opt (Regex.cat [Regex.chr '.', .star (.cls isDigit)])]

/-- The regex `\d+(?:\.\d*)?`. -/
def unsignedNumber : Regex :=
  Regex.cat [Regex.plus (.cls isDigit),
    .opt (Regex.cat [Regex.chr '.', .star (.cls isDigit)])]

/-- The regex `\s*([_a-zA-Z0-9]+)\s*=\s*(.+?)(?:;.*)?`. -/
def property : Regex :=
  Regex.cat [ws, .group 1 (Regex.plus (.cls isWord)), ws, Regex.chr '=', ws,
    .group 2 (Regex.plusLazy (.cls isAny)), comment]

/-- The regex `\s*(?:;.*)?`. -/
def empty_line : Regex := Regex.cat [ws, comment]

/-- The regex `\s*PreyControl:\s*?(?:;.*)?`. -/
def preycontrol : Regex :=
  Regex.cat [ws, Regex.lit "PreyControl:".toList, .starLazy (.cls isSpace), comment]

/-- The regex `\s*Predator:\s*?(?:;.*)?`. -/
def predator : Regex :=
  Regex.cat [ws, Regex.lit "Predator:".toList, .starLazy (.cls isSpace), comment]

/-- The regex
`\s*(-?\d+(?:\.\d*)?)\s*(-?\d+(?:\.\d*)?)\s*(\d+(?:\.\d*)?)?\s*(?:;.*)?`:
`u.x`, `u.y`, duration. -/
def control_value : Regex :=
  Regex.cat [ws, .group 1 number, ws, .group 2 number, ws,
    .opt (.group 3 unsignedNumber), ws, comment]

/-- The regex
`\s*rotate\s*(-?\d+(?:\.\d*)?d?)\s*(\d+(?:\.\d*)?d?)?\s*(-?\d+(?:\.\d*)?d?)?\s*(?:;.*)?`:
rotation speed, duration, starting rotation. -/
def rotate_value : Regex :=
  Regex.cat [ws, Regex.lit "rotate".toList, ws,
    .group 1 (Regex.cat [number, .opt (Regex.chr 'd')]), ws,
    .opt (.group 2 (Regex.cat [unsignedNumber, .opt (Regex.chr 'd')])), ws,
    .opt (.group 3 (Regex.cat [number, .opt (Regex.chr 'd')])), ws, comment]

/-- The regex `,\s*(-?\d+(?:\.\d*)?)\s*`, whose capture group is the group
`n` of the regex it stands in. -/
def nextNumber (n : Nat) : Regex := Regex.cat [Regex.chr ',', ws, .group n number, ws]

/-- The regex
`(-?\d+(?:\.\d*)?)\s*(?:,\s*(-?\d+(?:\.\d*)?)\s*)?(?:,\s*(-?\d+(?:\.\d*)?)\s*)?`. -/
def numbers : Regex :=
  Regex.cat [.group 1 number, ws, .opt (nextNumber 2), .opt (nextNumber 3)]

end S_re

/-! ## Data model -/

/-- The type `vec2` (`sf::Vector2<double>`). -/
structure Vec2 (F : Type) where
  x : F
  y : F
deriving DecidableEq

/-- The type `sf::Color`: four 8-bit channels. -/
structure Color where
  r : Nat
  g : Nat
  b : Nat
  a : Nat
deriving DecidableEq

/-- The constructor `sf::Color(r, g, b)`: the arguments are converted to
`sf::Uint8`, the alpha channel is 255. -/
def Color.rgb (r g b : Int) : Color := ⟨(r % 256).toNat, (g % 256).toNat, (b % 256).toNat, 255⟩

/-- The struct `Simulation::Predator`. -/
structure Predator (F : Type) where
  lambda : F
  position : Vec2 F
  velocity : Vec2 F
  color : Color
  trail : List (Vec2 F × Color)
  when_reached : F
deriving DecidableEq

/-- The struct `Simulation::Movement`; `y` is `none` where the source stores
a NaN, `duration` is `⊤` where it stores `HUGE_VAL`. -/
structure Movement (F : Type) where
  rotating : Bool
  x : F
  y : Option F
  duration : WithTop F
deriving DecidableEq

/-- The class `Simulation`, with the function-local statics `trail_timer` and
`trail_gap_now` of `singleStepSimulate` as fields.  `current_movement` is the
position of the iterator in `movements`. -/
structure Simulation (F : Type) where
  predators : List (Predator F)
  movements : List (Movement F)
  current_movement : Nat
  time_of_next_movement : WithTop F
  prey_position : Vec2 F
  prey_velocity : Vec2 F
  trail_on_gap : Bool
  move_by_plan : Bool
  elapsed_last : F
  valid : Bool
  base_radius : F
  zoom : F
  scale_speed : F
  prey_rotation_acceleration : F
  time_scale : F
  substeps : Int
  prey_rotation_speed : F
  prey_speed : F
  predators_speed : F
  prey_color : Color
  background_color : Color
  text_color : Color
  character_size : Int
  trail_dash_time : F
  trail_gap_time : F
  prey_trail : List (Vec2 F × Color)
  simulation_timer : F
  trail_timer : F
  trail_gap_now : Bool

/-- The library functions of `<cmath>` the simulation calls. -/
structure Libm (F : Type) where
  sqrt : F → F
  cos : F → F
  sin : F → F
  atan2 : F → F → F

section Model

variable {F : Type} [LinearOrderedField F] [FloorRing F]

/-- The value `vec2()`. -/
def Vec2.zero : Vec2 F := ⟨0, 0⟩

/-- The sum of two vectors. -/
def Vec2.add (a b : Vec2 F) : Vec2 F := ⟨a.x + b.x, a.y + b.y⟩

/-- The difference of two vectors. -/
def Vec2.sub (a b : Vec2 F) : Vec2 F := ⟨a.x - b.x, a.y - b.y⟩

/-- A vector times a scalar. -/
def Vec2.scale (a : Vec2 F) (t : F) : Vec2 F := ⟨a.x * t, a.y * t⟩

/-- The default member initialisers of `Predator`. -/
def Predator.init : Predator F :=
  { lambda := 0, position := Vec2.zero, velocity := Vec2.zero, color := ⟨0, 0, 0, 0⟩,
    trail := [], when_reached := -1 }

/-- The default member initialisers of `Simulation` (the state `Simulation()`
builds, and the one the parsing constructor starts from). -/
def Simulation.init : Simulation F :=
  { predators := [], movements := [], current_movement := 0, time_of_next_movement := 0,
    prey_position := Vec2.zero, prey_velocity := Vec2.zero, trail_on_gap := true,
    move_by_plan := true, elapsed_last := 0, valid := false, base_radius := 15,
    zoom := 2 / 100, scale_speed := 3 / 1000, prey_rotation_acceleration := 1,
    time_scale := 1, substeps := 1, prey_rotation_speed := 1, prey_speed := 1,
    predators_speed := 12 / 10, prey_color := ⟨0, 0, 255, 255⟩,
    background_color := Color.rgb 247 247 247, text_color := Color.rgb 16 16 16,
    character_size := 20, trail_dash_time := 5 / 100, trail_gap_time := 2 / 100,
    prey_trail := [], simulation_timer := 0, trail_timer := 0, trail_gap_now := true }

/-- The constant `PI`. -/
def PI : F := 31415926535897932 / 10000000000000000

/-! ## Reading numbers -/

/-- The value of a string of decimal digits. -/
def digitsValue (ds : List Char) : Nat :=
  ds.foldl (fun acc c => 10 * acc + (c.toNat - '0'.toNat)) 0

/-- The function `std::stod` on the numerals the grammars of `S_re` admit: an
optional minus sign, digits, and an optional point followed by digits, read from
the front of the string; what follows (a trailing `d`) is not read. -/
def stod (s : List Char) : F :=
  let neg := s.head? == some '-'
  let s1 := if neg then s.drop 1 else s
  let ip := s1.takeWhile isDigit
  let fp := match s1.dropWhile isDigit with
    | '.' :: t => t.takeWhile isDigit
    | _ => []
  let v : F := (digitsValue (ip ++ fp) : F) / 10 ^ fp.length
  if neg then -v else v

/-- The function `std::stoi` on the same numerals: the integer part is read;
`none` is the `std::out_of_range` it throws above `INT_MAX`. -/
def stoi (s : List Char) : Option Int :=
  let neg := s.head? == some '-'
  let s1 := if neg then s.drop 1 else s
  let v : Int := digitsValue (s1.takeWhile isDigit)
  let r := if neg then -v else v
  if -2147483648 ≤ r ∧ r ≤ 2147483647 then some r else none

/-- The conversion of a `double` to `sf::Uint8` (truncation; defined by the
language for values in the range of the type only). -/
def toUint8 (v : F) : Int := (Int.toNat ⌊v⌋ : Int) % 256

/-- The function `match_number_count`: `none` is the result `false`, `some m`
is `true` with `number_match = m`. -/
def match_number_count (str : List Char) (count : Int) : Option SMatch :=
  let can_be_neg := decide (count < 0)
  let count := if can_be_neg then (-count).toNat else count.toNat
  match regex_match S_re.numbers 3 str with
  | none => none
  | some number_match =>
    if (number_match.at (count + 1)).length ≠ 0 ∨ (number_match.at count).length = 0 then none
    else if !can_be_neg ∧
        (List.range count).any (fun i => (number_match.at (i + 1)).head? == some '-') then none
    else some number_match

/-! ## Property setters -/

/-- Apply `f` to `l.back()`. -/
def modifyBack {α : Type} (f : α → α) : List α → List α
  | [] => []
  | [a] => [f a]
  | a :: b :: l => a :: modifyBack f (b :: l)

/-- The last character of `s` is `c` (`*s.rbegin() == c` on a non-empty
string). -/
def endsWith (s : List Char) (c : Char) : Bool := s.getLast? == some c

/-- The type of the member functions stored in `simulation_setters` and
`predator_setters`: the result is the returned flag and the object after the
call. -/
abbrev Setter (F : Type) := SMatch → Simulation F → Bool × Simulation F

/-- A setter that stores the `count` numbers of `match[2]` by `store`. -/
def numberSetter (count : Int) (store : SMatch → Simulation F → Simulation F) : Setter F :=
  fun m s =>
    match match_number_count (m.at 2) count with
    | none => (false, s)
    | some i_match => (true, store i_match s)

/-- A setter that stores the three channels of `match[2]` by `store`; a
`std::out_of_range` thrown by `std::stoi` is caught by the caller, which
treats it as the result `false`. -/
def colorSetter (store : Color → Simulation F → Simulation F) : Setter F :=
  fun m s =>
    match match_number_count (m.at 2) 3 with
    | none => (false, s)
    | some i_match =>
      match stoi (i_match.at 1), stoi (i_match.at 2), stoi (i_match.at 3) with
      | some r, some g, some b => (true, store (Color.rgb r g b) s)
      | _, _, _ => (false, s)

def set_prey_position : Setter F :=
  numberSetter (-2) (fun i s => { s with prey_position := ⟨stod (i.at 1), stod (i.at 2)⟩ })

def set_predator_position : Setter F :=
  numberSetter (-2) (fun i s =>
    let position : Vec2 F := ⟨stod (i.at 1), stod (i.at 2)⟩
    { s with predators := modifyBack (fun p => { p with position := position }) s.predators })

def set_prey_speed : Setter F :=
  numberSetter 1 (fun i s => { s with prey_speed := stod (i.at 1) })

def set_predators_speed : Setter F :=
  numberSetter 1 (fun i s => { s with predators_speed := stod (i.at 1) })

def set_prey_color : Setter F :=
  colorSetter (fun c s => { s with prey_color := c })

def set_predator_color : Setter F :=
  colorSetter (fun c s => { s with predators := modifyBack (fun p => { p with color := c }) s.predators })

/-- The setter `set_lambda`: the value is stored before its range is
checked. -/
def set_lambda : Setter F :=
  fun m s =>
    match match_number_count (m.at 2) 1 with
    | none => (false, s)
    | some i_match =>
      let lambda : F := stod (i_match.at 1)
      (decide (0 ≤ lambda ∧ lambda ≤ 1),
        { s with predators := modifyBack (fun p => { p with lambda := lambda }) s.predators })

def set_background_color : Setter F :=
  colorSetter (fun c s => { s with background_color := c })

def set_text_color : Setter F :=
  colorSetter (fun c s => { s with text_color := c })

def set_character_size : Setter F :=
  fun m s =>
    match match_number_count (m.at 2) 1 with
    | none => (false, s)
    | some i_match =>
      match stoi (i_match.at 1) with
      | some n => (true, { s with character_size := n })
      | none => (false, s)

def set_point_radius : Setter F :=
  numberSetter 1 (fun i s => { s with base_radius := stod (i.at 1) })

def set_trail : Setter F :=
  numberSetter 2 (fun i s =>
    { s with trail_dash_time := stod (i.at 1), trail_gap_time := stod (i.at 2) })

def set_zoom : Setter F :=
  numberSetter 1 (fun i s => { s with zoom := stod (i.at 1) })

def set_scale_speed : Setter F :=
  numberSetter 1 (fun i s => { s with scale_speed := stod (i.at 1) })

def set_rotation_acceleration : Setter F :=
  numberSetter 1 (fun i s => { s with prey_rotation_acceleration := stod (i.at 1) })

/-- The first statement of both `add_..._control` functions: drop a last
movement of duration 0. -/
def popPlaceholder (movements : List (Movement F)) : List (Movement F) :=
  match movements.getLast? with
  | some m => if m.duration = 0 then movements.dropLast else movements
  | none => movements

def add_straight_control : Setter F :=
  fun m s =>
    let movements := popPlaceholder s.movements
    let dur : F := if (m.at 3).length ≠ 0 then stod (m.at 3) else 0
    let movement : Movement F := ⟨false, stod (m.at 1), some (stod (m.at 2)), (dur : WithTop F)⟩
    (true, { s with movements := movements ++ [movement] })

def add_rotating_control : Setter F :=
  fun m s =>
    let movements := popPlaceholder s.movements
    if endsWith (m.at 2) 'd' then (false, { s with movements := movements })
    else
      let speed : F := stod (m.at 1)
      let speed := if endsWith (m.at 1) 'd' then speed * PI / 180 else speed
      let dur : F := if (m.at 2).length ≠ 0 then stod (m.at 2) else 0
      let start : Option F := if (m.at 3).length ≠ 0 then some (stod (m.at 3)) else none
      let start := if endsWith (m.at 3) 'd' then start.map (fun a => a * PI / 180) else start
      (true, { s with movements := movements ++ [⟨true, speed, start, (dur : WithTop F)⟩] })

/-- The map `simulation_setters`. -/
def simulation_setters : List (List Char × Setter F) :=
  [("PreyPosition".toList, set_prey_position),
   ("PreySpeed".toList, set_prey_speed),
   ("PredatorsSpeed".toList, set_predators_speed),
   ("PreyColor".toList, set_prey_color),
   ("BackgroundColor".toList, set_background_color),
   ("TextColor".toList, set_text_color),
   ("CharacterSize".toList, set_character_size),
   ("PointRadius".toList, set_point_radius),
   ("Trail".toList, set_trail),
   ("ScaleSpeed".toList, set_scale_speed),
   ("RotationAcceleration".toList, set_rotation_acceleration),
   ("Zoom".toList, set_zoom)]

/-- The map `predator_setters`. -/
def predator_setters : List (List Char × Setter F) :=
  [("Position".toList, set_predator_position),
   ("Color".toList, set_predator_color),
   ("Lambda".toList, set_lambda)]

/-- The call `(this->*setters.at(match[1].str()))(match)` inside its
`try` block: a key that is absent throws `std::out_of_range`, which the
handler turns into a failure. -/
def callSetter (setters : List (List Char × Setter F)) (m : SMatch) (s : Simulation F) :
    Bool × Simulation F :=
  match setters.lookup (m.at 1) with
  | some setter => setter m s
  | none => (false, s)

/-! ## The parsing constructor -/

/-- The enumeration `ReadingState`. -/
inductive ReadingState where
  | started
  | predator
  | control
deriving DecidableEq

/-- The local variables of the reading loop, with the object under
construction. -/
structure Reader (F : Type) where
  sim : Simulation F
  state : ReadingState
  reading_broken : Bool
  line_num : Nat

/-- The default colour given to the last predator when the next `Predator:`
marker is read. -/
def markerColor (p : Predator F) : Predator F :=
  if p.color.a = 0 then
    { p with color := Color.rgb (toUint8 (255 * p.lambda)) (toUint8 (255 * (1 - p.lambda))) 0 }
  else p

/-- The default colour given to every predator when construction
succeeds. -/
def finalColor (p : Predator F) : Predator F :=
  if p.color.a = 0 then
    { p with color := Color.rgb (toUint8 p.lambda * 255) (toUint8 (1 - p.lambda) * 255) 0 }
  else p

/-- One iteration of the loop `while (std::getline(file, line))`.  A last
character `\r` is dropped first (on an empty line nothing is dropped). -/
def readLine (rd : Reader F) (line : List Char) : Reader F :=
  let rd := { rd with line_num := rd.line_num + 1 }
  let line := if endsWith line '\r' then line.dropLast else line
  match rd.state with
  | .started =>
    match regex_match S_re.property 2 line with
    | some m =>
      let (ok, sim) := callSetter simulation_setters m rd.sim
      { rd with sim := sim, reading_broken := !ok }
    | none =>
      if (regex_match S_re.empty_line 0 line).isSome then rd
      else if (regex_match S_re.predator 0 line).isSome then
        { rd with state := .predator,
                  sim := { rd.sim with predators := rd.sim.predators ++ [Predator.init] } }
      else if (regex_match S_re.preycontrol 0 line).isSome then
        { rd with state := .control }
      else { rd with reading_broken := true }
  | .predator =>
    match regex_match S_re.property 2 line with
    | some m =>
      let (ok, sim) := callSetter predator_setters m rd.sim
      { rd with sim := sim, reading_broken := !ok }
    | none =>
      if (regex_match S_re.empty_line 0 line).isSome then rd
      else if (regex_match S_re.predator 0 line).isSome then
        { rd with sim :=
            { rd.sim with predators := modifyBack markerColor rd.sim.predators ++ [Predator.init] } }
      else if (regex_match S_re.preycontrol 0 line).isSome then
        { rd with state := .control }
      else { rd with reading_broken := true }
  | .control =>
    match regex_match S_re.control_value 3 line with
    | some m =>
      let (ok, sim) := add_straight_control m rd.sim
      { rd with sim := sim, reading_broken := !ok }
    | none =>
      match regex_match S_re.rotate_value 3 line with
      | some m =>
        let (ok, sim) := add_rotating_control m rd.sim
        { rd with sim := sim, reading_broken := !ok }
      | none =>
        if (regex_match S_re.empty_line 0 line).isSome then rd
        else { rd with reading_broken := true }

/-- The reading loop over the lines of the file. -/
def readLines (rd : Reader F) (file : List (List Char)) : Reader F :=
  file.foldl readLine rd

/-- The statement `movements.rbegin()->duration = HUGE_VAL`. -/
def openEnded (movements : List (Movement F)) : List (Movement F) :=
  modifyBack (fun m => { m with duration := ⊤ }) movements

/-- The statements after the reading loop. -/
def finish (rd : Reader F) : Simulation F :=
  if rd.reading_broken then { rd.sim with valid := false }
  else if rd.sim.movements.isEmpty then { rd.sim with valid := false }
  else
    let movements := openEnded rd.sim.movements
    { rd.sim with
      valid := true
      predators := rd.sim.predators.map finalColor
      current_movement := 0
      movements := movements
      time_of_next_movement := (movements.head?.map (fun m => m.duration)).getD 0 }

/-- The constructor `Simulation::Simulation(std::istream&)` on the lines of
the stream. -/
def Simulation.ofLines (F : Type) [LinearOrderedField F] [FloorRing F]
    (file : List (List Char)) : Simulation F :=
  finish (readLines ⟨Simulation.init, .started, false, 0⟩ file)

/-- The lines `std::getline` extracts from a text: the pieces between line
feeds, without a last empty piece. -/
def getlines (text : String) : List (List Char) :=
  let pieces := (text.splitOn "\n").map String.toList
  if pieces.getLast? = some [] then pieces.dropLast else pieces

/-- The constructor on the text of the stream. -/
def Simulation.ofText (F : Type) [LinearOrderedField F] [FloorRing F] (text : String) :
    Simulation F :=
  Simulation.ofLines F (getlines text)

/-- The member function `is_valid`. -/
def Simulation.is_valid (s : Simulation F) : Bool := s.valid

/-! ## The tick engine -/

/-- What takes a run out of the model: the dereference of an iterator that is
not on an element of `movements` (undefined behaviour), and an arithmetic result
that is no real number (a NaN or an infinity: a division by zero, the square
root of a negative number, the use of a NaN heading). -/
inductive Fault where
  | pastTheEnd
  | notReal
deriving DecidableEq

/-- Division; the divisor zero gives no real number. -/
def fdiv (a b : F) : Except Fault F :=
  if b = 0 then .error .notReal else .ok (a / b)

/-- Square root; a negative argument gives no real number. -/
def fsqrt (L : Libm F) (a : F) : Except Fault F :=
  if a < 0 then .error .notReal else .ok (L.sqrt a)

def dot_product (z v : Vec2 F) : F := z.x * v.x + z.y * v.y

/-- The distance of two points (the square root is taken of a sum of
squares). -/
def distance (L : Libm F) (a b : Vec2 F) : F :=
  let r := a.sub b
  L.sqrt (dot_product r r)

def normalize (L : Libm F) (v : Vec2 F) (target_length : F) : Except Fault (Vec2 F) :=
  if v = Vec2.zero then .ok v
  else do
    let len := L.sqrt (dot_product v v)
    let x ← fdiv (v.x * target_length) len
    let y ← fdiv (v.y * target_length) len
    pure ⟨x, y⟩

def alpha (L : Libm F) (z v : Vec2 F) (a : F) : Except Fault F := do
  let zz := dot_product z z
  let vv := dot_product v v
  let zv := dot_product z v
  let root ← fsqrt L (zv * zv + zz * (a * a - vv))
  fdiv (zv + root) zz

def predator_close_to_prey (L : Libm F) (s : Simulation F) (predator : Predator F) : Bool :=
  decide (distance L s.prey_position predator.position <
    (s.predators_speed - s.prey_speed) * s.elapsed_last)

def naiveDirection (L : Libm F) (s : Simulation F) (predator : Predator F) :
    Except Fault (Vec2 F) :=
  normalize L (s.prey_position.sub predator.position) 1

def parallelDirection (L : Libm F) (s : Simulation F) (predator : Predator F) :
    Except Fault (Vec2 F) := do
  let a ← fdiv s.predators_speed s.prey_speed
  let zx ← fdiv (predator.position.x - s.prey_position.x) s.prey_speed
  let zy ← fdiv (predator.position.y - s.prey_position.y) s.prey_speed
  let z : Vec2 F := ⟨zx, zy⟩
  let v ← normalize L s.prey_velocity s.prey_speed
  let al ← alpha L z v a
  let u := v.sub (z.scale al)
  normalize L u 1

def setPreyPosition (s : Simulation F) (value : Vec2 F) : Simulation F :=
  { s with prey_position := value }

def setPreyVelocity (L : Libm F) (s : Simulation F) (value : Vec2 F) :
    Except Fault (Simulation F) := do
  let v ← normalize L value s.prey_speed
  pure { s with move_by_plan := false, prey_velocity := v }

def rotatePreyVelocity (L : Libm F) (s : Simulation F) (rotation : F) :
    Except Fault (Simulation F) := do
  let angle := if s.prey_velocity = Vec2.zero then 0
    else L.atan2 s.prey_velocity.y s.prey_velocity.x
  let angle := angle + rotation
  let v ← normalize L ⟨L.cos angle, L.sin angle⟩ s.prey_speed
  pure { s with move_by_plan := false, prey_velocity := v }

def getPreyPosition (s : Simulation F) : Vec2 F := s.prey_position

def getPreyVelocity (L : Libm F) (s : Simulation F) : Except Fault (Vec2 F) :=
  normalize L s.prey_velocity s.prey_speed

def getPredatorPosition (predator : Predator F) : Vec2 F := predator.position

def getPredatorVelocity (s : Simulation F) (predator : Predator F) : Vec2 F :=
  if s.elapsed_last ≠ 0 then predator.velocity else Vec2.zero

/-- The dereference `*current_movement`. -/
def currentMovement (s : Simulation F) : Except Fault (Movement F) :=
  match s.movements.get? s.current_movement with
  | some m => .ok m
  | none => .error .pastTheEnd

/-- The heading snap of a rotating movement that has a starting direction:
`prey_velocity` is set along it; any other movement leaves it. -/
def snapHeading (L : Libm F) (s : Simulation F) (m : Movement F) :
    Except Fault (Simulation F) :=
  match m.rotating, m.y with
  | true, some y => do
    let v ← normalize L ⟨L.cos y, L.sin y⟩ s.prey_speed
    pure { s with prey_velocity := v }
  | _, _ => pure s

/-- The capture test at the head of `singleStepSimulate`. -/
def markReached (L : Libm F) (s : Simulation F) (predator : Predator F) : Predator F :=
  if predator.when_reached < 0 ∧ predator_close_to_prey L s predator then
    { predator with when_reached := s.simulation_timer }
  else predator

/-- The loop `while (simulation_timer >= time_of_next_movement)`.  Every
iteration moves the iterator one element on, so `movements.size()` bounds the
iterations that stay on the list; `fuel` counts them down. -/
def advanceMovement (L : Libm F) : Nat → Simulation F → Except Fault (Simulation F)
  | 0, s =>
    if s.time_of_next_movement ≤ (s.simulation_timer : WithTop F) then .error .pastTheEnd
    else pure s
  | fuel + 1, s =>
    if s.time_of_next_movement ≤ (s.simulation_timer : WithTop F) then do
      let s := { s with current_movement := s.current_movement + 1 }
      let m ← currentMovement s
      let s := { s with time_of_next_movement := s.time_of_next_movement + m.duration }
      let s ← snapHeading L s m
      advanceMovement L fuel s
    else pure s

/-- The block `if (move_by_plan) { ... }`. -/
def preyControl (L : Libm F) (s : Simulation F) (elapsed : F) : Except Fault (Simulation F) :=
  if s.move_by_plan then do
    let s ← advanceMovement L s.movements.length s
    let m ← currentMovement s
    if !m.rotating then
      match m.y with
      | some y => do
        let v ← normalize L ⟨m.x, y⟩ s.prey_speed
        pure { s with prey_velocity := v }
      | none => .error .notReal
    else do
      let angle := L.atan2 s.prey_velocity.y s.prey_velocity.x
      let angle := angle + elapsed * m.x
      let v ← normalize L ⟨L.cos angle, L.sin angle⟩ s.prey_speed
      pure { s with prey_velocity := v }
  else pure s

/-- The body of the steering loop for one predator. -/
def steer (L : Libm F) (s : Simulation F) (elapsed : F) (predator : Predator F) :
    Except Fault (Predator F) :=
  if predator.when_reached < 0 then do
    let naive_direction ← naiveDirection L s predator
    let parallel_direction ← parallelDirection L s predator
    let propnav_direction :=
      (parallel_direction.scale predator.lambda).add
        (naive_direction.scale (1 - predator.lambda))
    let propnav_movement ← normalize L propnav_direction (s.predators_speed * elapsed)
    let vx ← fdiv propnav_movement.x elapsed
    let vy ← fdiv propnav_movement.y elapsed
    pure { predator with
      position := predator.position.add propnav_movement
      velocity := ⟨vx, vy⟩ }
  else pure predator

/-- A loop `for (Predator& predator : predators)` whose body may leave the
model. -/
def forEachPredator (body : Predator F → Except Fault (Predator F)) :
    List (Predator F) → Except Fault (List (Predator F))
  | [] => pure []
  | p :: ps => do
    let p ← body p
    let ps ← forEachPredator body ps
    pure (p :: ps)

/-- The body of the trail loop for one predator. -/
def sampleTrail (predator : Predator F) : Predator F :=
  if predator.when_reached < 0 then
    { predator with trail := predator.trail ++ [(predator.position, predator.color)] }
  else predator

def singleStepSimulate (L : Libm F) (s : Simulation F) (elapsed : F) :
    Except Fault (Simulation F) := do
  let s ← (if s.simulation_timer = 0 then do
      let m ← currentMovement s
      snapHeading L s m
    else pure s)
  let s := { s with elapsed_last := elapsed }
  let s := { s with predators := s.predators.map (markReached L s) }
  let s ← preyControl L s elapsed
  let predators ← forEachPredator (steer L s elapsed) s.predators
  let s := { s with predators := predators }
  let prey_movement ← normalize L s.prey_velocity (s.prey_speed * elapsed)
  let s := { s with prey_position := s.prey_position.add prey_movement }
  let s := { s with trail_timer := s.trail_timer - elapsed }
  let s :=
    if s.trail_timer < 0 then
      { s with
        prey_trail := s.prey_trail ++ [(s.prey_position, s.prey_color)]
        predators := s.predators.map sampleTrail
        trail_timer := s.trail_timer + (if s.trail_gap_now then s.trail_dash_time
          else s.trail_gap_time)
        trail_gap_now := !s.trail_gap_now }
    else s
  pure { s with simulation_timer := s.simulation_timer + elapsed }

/-- The loop `for (int i = 0; i < substeps; ++i) singleStepSimulate(elapsed)`. -/
def repeatStep (L : Libm F) (elapsed : F) : Nat → Simulation F → Except Fault (Simulation F)
  | 0, s => pure s
  | n + 1, s => do
    let s ← singleStepSimulate L s elapsed
    repeatStep L elapsed n s

def simulate (L : Libm F) (s : Simulation F) (elapsed : F) : Except Fault (Simulation F) :=
  if s.substeps ≤ 0 then pure s
  else repeatStep L (elapsed / (s.substeps : F)) s.substeps.toNat s

/-! ## Runs -/

/-- What the caller does to a `Simulation` between construction and the end of
a run: the public member functions, and the write of the public field
`substeps`. -/
inductive Call (F : Type) where
  | simulate (elapsed : F)
  | setPreyVelocity (value : Vec2 F)
  | rotatePreyVelocity (rotation : F)
  | setSubsteps (n : Int)

/-- One call on a state. -/
def Call.apply (L : Libm F) (s : Simulation F) : Call F → Except Fault (Simulation F)
  | .simulate elapsed => Pursuit.simulate L s elapsed
  | .setPreyVelocity value => Pursuit.setPreyVelocity L s value
  | .rotatePreyVelocity rotation => Pursuit.rotatePreyVelocity L s rotation
  | .setSubsteps n => pure { s with substeps := n }

/-- A sequence of calls on a state. -/
def runCalls (L : Libm F) : Simulation F → List (Call F) → Except Fault (Simulation F)
  | s, [] => pure s
  | s, c :: cs => do
    let s ← c.apply L s
    runCalls L s cs

/-- Every `simulate` call of the sequence has a non-negative argument. -/
def Call.NonNeg : Call F → Prop
  | .simulate elapsed => 0 ≤ elapsed
  | _ => True

end Model

/-! ## A concrete instance for examples -/

/-- Newton's iteration for the integer square root of `n`, from the guess
`g`. -/
def sqrtIter (n : Nat) : Nat → Nat → Nat
  | 0, g => g
  | fuel + 1, g =>
    let g' := (g + n / g) / 2
    if g' < g then sqrtIter n fuel g' else g

/-- The integer square root. -/
def natSqrt (n : Nat) : Nat := sqrtIter n n n

/-- A `Libm ℚ` for examples: the square root is exact on the squares of
rational numbers, and the trigonometric functions are those of the angle 0. -/
def exampleLibm : Libm ℚ where
  sqrt q := (natSqrt q.num.toNat : ℚ) / (natSqrt q.den : ℚ)
  cos _ := 1
  sin _ := 0
  atan2 _ _ := 0

/-- The state of a run that stays in the model; `d` for a run that leaves
it. -/
def resultOr {ε α : Type} (d : α) : Except ε α → α
  | .ok a => a
  | .error _ => d

/-- The run stays in the model. -/
def staysInModel {ε α : Type} : Except ε α → Bool
  | .ok _ => true
  | .error _ => false

/-- The state built from the configuration of a prey that stays at (0, 0) and
one predator at (3, 4), twice as fast as the prey. -/
def exampleState : Simulation ℚ :=
  Simulation.ofLines ℚ ["PredatorsSpeed = 2".toList, "Predator:".toList,
    "Position = 3, 4".toList, "Lambda = 0".toList, "PreyControl:".toList, "0 0".toList]

/-- The calls of the first part of the example run: one tick of 6 seconds,
in which the predator is reached. -/
def exampleCalls1 : List (Call ℚ) := [.simulate 6]

/-- The calls of the second part of the example run. -/
def exampleCalls2 : List (Call ℚ) := [.simulate 1, .setSubsteps 3, .simulate 2]

/-- The state after the first part of the example run. -/
def exampleReached : Simulation ℚ :=
  resultOr exampleState (runCalls exampleLibm exampleState exampleCalls1)

/-- The state after the second part of the example run. -/
def exampleLater : Simulation ℚ :=
  resultOr exampleState (runCalls exampleLibm exampleReached exampleCalls2)

/-- The predator of `exampleState`, reached at time 0. -/
def examplePredator : Predator ℚ :=
  { lambda := 0, position := ⟨3, 4⟩, velocity := ⟨0, 0⟩, color := Color.rgb 0 255 0,
    trail := [], when_reached := 0 }

section Directives

variable {F : Type} [LinearOrderedField F] [FloorRing F]

/-- The state of the reading loop before the first line. -/
def Reader.start : Reader F := ⟨Simulation.init, .started, false, 0⟩

/-- The movement a line of the control section appends, read off the reading
loop on an empty program; `none` for a line that appends none. -/
def directive (line : List Char) : Option (Movement F) :=
  (readLine (⟨Simulation.init, .control, false, 0⟩ : Reader F) line).sim.movements.head?

end Directives

/-! ## The language of a regex -/

/-- Iteration of a relation between a matched string and the sub-match
tables before and after it; every iteration matches a string that is not
empty. -/
inductive Iter (R : List Char → SMatch → SMatch → Prop) : List Char → SMatch → SMatch → Prop
  | nil (c : SMatch) : Iter R [] c c
  | cons (s1 s2 : List Char) (c c1 c2 : SMatch) :
      s1 ≠ [] → R s1 c c1 → Iter R s2 c1 c2 → Iter R (s1 ++ s2) c c2

/-- The regex matches exactly the string `s`, taking the sub-match table
from `c` to `c'`: the declarative reading of the regex, without priorities. -/
def Regex.Matches : Regex → List Char → SMatch → SMatch → Prop
  | .eps => fun s c c' => s = [] ∧ c' = c
  | .cls p => fun s c c' => (∃ ch, s = [ch] ∧ p ch = true) ∧ c' = c
  | .seq r1 r2 => fun s c c' => ∃ s1 s2 c1, s = s1 ++ s2 ∧ r1.Matches s1 c c1 ∧ r2.Matches s2 c1 c'
  | .opt r => fun s c c' => r.Matches s c c' ∨ (s = [] ∧ c' = c)
  | .star r => Iter r.Matches
  | .starLazy r => Iter r.Matches
  | .group n r => fun s c c' => ∃ c1, r.Matches s c c1 ∧ c' = c1.set n s

/-! ## The grammar of a list of numbers, in the words of the specification -/

/-- A string of white space. -/
def IsWhite (w : List Char) : Prop := ∀ c ∈ w, isSpace c = true

/-- A string of decimal digits. -/
def IsDigits (ds : List Char) : Prop := ∀ c ∈ ds, isDigit c = true

/-- A signed decimal number: an optional minus sign, one digit at least, and
an optional point followed by digits. -/
def IsNumber (f : List Char) : Prop :=
  ∃ sign ip fp, f = sign ++ ip ++ fp ∧ (sign = [] ∨ sign = ['-']) ∧ ip ≠ [] ∧ IsDigits ip ∧
    (fp = [] ∨ ∃ ds, fp = '.' :: ds ∧ IsDigits ds)

/-- What follows the first number of a list and its white space: for every
further number a comma, white space, the number and white space. -/
def IsNumberTail : List Char → List (List Char) → Prop
  | s, [] => s = []
  | s, f :: fs => ∃ w w' rest, s = ',' :: (w ++ f ++ w' ++ rest) ∧ IsWhite w ∧ IsNumber f ∧
      IsWhite w' ∧ IsNumberTail rest fs

/-- The string `str` is a list of the numeric fields `fields`: one to three
numbers, separated by commas, with optional white space after a number and
after a comma. -/
def IsNumberList (str : List Char) (fields : List (List Char)) : Prop :=
  ∃ f fs w rest, fields = f :: fs ∧ fs.length ≤ 2 ∧ str = f ++ w ++ rest ∧ IsNumber f ∧
    IsWhite w ∧ IsNumberTail rest fs

/-! ## Notions for the proofs on the matcher -/

/-- A matcher finds only matches of the relation `R`. -/
def SoundFor (m : Matcher) (R : List Char → SMatch → SMatch → Prop) : Prop :=
  ∀ inp caps k out, m inp caps k = some out →
    ∃ s rest caps', inp = s ++ rest ∧ R s caps caps' ∧ k rest caps' = some out

/-- A matcher succeeds whenever the relation `R` has a match that the
continuation accepts. -/
def CompleteFor (m : Matcher) (R : List Char → SMatch → SMatch → Prop) : Prop :=
  ∀ inp caps k s rest caps', inp = s ++ rest → R s caps caps' → (k rest caps').isSome = true →
    (m inp caps k).isSome = true

/-- A regex without capture groups: it matches the strings of `L` and leaves
the sub-match table. -/
def Plain (r : Regex) (L : List Char → Prop) : Prop :=
  ∀ s c c', r.Matches s c c' ↔ L s ∧ c' = c

/-- The sub-match table of a list of numeric fields of `str`. -/
def fieldTable (str : List Char) (fields : List (List Char)) : SMatch :=
  str :: (fields ++ List.replicate (3 - fields.length) [])

/-- The characters of a number. -/
def isNumberChar (c : Char) : Bool := isDigit c || c == '-' || c == '.'

/-! ## Notions for the theorems on the tick engine -/

/-- The fault of a run that leaves the model. -/
def faultOf {α : Type} : Except Fault α → Option Fault
  | .ok _ => none
  | .error e => some e

/-- The square root of `L` is the real one at `x`: it is not negative and its
square is `x`. -/
def Libm.SqrtAt {F : Type} [LinearOrderedField F] (L : Libm F) (x : F) : Prop :=
  0 ≤ L.sqrt x ∧ L.sqrt x * L.sqrt x = x

/-- The speeds are not negative. -/
def SpeedsNonNeg {F : Type} [LinearOrderedField F] (s : Simulation F) : Prop :=
  0 ≤ s.prey_speed ∧ 0 ≤ s.predators_speed

section StepParts
variable {F : Type} [LinearOrderedField F]

/-- The first statement of `singleStepSimulate`: at time 0 the heading of the
current movement is taken. -/
def stepHead (L : Libm F) (s : Simulation F) : Except Fault (Simulation F) :=
  if s.simulation_timer = 0 then do
    let m ← currentMovement s
    snapHeading L s m
  else pure s

/-- The state at the capture test of a step: `elapsed_last` is the elapsed
time of the step. -/
def atCapture (s : Simulation F) (elapsed : F) : Simulation F :=
  { s with elapsed_last := elapsed }

/-- The state after the capture test of a step. -/
def afterCapture (L : Libm F) (s : Simulation F) (elapsed : F) : Simulation F :=
  { atCapture s elapsed with
    predators := (atCapture s elapsed).predators.map (markReached L (atCapture s elapsed)) }

/-- The statements of `singleStepSimulate` after the steering loop and the
normalisation of the prey's movement: the prey moves, the trail is sampled and
the timer advances. -/
def stepTail (s : Simulation F) (predators : List (Predator F)) (prey_movement : Vec2 F)
    (elapsed : F) : Simulation F :=
  let s := { s with predators := predators }
  let s := { s with prey_position := s.prey_position.add prey_movement }
  let s := { s with trail_timer := s.trail_timer - elapsed }
  let s :=
    if s.trail_timer < 0 then
      { s with
        prey_trail := s.prey_trail ++ [(s.prey_position, s.prey_color)]
        predators := s.predators.map sampleTrail
        trail_timer := s.trail_timer + (if s.trail_gap_now then s.trail_dash_time
          else s.trail_gap_time)
        trail_gap_now := !s.trail_gap_now }
    else s
  { s with simulation_timer := s.simulation_timer + elapsed }

end StepParts

/-- The state built from a program that starts with a rotation from the
heading 0. -/
def rotatingState : Simulation ℚ :=
  Simulation.ofLines ℚ ["PreyControl:".toList, "rotate 1 2 0".toList]

/-- The state `rotatingState` after `setPreyVelocity((0, 1))`. -/
def steeredState : Simulation ℚ :=
  resultOr rotatingState (setPreyVelocity exampleLibm rotatingState ⟨0, 1⟩)

/-- The state built from the configuration of a predator that is as fast as
the prey and starts on it. -/
def coincidentState : Simulation ℚ :=
  Simulation.ofLines ℚ ["PredatorsSpeed = 1".toList, "Predator:".toList, "Lambda = 0".toList,
    "PreyControl:".toList, "1 0".toList]

section TrailNotions
variable {F : Type} [LinearOrderedField F]

/-- The phase of the trail timer after the simulated time `T` and `N`
samples, for the dash time 0.05 and the gap time 0.02: after an even number of
samples the timer runs on a gap, after an odd number on a dash, and it lapses
when `T` reaches the sum of the times added so far. -/
def TrailPhase (s : Simulation F) (T : F) (N : Nat) : Prop :=
  s.trail_dash_time = 5 / 100 ∧ s.trail_gap_time = 2 / 100 ∧
    ((s.trail_gap_now = true ∧ ∃ j : Nat, N = 2 * j ∧
        s.trail_timer = 7 / 100 * (j : F) - T ∧ 0 ≤ s.trail_timer ∧ s.trail_timer < 2 / 100) ∨
      (s.trail_gap_now = false ∧ ∃ j : Nat, N = 2 * j + 1 ∧
        s.trail_timer = 7 / 100 * (j : F) + 5 / 100 - T ∧ 0 ≤ s.trail_timer ∧
        s.trail_timer < 5 / 100))

end TrailNotions

/-- The state built from the configuration of a prey that stays at (0, 0),
with no predator. -/
def idleState : Simulation ℚ :=
  Simulation.ofLines ℚ ["PreyControl:".toList, "0 0".toList]

section PlanNotions
variable {F : Type} [LinearOrderedField F]

/-- The end time of the segment `j` of a movement program: the sum of the
durations of the segments 0 through `j`. -/
def endTime (movements : List (Movement F)) (j : Nat) : WithTop F :=
  ((movements.take (j + 1)).map (fun m => m.duration)).sum

/-- The state of the plan executor between ticks: the cursor is on a segment,
`time_of_next_movement` is the end time of that segment, the segments before it
have ended, the last segment never ends and every straight segment has its
direction. -/
def PlanInv (s : Simulation F) : Prop :=
  s.current_movement < s.movements.length ∧
    s.time_of_next_movement = endTime s.movements s.current_movement ∧
    (∃ m, s.movements.getLast? = some m ∧ m.duration = ⊤) ∧
    (∀ m ∈ s.movements, m.rotating = false → m.y ≠ none) ∧
    ∀ j, j < s.current_movement → endTime s.movements j ≤ (s.simulation_timer : WithTop F)

/-- The square root of `L` of a positive number is not zero. -/
def Libm.SqrtNonzero (L : Libm F) : Prop := ∀ x, 0 < x → L.sqrt x ≠ 0

end PlanNotions

/-- A program of three segments, of the durations 1, 1 and infinity. -/
def threeSegments : List (List Char) :=
  ["PreyControl:".toList, "1 0 1".toList, "0 1 1".toList, "1 0".toList]

/-- The state built from `threeSegments` after one tick of 3 seconds: the
cursor is still on the segment 0. -/
def crossingState : Simulation ℚ :=
  resultOr Simulation.init
    (runCalls exampleLibm (Simulation.ofLines ℚ threeSegments) [.simulate 3])

/-- The state built from the configuration of a prey of speed 2 on the
heading (3, 4) and one predator of speed 4 at (2, 0) that steers by parallel
navigation only. -/
def slantState : Simulation ℚ :=
  Simulation.ofLines ℚ ["PreySpeed = 2".toList, "PredatorsSpeed = 4".toList,
    "Predator:".toList, "Position = 2, 0".toList, "Lambda = 1".toList,
    "PreyControl:".toList, "3 4".toList]

/-- The cross product of two vectors: zero exactly when they are parallel. -/
def cross_product {F : Type} [LinearOrderedField F] (a b : Vec2 F) : F := a.x * b.y - a.y * b.x

/-! ## Notions for the theorems on the reading loop -/

/-- The rank of a state of the reading loop in the order
Started, Predator, Control. -/
def ReadingState.rank : ReadingState → Nat
  | .started => 0
  | .predator => 1
  | .control => 2

/-- The line as the reading loop matches it: without a last `\r`. -/
def chomp (line : List Char) : List Char :=
  if endsWith line '\r' then line.dropLast else line

/-- The line is a `Predator:` marker. -/
def isPredatorMarker (line : List Char) : Bool :=
  (regex_match S_re.predator 0 (chomp line)).isSome

/-- The line is a `PreyControl:` marker. -/
def isPreyControlMarker (line : List Char) : Bool :=
  (regex_match S_re.preycontrol 0 (chomp line)).isSome

section ChaseNotions
variable {F : Type} [LinearOrderedField F]

/-- The square root of `L` is exact on squares. -/
def Libm.SqrtExact (L : Libm F) : Prop := ∀ x, L.sqrt (x * x) = |x|

/-- The chase of a stationary prey of speed 1 by the one predator `p`, of
speed 2 and lambda 0, at the distance `d`. -/
def Chase (s : Simulation F) (p : Predator F) (d : F) : Prop :=
  s.prey_speed = 1 ∧ s.predators_speed = 2 ∧ s.move_by_plan = true ∧
    s.movements = [⟨false, 0, some 0, ⊤⟩] ∧ s.current_movement = 0 ∧
    s.time_of_next_movement = ⊤ ∧ s.predators = [p] ∧ p.lambda = 0 ∧
    0 ≤ s.simulation_timer ∧ 0 ≤ d ∧
    dot_product (s.prey_position.sub p.position) (s.prey_position.sub p.position) = d * d

end ChaseNotions

/-- The state built from the configuration of two predators of lambda 0.5
with no `Color` line: the block of the first is closed by a `Predator:`
marker, the block of the second by the `PreyControl:` marker. -/
def blendState : Simulation ℚ :=
  Simulation.ofLines ℚ ["Predator:".toList, "Lambda = 0.5".toList, "Predator:".toList,
    "Lambda = 0.5".toList, "PreyControl:".toList, "1 0".toList]

section CursorNotions
variable {F : Type} [LinearOrderedField F]

/-- The cursor is safe: it is on a segment, `time_of_next_movement` is the end
time of that segment, and the last segment never ends. -/
def PlanSafe (s : Simulation F) : Prop :=
  s.current_movement < s.movements.length ∧
    s.time_of_next_movement = endTime s.movements s.current_movement ∧
    ∃ m, s.movements.getLast? = some m ∧ m.duration = ⊤

end CursorNotions

section PredatorNotions
variable {F : Type} [LinearOrderedField F]

/-- The state with another list of predators. -/
def withPredators (s : Simulation F) (l : List (Predator F)) : Simulation F :=
  { s with predators := l }

/-- What a step makes of one predator: the capture test, the body of the
steering loop and the body of the trail loop, each on the state of the prey it
runs in.  (Where the step leaves the model, the part that does so is left
out.) -/
def predatorStep (L : Libm F) (s : Simulation F) (elapsed : F) (p : Predator F) : Predator F :=
  let sa := resultOr s (stepHead L s)
  let sb := resultOr sa (preyControl L (afterCapture L sa elapsed) elapsed)
  let p1 := markReached L (atCapture sa elapsed) p
  let p2 := resultOr p1 (steer L sb elapsed p1)
  if sb.trail_timer - elapsed < 0 then sampleTrail p2 else p2

end PredatorNotions

/-- The state built from the configuration of a prey that stays at (0, 0) and
two predators, at (3, 4) and at (5, 0), twice as fast as the prey. -/
def pairState : Simulation ℚ :=
  Simulation.ofLines ℚ ["PredatorsSpeed = 2".toList, "Predator:".toList,
    "Position = 3, 4".toList, "Lambda = 0".toList, "Predator:".toList,
    "Position = 5, 0".toList, "Lambda = 0".toList, "PreyControl:".toList, "0 0".toList]

/-- The predators of `pairState`. -/
def pairPredators : List (Predator ℚ) :=
  [{ examplePredator with when_reached := -1 },
    { examplePredator with position := ⟨5, 0⟩, when_reached := -1 }]

/-- The predators of `pairState` in the other order. -/
def pairSwapped : List (Predator ℚ) :=
  [{ examplePredator with position := ⟨5, 0⟩, when_reached := -1 },
    { examplePredator with when_reached := -1 }]

section SlowNotions
variable {F : Type} [LinearOrderedField F]

/-- The square root of `L` is not negative. -/
def Libm.SqrtNonneg (L : Libm F) : Prop := ∀ x, 0 ≤ L.sqrt x

/-- The predators are not faster than the prey, and none of them is marked
reached. -/
def SlowChase (s : Simulation F) : Prop :=
  s.predators_speed ≤ s.prey_speed ∧ ∀ p ∈ s.predators, p.when_reached = -1

end SlowNotions

/-- The state built from the configuration of a prey of speed 1 that stays at
(0, 0) and one predator of speed 1 at (3, 4). -/
def slowState : Simulation ℚ :=
  Simulation.ofLines ℚ ["PredatorsSpeed = 1".toList, "Predator:".toList,
    "Position = 3, 4".toList, "Lambda = 0".toList, "PreyControl:".toList, "0 0".toList]

/-! ## The engine on predators that leave the real numbers, with the `float` trail timer -/

section EscapeNotions
variable {F : Type} [LinearOrderedField F]

/-- A predator whose position and velocity may have left the real numbers:
`none` is a vector with a component that is a NaN or an infinity.  The trail
holds the positions as they were sampled. -/
structure PredatorN (F : Type) where
  lambda : F
  position : Option (Vec2 F)
  velocity : Option (Vec2 F)
  color : Color
  trail : List (Option (Vec2 F) × Color)
  when_reached : F
deriving DecidableEq

/-- A predator of real position and velocity. -/
def Predator.toN (p : Predator F) : PredatorN F :=
  { lambda := p.lambda
    position := some p.position
    velocity := some p.velocity
    color := p.color
    trail := p.trail.map (fun t => (some t.1, t.2))
    when_reached := p.when_reached }

/-- The predator at a real position, for the functions that read its position
and its lambda. -/
def PredatorN.real (p : PredatorN F) (position : Vec2 F) : Predator F :=
  { lambda := p.lambda
    position := position
    velocity := Vec2.zero
    color := p.color
    trail := []
    when_reached := p.when_reached }

/-- The capture test at the head of `singleStepSimulate`.  Of a position that
is no real vector the distance to the prey is the square root of a sum with a
term that is a NaN or the infinity: a NaN or the infinity, which is less than
no real number, so the comparison is false. -/
def markReachedN (L : Libm F) (s : Simulation F) (predator : PredatorN F) : PredatorN F :=
  match predator.position with
  | some position =>
    if predator.when_reached < 0 ∧ predator_close_to_prey L s (predator.real position) then
      { predator with when_reached := s.simulation_timer }
    else predator
  | none => predator

/-- The movement a predator makes in a step: the first statements of the body
of the steering loop, through `propnav_movement`. -/
def steerMovement (L : Libm F) (s : Simulation F) (elapsed : F) (predator : Predator F) :
    Except Fault (Vec2 F) := do
  let naive_direction ← naiveDirection L s predator
  let parallel_direction ← parallelDirection L s predator
  let propnav_direction :=
    (parallel_direction.scale predator.lambda).add
      (naive_direction.scale (1 - predator.lambda))
  normalize L propnav_direction (s.predators_speed * elapsed)

/-- The quotient of a movement by the elapsed time; no real vector where the
elapsed time is zero. -/
def velocityOf (movement : Vec2 F) (elapsed : F) : Option (Vec2 F) :=
  match fdiv movement.x elapsed, fdiv movement.y elapsed with
  | .ok vx, .ok vy => some ⟨vx, vy⟩
  | _, _ => none

/-- The body of the steering loop for one predator, followed through the
arithmetic that leaves the real numbers.  A division by zero or the square root
of a negative number in the directions makes `propnav_movement` a vector with a
NaN component (the operations on it, a product with lambda, a sum and the
division by a length, keep a NaN or give one from an infinity), and the sum of
the position and such a vector, or of a position that is no real vector and any
vector, is no real vector. -/
def steerN (L : Libm F) (s : Simulation F) (elapsed : F) (predator : PredatorN F) :
    PredatorN F :=
  if predator.when_reached < 0 then
    match predator.position with
    | some position =>
      match steerMovement L s elapsed (predator.real position) with
      | .ok propnav_movement =>
        { predator with
          position := some (position.add propnav_movement)
          velocity := velocityOf propnav_movement elapsed }
      | .error _ => { predator with position := none, velocity := none }
    | none => { predator with velocity := none }
  else predator

/-- The body of the trail loop for one predator. -/
def sampleTrailN (predator : PredatorN F) : PredatorN F :=
  if predator.when_reached < 0 then
    { predator with trail := predator.trail ++ [(predator.position, predator.color)] }
  else predator

/-- The class `Simulation` with predators that may have left the real numbers:
`prey` holds every member but `predators`. -/
structure SimulationN (F : Type) where
  prey : Simulation F
  predators : List (PredatorN F)

/-- A state of real predators. -/
def Simulation.toN (s : Simulation F) : SimulationN F :=
  { prey := withPredators s [], predators := s.predators.map Predator.toN }

/-- The statements of `singleStepSimulate` after the steering loop and the
normalisation of the prey's movement, with the `float` arithmetic of the trail
timer: `fl` rounds the difference `trail_timer - elapsed` and the sum of the
timer and the dash or gap time. -/
def stepTailFloat (fl : F → F) (s : Simulation F) (predators : List (Predator F))
    (prey_movement : Vec2 F) (elapsed : F) : Simulation F :=
  let s := { s with predators := predators }
  let s := { s with prey_position := s.prey_position.add prey_movement }
  let s := { s with trail_timer := fl (s.trail_timer - elapsed) }
  let s :=
    if s.trail_timer < 0 then
      { s with
        prey_trail := s.prey_trail ++ [(s.prey_position, s.prey_color)]
        predators := s.predators.map sampleTrail
        trail_timer := fl (s.trail_timer + (if s.trail_gap_now then s.trail_dash_time
          else s.trail_gap_time))
        trail_gap_now := !s.trail_gap_now }
    else s
  { s with simulation_timer := s.simulation_timer + elapsed }

/-- The function `singleStepSimulate` on predators that may have left the real
numbers, with the `float` arithmetic of the trail timer (`fl` rounds its two
operations).  The statements on the prey are those of `singleStepSimulate`: none
of them reads a predator. -/
def singleStepSimulateN (fl : F → F) (L : Libm F) (s : SimulationN F) (elapsed : F) :
    Except Fault (SimulationN F) := do
  let prey ← stepHead L s.prey
  let prey := atCapture prey elapsed
  let predators := s.predators.map (markReachedN L prey)
  let prey ← preyControl L prey elapsed
  let predators := predators.map (steerN L prey elapsed)
  let prey_movement ← normalize L prey.prey_velocity (prey.prey_speed * elapsed)
  let predators :=
    if fl (prey.trail_timer - elapsed) < 0 then predators.map sampleTrailN else predators
  pure { prey := stepTailFloat fl prey prey.predators prey_movement elapsed,
         predators := predators }

/-- The loop of `simulate` on predators that may have left the real numbers. -/
def repeatStepN (fl : F → F) (L : Libm F) (elapsed : F) :
    Nat → SimulationN F → Except Fault (SimulationN F)
  | 0, s => pure s
  | n + 1, s => do
    let s ← singleStepSimulateN fl L s elapsed
    repeatStepN fl L elapsed n s

def simulateN (fl : F → F) (L : Libm F) (s : SimulationN F) (elapsed : F) :
    Except Fault (SimulationN F) :=
  if s.prey.substeps ≤ 0 then pure s
  else repeatStepN fl L (elapsed / (s.prey.substeps : F)) s.prey.substeps.toNat s

/-- One call on a state of predators that may have left the real numbers. -/
def Call.applyN (fl : F → F) (L : Libm F) (s : SimulationN F) :
    Call F → Except Fault (SimulationN F)
  | .simulate elapsed => simulateN fl L s elapsed
  | .setPreyVelocity value => do
    let prey ← Pursuit.setPreyVelocity L s.prey value
    pure { s with prey := prey }
  | .rotatePreyVelocity rotation => do
    let prey ← Pursuit.rotatePreyVelocity L s.prey rotation
    pure { s with prey := prey }
  | .setSubsteps n => pure { s with prey := { s.prey with substeps := n } }

/-- A sequence of calls on a state of predators that may have left the real
numbers. -/
def runCallsN (fl : F → F) (L : Libm F) :
    SimulationN F → List (Call F) → Except Fault (SimulationN F)
  | s, [] => pure s
  | s, c :: cs => do
    let s ← c.applyN fl L s
    runCallsN fl L s cs

/-- The predators are not faster than the prey, none of them is marked reached
and the plan executor is in its invariant. -/
def SlowChaseN (s : SimulationN F) : Prop :=
  PlanInv s.prey ∧ s.prey.predators_speed ≤ s.prey.prey_speed ∧
    ∀ p ∈ s.predators, p.when_reached = -1

end EscapeNotions

/-- The configuration of a prey of speed 1 on the heading (1, 0) and one
predator of speed 0.5 at (0, 3): no direction of the predator keeps the line of
sight parallel. -/
def outrunProgram : List (List Char) :=
  ["PredatorsSpeed = 0.5".toList, "Predator:".toList, "Position = 0, 3".toList,
    "PreyControl:".toList, "1 0".toList]

/-- The predators at the end of a run, where the run stays in the model. -/
def predatorsOf {F : Type} (r : Except Fault (SimulationN F)) : List (PredatorN F) :=
  match r with
  | .ok s => s.predators
  | .error _ => []

/-! ## Notions for the chase on the distances the code computes -/

section CloseNotions
variable {F : Type} [LinearOrderedField F]

end CloseNotions

/-- The integer nearest to `y`, the even one of two that are equally near. -/
def roundHalfEven (y : ℚ) : Int :=
  if y - ⌊y⌋ < 1 / 2 then ⌊y⌋
  else if 1 / 2 < y - ⌊y⌋ then ⌊y⌋ + 1
  else if ⌊y⌋ % 2 = 0 then ⌊y⌋ else ⌊y⌋ + 1

/-- The greatest `s ≤ smax` with `|x| * 2 ^ s < 2 ^ p`, and 0 if there is
none: the number of binary places of the format at `x`. -/
def binaryShift (p : Nat) (x : ℚ) : Nat → Nat
  | 0 => 0
  | s + 1 => if |x| * 2 ^ (s + 1) < 2 ^ p then s + 1 else binaryShift p x s

/-- The least `t` from `t` on with `|x| < 2 ^ p * 2 ^ t`. -/
def binaryLift (p : Nat) (x : ℚ) : Nat → Nat → Nat
  | 0, t => t
  | fuel + 1, t => if |x| < 2 ^ p * 2 ^ t then t else binaryLift p x fuel (t + 1)

/-- The number of the binary format of `p` significant bits and at most
`smax` binary places that is nearest to `x`, the one of an even significand of
two that are equally near (overflow is left out). -/
def roundBinary (p smax : Nat) (x : ℚ) : ℚ :=
  if |x| < 2 ^ p then
    (roundHalfEven (x * 2 ^ binaryShift p x smax) : ℚ) / 2 ^ binaryShift p x smax
  else
    (roundHalfEven (x / 2 ^ binaryLift p x 1024 0) : ℚ) * 2 ^ binaryLift p x 1024 0

/-- Rounding to a `float`. -/
def binary32 (x : ℚ) : ℚ := roundBinary 24 149 x

section RoundedNotions
variable {F : Type} [LinearOrderedField F]

end RoundedNotions

section DriftNotions
variable {F : Type} [LinearOrderedField F]

/-- The phase of the `float` trail timer after `k` ticks, the simulated time
`T` and `N` samples, for a dash time and a gap time within `δ` of 0.05 and 0.02:
after an even number of samples the timer runs on a gap, after an odd number on
a dash; it is not negative, it is below the time it was reloaded with by more
than `2 δ` at most, and it is off the sum of the times added so far less `T`
by `3 k δ` at most. -/
def TrailDrift (δ : F) (s : Simulation F) (T : F) (N k : Nat) : Prop :=
  |s.trail_dash_time - 5 / 100| ≤ δ ∧ |s.trail_gap_time - 2 / 100| ≤ δ ∧ 0 ≤ s.trail_timer ∧
    ((s.trail_gap_now = true ∧ ∃ j : Nat, N = 2 * j ∧
        |s.trail_timer - (7 / 100 * (j : F) - T)| ≤ 3 * (k : F) * δ ∧
        s.trail_timer < 2 / 100 + 2 * δ) ∨
      (s.trail_gap_now = false ∧ ∃ j : Nat, N = 2 * j + 1 ∧
        |s.trail_timer - (7 / 100 * (j : F) + 5 / 100 - T)| ≤ 3 * (k : F) * δ ∧
        s.trail_timer < 5 / 100 + 2 * δ))

end DriftNotions

/-- The state of `exampleState` (a prey at rest, one predator at (3, 4) that
pursues it) with the dash time 0.05 and the gap time 0.02 as `float`s. -/
def floatTrailState : SimulationN ℚ :=
  { prey := { exampleState.toN.prey with
      trail_dash_time := binary32 (5 / 100), trail_gap_time := binary32 (2 / 100) }
    predators := exampleState.toN.predators }

/-! ## The text of a directive, in the words of the specification -/

section WrittenNotions
variable {F : Type} [LinearOrderedField F]

end WrittenNotions

/-! ## The matcher and the language of a regex -/

theorem starGreedy_sound (m : Matcher) (R : List Char → SMatch → SMatch → Prop)
    (hm : SoundFor m R) (fuel : Nat) : SoundFor (starGreedy m fuel) (Iter R) := by
  induction fuel with
  | zero =>
    intro inp caps k out h
    exact ⟨[], inp, caps, rfl, Iter.nil caps, h⟩
  | succ n ih =>
    intro inp caps k out h
    unfold starGreedy at h
    split at h
    · rename_i o ho
      cases h
      obtain ⟨s1, rest1, c1, hs, hR, hk⟩ := hm _ _ _ _ ho
      split at hk
      · rename_i hlt
        obtain ⟨s2, rest, c2, hs2, hI, hk2⟩ := ih _ _ _ _ hk
        refine ⟨s1 ++ s2, rest, c2, by rw [hs, hs2, List.append_assoc], ?_, hk2⟩
        refine Iter.cons s1 s2 caps c1 c2 ?_ hR hI
        rintro rfl
        simp [hs] at hlt
      · cases hk
    · exact ⟨[], inp, caps, rfl, Iter.nil caps, h⟩

theorem starNonGreedy_sound (m : Matcher) (R : List Char → SMatch → SMatch → Prop)
    (hm : SoundFor m R) (fuel : Nat) : SoundFor (starNonGreedy m fuel) (Iter R) := by
  induction fuel with
  | zero =>
    intro inp caps k out h
    exact ⟨[], inp, caps, rfl, Iter.nil caps, h⟩
  | succ n ih =>
    intro inp caps k out h
    unfold starNonGreedy at h
    split at h
    · rename_i o ho
      cases h
      exact ⟨[], inp, caps, rfl, Iter.nil caps, ho⟩
    · obtain ⟨s1, rest1, c1, hs, hR, hk⟩ := hm _ _ _ _ h
      split at hk
      · rename_i hlt
        obtain ⟨s2, rest, c2, hs2, hI, hk2⟩ := ih _ _ _ _ hk
        refine ⟨s1 ++ s2, rest, c2, by rw [hs, hs2, List.append_assoc], ?_, hk2⟩
        refine Iter.cons s1 s2 caps c1 c2 ?_ hR hI
        rintro rfl
        simp [hs] at hlt
      · cases hk

theorem run_sound (r : Regex) : SoundFor r.run r.Matches := by
  induction r with
  | eps =>
    intro inp caps k out h
    exact ⟨[], inp, caps, rfl, ⟨rfl, rfl⟩, h⟩
  | cls p =>
    intro inp caps k out h
    cases inp with
    | nil => simp [Regex.run] at h
    | cons c cs =>
      simp only [Regex.run] at h
      split at h
      · rename_i hp
        exact ⟨[c], cs, caps, rfl, ⟨⟨c, rfl, hp⟩, rfl⟩, h⟩
      · cases h
  | seq r1 r2 ih1 ih2 =>
    intro inp caps k out h
    simp only [Regex.run] at h
    obtain ⟨s1, rest1, c1, hs1, hR1, hk1⟩ := ih1 _ _ _ _ h
    obtain ⟨s2, rest, c2, hs2, hR2, hk2⟩ := ih2 _ _ _ _ hk1
    exact ⟨s1 ++ s2, rest, c2, by rw [hs1, hs2, List.append_assoc], ⟨s1, s2, c1, rfl, hR1, hR2⟩, hk2⟩
  | opt r ih =>
    intro inp caps k out h
    simp only [Regex.run] at h
    split at h
    · rename_i o ho
      cases h
      obtain ⟨s, rest, c', hs, hR, hk⟩ := ih _ _ _ _ ho
      exact ⟨s, rest, c', hs, Or.inl hR, hk⟩
    · exact ⟨[], inp, caps, rfl, Or.inr ⟨rfl, rfl⟩, h⟩
  | star r ih =>
    intro inp caps k out h
    exact starGreedy_sound r.run r.Matches ih _ inp caps k out h
  | starLazy r ih =>
    intro inp caps k out h
    exact starNonGreedy_sound r.run r.Matches ih _ inp caps k out h
  | group n r ih =>
    intro inp caps k out h
    simp only [Regex.run] at h
    obtain ⟨s, rest, c1, hs, hR, hk⟩ := ih _ _ _ _ h
    refine ⟨s, rest, c1.set n s, hs, ⟨c1, hR, rfl⟩, ?_⟩
    have : List.take (inp.length - rest.length) inp = s := by
      rw [hs]
      simp
    rw [this] at hk
    exact hk

theorem starGreedy_complete (m : Matcher) (R : List Char → SMatch → SMatch → Prop)
    (hm : CompleteFor m R) (s : List Char) (caps caps' : SMatch) (hI : Iter R s caps caps') :
    ∀ (fuel : Nat) (inp rest : List Char) (k : Cont), inp = s ++ rest → inp.length ≤ fuel →
      (k rest caps').isSome = true → (starGreedy m fuel inp caps k).isSome = true := by
  induction hI with
  | nil c =>
    intro fuel inp rest k hs _ hk
    simp only [List.nil_append] at hs
    subst hs
    cases fuel with
    | zero => exact hk
    | succ n =>
      unfold starGreedy
      split
      · rfl
      · exact hk
  | cons s1 s2 c c1 c2 hne hR _ ih =>
    intro fuel inp rest k hs hfuel hk
    have hlen : (s2 ++ rest).length < inp.length := by
      rw [hs]
      have : 0 < s1.length := List.length_pos.mpr hne
      simp only [List.length_append]
      omega
    cases fuel with
    | zero => omega
    | succ n =>
      unfold starGreedy
      have hstep := hm inp c
        (fun rest caps' =>
          if rest.length < inp.length then starGreedy m n rest caps' k else none)
        s1 (s2 ++ rest) c1 (by rw [hs, List.append_assoc]) hR
        (by
          simp only [hlen, if_true]
          exact ih n (s2 ++ rest) rest k rfl (by omega) hk)
      split
      · rfl
      · rename_i hnone
        rw [hnone] at hstep
        cases hstep

theorem starNonGreedy_complete (m : Matcher) (R : List Char → SMatch → SMatch → Prop)
    (hm : CompleteFor m R) (s : List Char) (caps caps' : SMatch) (hI : Iter R s caps caps') :
    ∀ (fuel : Nat) (inp rest : List Char) (k : Cont), inp = s ++ rest → inp.length ≤ fuel →
      (k rest caps').isSome = true → (starNonGreedy m fuel inp caps k).isSome = true := by
  induction hI with
  | nil c =>
    intro fuel inp rest k hs _ hk
    simp only [List.nil_append] at hs
    subst hs
    cases fuel with
    | zero => exact hk
    | succ n =>
      unfold starNonGreedy
      split
      · rfl
      · rename_i hnone
        rw [hnone] at hk
        cases hk
  | cons s1 s2 c c1 c2 hne hR _ ih =>
    intro fuel inp rest k hs hfuel hk
    have hlen : (s2 ++ rest).length < inp.length := by
      rw [hs]
      have : 0 < s1.length := List.length_pos.mpr hne
      simp only [List.length_append]
      omega
    cases fuel with
    | zero => omega
    | succ n =>
      unfold starNonGreedy
      split
      · rfl
      · exact hm inp c
          (fun rest caps' =>
            if rest.length < inp.length then starNonGreedy m n rest caps' k else none)
          s1 (s2 ++ rest) c1 (by rw [hs, List.append_assoc]) hR
          (by
            simp only [hlen, if_true]
            exact ih n (s2 ++ rest) rest k rfl (by omega) hk)

theorem run_complete (r : Regex) : CompleteFor r.run r.Matches := by
  induction r with
  | eps =>
    intro inp caps k s rest caps' hs hR hk
    obtain ⟨rfl, rfl⟩ := hR
    simp only [List.nil_append] at hs
    subst hs
    exact hk
  | cls p =>
    intro inp caps k s rest caps' hs hR hk
    obtain ⟨⟨ch, rfl, hp⟩, rfl⟩ := hR
    subst hs
    simp only [Regex.run, List.singleton_append, hp, if_true]
    exact hk
  | seq r1 r2 ih1 ih2 =>
    intro inp caps k s rest caps' hs hR hk
    obtain ⟨s1, s2, c1, rfl, hR1, hR2⟩ := hR
    simp only [Regex.run]
    exact ih1 inp caps _ s1 (s2 ++ rest) c1 (by rw [hs, List.append_assoc]) hR1
      (ih2 (s2 ++ rest) c1 k s2 rest caps' rfl hR2 hk)
  | opt r ih =>
    intro inp caps k s rest caps' hs hR hk
    simp only [Regex.run]
    rcases hR with hR | ⟨rfl, rfl⟩
    · have := ih inp caps k s rest caps' hs hR hk
      split
      · rfl
      · rename_i hnone
        rw [hnone] at this
        cases this
    · simp only [List.nil_append] at hs
      subst hs
      split
      · rfl
      · exact hk
  | star r ih =>
    intro inp caps k s rest caps' hs hR hk
    exact starGreedy_complete r.run r.Matches ih s caps caps' hR _ inp rest k hs (le_refl _) hk
  | starLazy r ih =>
    intro inp caps k s rest caps' hs hR hk
    exact starNonGreedy_complete r.run r.Matches ih s caps caps' hR _ inp rest k hs (le_refl _) hk
  | group n r ih =>
    intro inp caps k s rest caps' hs hR hk
    obtain ⟨c1, hR1, rfl⟩ := hR
    simp only [Regex.run]
    refine ih inp caps _ s rest c1 hs hR1 ?_
    have : List.take (inp.length - rest.length) inp = s := by
      rw [hs]
      simp
    simp only [this]
    exact hk

/-! ## The sub-patterns of `S_re::numbers` -/

theorem iter_cls (p : Char → Bool) (s : List Char) (c c' : SMatch) :
    Iter (Regex.cls p).Matches s c c' ↔ (∀ ch ∈ s, p ch = true) ∧ c' = c := by
  constructor
  · intro h
    induction h with
    | nil c => exact ⟨fun _ h => absurd h (List.not_mem_nil _), rfl⟩
    | cons s1 s2 c c1 c2 _ hR _ ih =>
      obtain ⟨⟨ch, rfl, hp⟩, rfl⟩ := hR
      refine ⟨?_, ih.2⟩
      intro x hx
      simp only [List.singleton_append, List.mem_cons] at hx
      rcases hx with rfl | hx
      · exact hp
      · exact ih.1 x hx
  · rintro ⟨h, rfl⟩
    induction s with
    | nil => exact Iter.nil c'
    | cons ch t ih =>
      have := Iter.cons [ch] t c' c' c' (by simp) ⟨⟨ch, rfl, h ch (List.mem_cons_self _ _)⟩, rfl⟩
        (ih (fun x hx => h x (List.mem_cons_of_mem _ hx)))
      simpa using this

theorem plain_eps : Plain .eps (fun s => s = []) := fun _ _ _ => Iff.rfl

theorem plain_chr (ch : Char) : Plain (Regex.chr ch) (fun s => s = [ch]) := by
  intro s c c'
  simp only [Regex.chr, Regex.Matches]
  constructor
  · rintro ⟨⟨x, rfl, hx⟩, rfl⟩
    have : x = ch := by simpa using hx
    exact ⟨by rw [this], rfl⟩
  · rintro ⟨rfl, rfl⟩
    exact ⟨⟨ch, rfl, by simp⟩, rfl⟩

theorem plain_cls (p : Char → Bool) :
    Plain (.cls p) (fun s => ∃ ch, s = [ch] ∧ p ch = true) := fun _ _ _ => Iff.rfl

theorem plain_star_cls (p : Char → Bool) :
    Plain (.star (.cls p)) (fun s => ∀ ch ∈ s, p ch = true) := fun s c c' => iter_cls p s c c'

theorem plain_seq {r1 r2 : Regex} {L1 L2 : List Char → Prop} (h1 : Plain r1 L1)
    (h2 : Plain r2 L2) :
    Plain (.seq r1 r2) (fun s => ∃ s1 s2, s = s1 ++ s2 ∧ L1 s1 ∧ L2 s2) := by
  intro s c c'
  simp only [Regex.Matches]
  constructor
  · rintro ⟨s1, s2, c1, rfl, m1, m2⟩
    obtain ⟨l1, rfl⟩ := (h1 _ _ _).1 m1
    obtain ⟨l2, rfl⟩ := (h2 _ _ _).1 m2
    exact ⟨⟨s1, s2, rfl, l1, l2⟩, rfl⟩
  · rintro ⟨⟨s1, s2, rfl, l1, l2⟩, rfl⟩
    exact ⟨s1, s2, c', rfl, (h1 _ _ _).2 ⟨l1, rfl⟩, (h2 _ _ _).2 ⟨l2, rfl⟩⟩

theorem plain_opt {r : Regex} {L : List Char → Prop} (h : Plain r L) :
    Plain (.opt r) (fun s => L s ∨ s = []) := by
  intro s c c'
  simp only [Regex.Matches]
  constructor
  · rintro (m | ⟨rfl, rfl⟩)
    · obtain ⟨l, rfl⟩ := (h _ _ _).1 m
      exact ⟨Or.inl l, rfl⟩
    · exact ⟨Or.inr rfl, rfl⟩
  · rintro ⟨l | rfl, rfl⟩
    · exact Or.inl ((h _ _ _).2 ⟨l, rfl⟩)
    · exact Or.inr ⟨rfl, rfl⟩

theorem plain_congr {r : Regex} {L L' : List Char → Prop} (h : Plain r L)
    (hL : ∀ s, L s ↔ L' s) : Plain r L' :=
  fun s c c' => (h s c c').trans (and_congr_left fun _ => hL s)

theorem plain_ws : Plain S_re.ws IsWhite := plain_star_cls isSpace

theorem plain_number : Plain S_re.number IsNumber := by
  refine plain_congr (plain_seq (plain_opt (plain_chr '-'))
    (plain_seq (plain_seq (plain_cls isDigit) (plain_star_cls isDigit))
      (plain_seq (plain_opt (plain_seq (plain_chr '.') (plain_seq (plain_star_cls isDigit) plain_eps)))
        plain_eps))) ?_
  intro s
  constructor
  · rintro ⟨sg, t1, rfl, hsg, ip, t2, rfl, ⟨d1, ds, rfl, ⟨d, rfl, hd⟩, hds⟩, fp, e, rfl, hfp, rfl⟩
    refine ⟨sg, [d] ++ ds, fp, by simp, ?_, by simp, ?_, ?_⟩
    · exact hsg.symm
    · intro x hx
      simp only [List.singleton_append, List.mem_cons] at hx
      rcases hx with rfl | hx
      · exact hd
      · exact hds x hx
    · rcases hfp with ⟨p1, t3, rfl, rfl, fs, e2, rfl, hfs, rfl⟩ | h
      · exact Or.inr ⟨fs, by simp, hfs⟩
      · exact Or.inl h
  · rintro ⟨sg, ip, fp, rfl, hsg, hne, hip, hfp⟩
    obtain ⟨d, ds, rfl⟩ := List.exists_cons_of_ne_nil hne
    refine ⟨sg, (d :: ds) ++ fp, by simp, hsg.symm, d :: ds, fp, rfl, ?_, ?_⟩
    · exact ⟨[d], ds, rfl, ⟨d, rfl, hip d (List.mem_cons_self _ _)⟩,
        fun x hx => hip x (List.mem_cons_of_mem _ hx)⟩
    · refine ⟨fp, [], by simp, ?_, rfl⟩
      rcases hfp with h | ⟨fs, rfl, hfs⟩
      · exact Or.inr h
      · exact Or.inl ⟨['.'], fs, rfl, rfl, fs, [], by simp, hfs, rfl⟩

theorem matches_nextNumber (n : Nat) (s : List Char) (c c' : SMatch) :
    (S_re.nextNumber n).Matches s c c' ↔
      ∃ w f w', s = ',' :: (w ++ f ++ w') ∧ IsWhite w ∧ IsNumber f ∧ IsWhite w' ∧
        c' = c.set n f := by
  simp only [S_re.nextNumber, Regex.cat, Regex.Matches]
  constructor
  · rintro ⟨s1, t1, c1, rfl, m1, w, t2, c2, rfl, m2, f, t3, c3, rfl, ⟨c4, m3, rfl⟩,
      w', e, c5, rfl, m4, rfl, rfl⟩
    obtain ⟨rfl, rfl⟩ := (plain_chr ',' _ _ _).1 m1
    obtain ⟨hw, rfl⟩ := (plain_ws _ _ _).1 m2
    obtain ⟨hf, rfl⟩ := (plain_number _ _ _).1 m3
    obtain ⟨hw', rfl⟩ := (plain_ws _ _ _).1 m4
    exact ⟨w, f, w', by simp, hw, hf, hw', rfl⟩
  · rintro ⟨w, f, w', rfl, hw, hf, hw', rfl⟩
    exact ⟨[','], w ++ f ++ w', c, by simp, (plain_chr ',' _ _ _).2 ⟨rfl, rfl⟩,
      w, f ++ w', c, by simp, (plain_ws _ _ _).2 ⟨hw, rfl⟩,
      f, w', c.set n f, rfl, ⟨c, (plain_number _ _ _).2 ⟨hf, rfl⟩, rfl⟩,
      w', [], c.set n f, by simp, (plain_ws _ _ _).2 ⟨hw', rfl⟩, rfl, rfl⟩

theorem atEnd_some (rest : List Char) (caps out : SMatch) (h : atEnd rest caps = some out) :
    rest = [] ∧ out = caps := by
  unfold atEnd at h
  split at h
  · rename_i he
    cases h
    exact ⟨by simpa using he, rfl⟩
  · cases h

/-- An optional further number, read by priority: it is taken whenever what
follows then matches. -/
theorem optNext_sound (n : Nat) (inp : List Char) (caps : SMatch) (k : Cont) (out : SMatch)
    (h : (match (S_re.nextNumber n).run inp caps k with
      | some o => some o
      | none => k inp caps) = some out) :
    (∃ w f w' rest, inp = ',' :: (w ++ f ++ w') ++ rest ∧ IsWhite w ∧ IsNumber f ∧ IsWhite w' ∧
        k rest (caps.set n f) = some out) ∨
      ((S_re.nextNumber n).run inp caps k = none ∧ k inp caps = some out) := by
  split at h
  · rename_i o ho
    cases h
    obtain ⟨s, rest, c', hs, hm, hk⟩ := run_sound _ _ _ _ _ ho
    obtain ⟨w, f, w', rfl, hw, hf, hw', rfl⟩ := (matches_nextNumber _ _ _ _).1 hm
    exact Or.inl ⟨w, f, w', rest, hs, hw, hf, hw', hk⟩
  · rename_i hnone
    exact Or.inr ⟨hnone, h⟩

theorem run_eps (inp : List Char) (caps : SMatch) (k : Cont) :
    Regex.eps.run inp caps k = k inp caps := rfl

theorem run_seq (r s : Regex) (inp : List Char) (caps : SMatch) (k : Cont) :
    (Regex.seq r s).run inp caps k = r.run inp caps (fun rest caps' => s.run rest caps' k) := rfl

theorem run_opt (r : Regex) (inp : List Char) (caps : SMatch) (k : Cont) :
    (Regex.opt r).run inp caps k =
      (match r.run inp caps k with
      | some out => some out
      | none => k inp caps) := rfl

theorem run_group (n : Nat) (r : Regex) (inp : List Char) (caps : SMatch) (k : Cont) :
    (Regex.group n r).run inp caps k =
      r.run inp caps (fun rest caps' =>
        k rest (caps'.set n (inp.take (inp.length - rest.length)))) := rfl

/-- A successful match of `S_re::numbers` reads a list of one to three
numbers, and the sub-matches are its fields in order. -/
theorem regex_match_numbers (str : List Char) (out : SMatch)
    (h : regex_match S_re.numbers 3 str = some out) :
    ∃ fields, IsNumberList str fields ∧ out = fieldTable str fields := by
  unfold regex_match S_re.numbers at h
  simp only [Regex.cat, run_seq, run_opt, run_group, run_eps] at h
  obtain ⟨f1, rest1, c1, hs1, hm1, h⟩ := run_sound _ _ _ _ _ h
  obtain ⟨hf1, rfl⟩ := (plain_number _ _ _).1 hm1
  have htake : List.take (str.length - rest1.length) str = f1 := by rw [hs1]; simp
  rw [htake] at h
  obtain ⟨w1, rest2, c2, hs2, hm2, h⟩ := run_sound _ _ _ _ _ h
  obtain ⟨hw1, rfl⟩ := (plain_ws _ _ _).1 hm2
  have hstr : str = f1 ++ w1 ++ rest2 := by rw [hs1, hs2, List.append_assoc]
  rcases optNext_sound 2 _ _ _ _ h with ⟨w2, f2, w3, rest3, hs3, hw2, hf2, hw3, h'⟩ | ⟨hnone, h'⟩
  · rcases optNext_sound 3 _ _ _ _ h' with ⟨w4, f3, w5, rest4, hs4, hw4, hf3, hw5, h''⟩ | ⟨-, h''⟩
    · obtain ⟨rfl, rfl⟩ := atEnd_some _ _ _ h''
      refine ⟨[f1, f2, f3], ⟨f1, [f2, f3], w1, rest2, rfl, by simp, hstr, hf1, hw1, ?_⟩, ?_⟩
      · exact ⟨w2, w3, rest3, by rw [hs3]; simp, hw2, hf2, hw3,
          w4, w5, [], by rw [hs4]; simp, hw4, hf3, hw5, rfl⟩
      · simp [fieldTable, List.replicate]
    · obtain ⟨rfl, rfl⟩ := atEnd_some _ _ _ h''
      refine ⟨[f1, f2], ⟨f1, [f2], w1, rest2, rfl, by simp, hstr, hf1, hw1, ?_⟩, ?_⟩
      · exact ⟨w2, w3, [], by rw [hs3]; simp, hw2, hf2, hw3, rfl⟩
      · simp [fieldTable, List.replicate]
  · rcases optNext_sound 3 _ _ _ _ h' with ⟨w4, f3, w5, rest4, hs4, hw4, hf3, hw5, h''⟩ | ⟨-, h''⟩
    · exfalso
      obtain ⟨rfl, -⟩ := atEnd_some _ _ _ h''
      have hc := run_complete (S_re.nextNumber 2) rest2 ((str :: List.replicate 3 []).set 1 f1)
        (fun rest caps' =>
          match (S_re.nextNumber 3).run rest caps' fun rest caps' => atEnd rest caps' with
          | some out => some out
          | none => atEnd rest caps')
        (',' :: (w4 ++ f3 ++ w5)) [] _ hs4
        ((matches_nextNumber _ _ _ _).2 ⟨w4, f3, w5, rfl, hw4, hf3, hw5, rfl⟩)
        (by
          simp only
          split
          · rfl
          · rfl)
      rw [hnone] at hc
      cases hc
    · obtain ⟨rfl, rfl⟩ := atEnd_some _ _ _ h''
      refine ⟨[f1], ⟨f1, [], w1, [], rfl, by simp, hstr, hf1, hw1, rfl⟩, ?_⟩
      simp [fieldTable, List.replicate]

/-- A list of numbers is matched by `S_re::numbers`. -/
theorem numbers_complete (str : List Char) (fields : List (List Char))
    (h : IsNumberList str fields) : ∃ out, regex_match S_re.numbers 3 str = some out := by
  obtain ⟨f, fs, w, rest, rfl, hlen, rfl, hf, hw, ht⟩ := h
  have hM : ∃ c', S_re.numbers.Matches (f ++ w ++ rest)
      ((f ++ w ++ rest) :: List.replicate 3 []) c' := by
    simp only [S_re.numbers, Regex.cat, Regex.Matches]
    match fs, hlen, ht with
    | [], _, ht =>
      cases ht
      exact ⟨_, f, w, _, by simp, ⟨_, (plain_number _ _ _).2 ⟨hf, rfl⟩, rfl⟩,
        w, [], _, by simp, (plain_ws _ _ _).2 ⟨hw, rfl⟩,
        [], [], _, rfl, Or.inr ⟨rfl, rfl⟩, [], [], _, rfl, Or.inr ⟨rfl, rfl⟩, rfl, rfl⟩
    | [f2], _, ht =>
      obtain ⟨w2, w3, rest', rfl, hw2, hf2, hw3, ht'⟩ := ht
      cases ht'
      exact ⟨_, f, _, _, by rw [List.append_assoc], ⟨_, (plain_number _ _ _).2 ⟨hf, rfl⟩, rfl⟩,
        w, _, _, rfl, (plain_ws _ _ _).2 ⟨hw, rfl⟩,
        ',' :: (w2 ++ f2 ++ w3), [], _, by simp,
        Or.inl ((matches_nextNumber _ _ _ _).2 ⟨w2, f2, w3, rfl, hw2, hf2, hw3, rfl⟩),
        [], [], _, rfl, Or.inr ⟨rfl, rfl⟩, rfl, rfl⟩
    | [f2, f3], _, ht =>
      obtain ⟨w2, w3, rest', rfl, hw2, hf2, hw3, w4, w5, rest'', rfl, hw4, hf3, hw5, ht'⟩ := ht
      cases ht'
      exact ⟨_, f, _, _, by rw [List.append_assoc], ⟨_, (plain_number _ _ _).2 ⟨hf, rfl⟩, rfl⟩,
        w, _, _, rfl, (plain_ws _ _ _).2 ⟨hw, rfl⟩,
        ',' :: (w2 ++ f2 ++ w3), ',' :: (w4 ++ f3 ++ w5), _, by simp,
        Or.inl ((matches_nextNumber _ _ _ _).2 ⟨w2, f2, w3, rfl, hw2, hf2, hw3, rfl⟩),
        ',' :: (w4 ++ f3 ++ w5), [], _, by simp,
        Or.inl ((matches_nextNumber _ _ _ _).2 ⟨w4, f3, w5, rfl, hw4, hf3, hw5, rfl⟩), rfl, rfl⟩
    | _ :: _ :: _ :: _, hlen, _ => simp at hlen
  obtain ⟨c', hc'⟩ := hM
  have := run_complete S_re.numbers (f ++ w ++ rest) _ atEnd (f ++ w ++ rest) [] c' (by simp) hc'
    (by simp [atEnd])
  exact Option.isSome_iff_exists.mp this

/-! ## A string is a list of numbers in one way only -/

theorem isSpace_not_numberChar (c : Char) (h : isSpace c = true) : isNumberChar c = false := by
  simp only [isSpace, Bool.or_eq_true, beq_iff_eq] at h
  rcases h with ((((rfl | rfl) | rfl) | rfl) | rfl) | rfl <;> decide

theorem numberChar_not_isSpace (c : Char) (h : isNumberChar c = true) : isSpace c = false := by
  cases hs : isSpace c with
  | false => rfl
  | true => rw [isSpace_not_numberChar c hs] at h; cases h

theorem isNumber_chars (f : List Char) (h : IsNumber f) : ∀ c ∈ f, isNumberChar c = true := by
  obtain ⟨sg, ip, fp, rfl, hsg, -, hip, hfp⟩ := h
  intro c hc
  simp only [List.mem_append] at hc
  rcases hc with (hc | hc) | hc
  · rcases hsg with rfl | rfl
    · cases hc
    · simp only [List.mem_singleton] at hc
      subst hc
      decide
  · simp [isNumberChar, hip c hc]
  · rcases hfp with rfl | ⟨ds, rfl, hds⟩
    · cases hc
    · simp only [List.mem_cons] at hc
      rcases hc with rfl | hc
      · decide
      · simp [isNumberChar, hds c hc]

theorem isNumber_ne_nil (f : List Char) (h : IsNumber f) : f ≠ [] := by
  obtain ⟨sg, ip, fp, rfl, -, hne, -, -⟩ := h
  simp [hne]

/-- A string that starts with a number does not start with white space. -/
theorem isNumber_head (f t : List Char) (h : IsNumber f) :
    ∀ c, (f ++ t).head? = some c → isSpace c = false := by
  intro c hc
  obtain ⟨d, ds, rfl⟩ := List.exists_cons_of_ne_nil (isNumber_ne_nil f h)
  simp only [List.cons_append, List.head?_cons, Option.some.injEq] at hc
  subst hc
  exact numberChar_not_isSpace d (isNumber_chars _ h d (List.mem_cons_self _ _))

/-- The longest run of characters of a class at the front of a string is
determined by the string. -/
theorem span_unique (P : Char → Bool) (a a' b b' : List Char) (h : a ++ b = a' ++ b')
    (ha : ∀ c ∈ a, P c = true) (ha' : ∀ c ∈ a', P c = true)
    (hb : ∀ c, b.head? = some c → P c = false) (hb' : ∀ c, b'.head? = some c → P c = false) :
    a = a' ∧ b = b' := by
  induction a generalizing a' with
  | nil =>
    cases a' with
    | nil => exact ⟨rfl, h⟩
    | cons y t' =>
      simp only [List.nil_append, List.cons_append] at h
      have h1 := hb y (by rw [h]; rfl)
      rw [ha' y (List.mem_cons_self _ _)] at h1
      cases h1
  | cons x t ih =>
    cases a' with
    | nil =>
      simp only [List.nil_append, List.cons_append] at h
      have h1 := hb' x (by rw [← h]; rfl)
      rw [ha x (List.mem_cons_self _ _)] at h1
      cases h1
    | cons y t' =>
      simp only [List.cons_append, List.cons.injEq] at h
      obtain ⟨rfl, h⟩ := h
      obtain ⟨rfl, rfl⟩ := ih t' h (fun c hc => ha c (List.mem_cons_of_mem _ hc))
        (fun c hc => ha' c (List.mem_cons_of_mem _ hc))
      exact ⟨rfl, rfl⟩

theorem numberTail_head (s : List Char) (fs : List (List Char)) (h : IsNumberTail s fs) :
    ∀ c, s.head? = some c → c = ',' := by
  intro c hc
  cases fs with
  | nil =>
    cases h
    cases hc
  | cons f fs =>
    obtain ⟨w, w', rest, rfl, -⟩ := h
    simp only [List.head?_cons, Option.some.injEq] at hc
    exact hc.symm

/-- What follows a number in a list is white space, a comma or nothing. -/
theorem after_number (w rest : List Char) (fs : List (List Char)) (hw : IsWhite w)
    (h : IsNumberTail rest fs) : ∀ c, (w ++ rest).head? = some c → isNumberChar c = false := by
  intro c hc
  cases w with
  | nil =>
    have := numberTail_head rest fs h c hc
    subst this
    decide
  | cons x t =>
    simp only [List.cons_append, List.head?_cons, Option.some.injEq] at hc
    subst hc
    exact isSpace_not_numberChar x (hw x (List.mem_cons_self _ _))

theorem after_white (rest : List Char) (fs : List (List Char)) (h : IsNumberTail rest fs) :
    ∀ c, rest.head? = some c → isSpace c = false := by
  intro c hc
  have := numberTail_head rest fs h c hc
  subst this
  decide

theorem numberTail_unique (fs fs' : List (List Char)) (s : List Char)
    (h : IsNumberTail s fs) (h' : IsNumberTail s fs') : fs = fs' := by
  induction fs generalizing s fs' with
  | nil =>
    cases h
    cases fs' with
    | nil => rfl
    | cons g gs =>
      obtain ⟨_, _, _, hs, -⟩ := h'
      cases hs
  | cons f fs ih =>
    obtain ⟨w, w', rest, rfl, hw, hf, hw', ht⟩ := h
    cases fs' with
    | nil => cases h'
    | cons g gs =>
      obtain ⟨v, v', rest', hs, hv, hg, hv', ht'⟩ := h'
      simp only [List.cons.injEq, true_and, List.append_assoc] at hs
      obtain ⟨rfl, hs1⟩ := span_unique isSpace w v _ _ hs hw hv
        (isNumber_head f _ hf) (isNumber_head g _ hg)
      obtain ⟨rfl, hs2⟩ := span_unique isNumberChar f g _ _ hs1 (isNumber_chars f hf)
        (isNumber_chars g hg) (after_number w' rest fs hw' ht) (after_number v' rest' gs hv' ht')
      obtain ⟨rfl, rfl⟩ := span_unique isSpace w' v' _ _ hs2 hw' hv'
        (after_white rest fs ht) (after_white rest' gs ht')
      rw [ih gs rest ht ht']

theorem numberList_unique (str : List Char) (fields fields' : List (List Char))
    (h : IsNumberList str fields) (h' : IsNumberList str fields') : fields = fields' := by
  obtain ⟨f, fs, w, rest, rfl, -, rfl, hf, hw, ht⟩ := h
  obtain ⟨g, gs, v, rest', rfl, -, hs, hg, hv, ht'⟩ := h'
  simp only [List.append_assoc] at hs
  obtain ⟨rfl, hs1⟩ := span_unique isNumberChar f g _ _ hs (isNumber_chars f hf)
    (isNumber_chars g hg) (after_number w rest fs hw ht) (after_number v rest' gs hv ht')
  obtain ⟨rfl, rfl⟩ := span_unique isSpace w v _ _ hs1 hw hv
    (after_white rest fs ht) (after_white rest' gs ht')
  rw [numberTail_unique fs gs rest ht ht']

/-! ## The contract of `match_number_count` -/

theorem numberList_shape (str : List Char) (fields : List (List Char))
    (h : IsNumberList str fields) :
    str ≠ [] ∧ ((∃ f1, fields = [f1] ∧ f1 ≠ []) ∨ (∃ f1 f2, fields = [f1, f2] ∧ f1 ≠ [] ∧ f2 ≠ []) ∨
      (∃ f1 f2 f3, fields = [f1, f2, f3] ∧ f1 ≠ [] ∧ f2 ≠ [] ∧ f3 ≠ [])) := by
  obtain ⟨f, fs, w, rest, rfl, hlen, rfl, hf, hw, ht⟩ := h
  have hne := isNumber_ne_nil f hf
  refine ⟨by simp [hne], ?_⟩
  match fs, hlen, ht with
  | [], _, _ => exact Or.inl ⟨f, rfl, hne⟩
  | [f2], _, ht =>
    obtain ⟨_, _, _, -, -, hf2, -, -⟩ := ht
    exact Or.inr (Or.inl ⟨f, f2, rfl, hne, isNumber_ne_nil f2 hf2⟩)
  | [f2, f3], _, ht =>
    obtain ⟨_, _, _, -, -, hf2, -, _, _, _, -, -, hf3, -, -⟩ := ht
    exact Or.inr (Or.inr ⟨f, f2, f3, rfl, hne, isNumber_ne_nil f2 hf2, isNumber_ne_nil f3 hf3⟩)
  | _ :: _ :: _ :: _, hlen, _ => simp at hlen

/-- The arity test of `match_number_count` on the table of a list of
numbers. -/
theorem table_arity (str : List Char) (fields : List (List Char))
    (h : IsNumberList str fields) (cnt : Nat) :
    (((fieldTable str fields).at (cnt + 1)).length ≠ 0 ∨
      ((fieldTable str fields).at cnt).length = 0) ↔ fields.length ≠ cnt := by
  obtain ⟨hs, ⟨f1, rfl, h1⟩ | ⟨f1, f2, rfl, h1, h2⟩ | ⟨f1, f2, f3, rfl, h1, h2, h3⟩⟩ :=
    numberList_shape str fields h
  all_goals
    rcases cnt with _ | _ | _ | _ | n <;>
      simp [fieldTable, SMatch.at, List.replicate, List.getD, *]

/-- The sign test of `match_number_count` on the table of a list of
numbers. -/
theorem table_sign (str : List Char) (fields : List (List Char))
    (h : IsNumberList str fields) :
    (List.range fields.length).any
        (fun i => ((fieldTable str fields).at (i + 1)).head? == some '-') = true ↔
      ∃ f ∈ fields, f.head? = some '-' := by
  obtain ⟨-, ⟨f1, rfl, -⟩ | ⟨f1, f2, rfl, -, -⟩ | ⟨f1, f2, f3, rfl, -, -, -⟩⟩ :=
    numberList_shape str fields h
  all_goals
    simp [fieldTable, SMatch.at, List.replicate, List.getD, List.range, List.range.loop]

theorem count_natAbs (count : Int) :
    (if decide (count < 0) = true then (-count).toNat else count.toNat) = count.natAbs := by
  split
  · rename_i h
    have : count < 0 := by simpa using h
    omega
  · rename_i h
    have : ¬ count < 0 := by simpa using h
    omega

/-- A success of `match_number_count` reads a list of `|count|` numbers. -/
theorem match_number_count_some (str : List Char) (count : Int) (m : SMatch)
    (h : match_number_count str count = some m) :
    ∃ fields, IsNumberList str fields ∧ fields.length = count.natAbs ∧
      (0 < count → ∀ f ∈ fields, f.head? ≠ some '-') ∧ m = fieldTable str fields := by
  unfold match_number_count at h
  simp only [count_natAbs] at h
  split at h
  · cases h
  · rename_i nm hnm
    obtain ⟨fields, hl, rfl⟩ := regex_match_numbers str nm hnm
    split at h
    · cases h
    · rename_i har
      have hlen : fields.length = count.natAbs := by
        by_contra hne
        exact har ((table_arity str fields hl _).2 hne)
      split at h
      · cases h
      · rename_i hsg
        cases h
        refine ⟨fields, hl, hlen, ?_, rfl⟩
        intro hpos f hf hhead
        apply hsg
        refine ⟨by simpa using hpos.le, ?_⟩
        rw [← hlen]
        exact (table_sign str fields hl).2 ⟨f, hf, hhead⟩

/-- `match_number_count` succeeds on a list of `|count|` numbers with the
signs `count` allows. -/
theorem match_number_count_of_list (str : List Char) (count : Int) (fields : List (List Char))
    (hl : IsNumberList str fields) (hlen : fields.length = count.natAbs)
    (hsign : 0 < count → ∀ f ∈ fields, f.head? ≠ some '-') :
    match_number_count str count = some (fieldTable str fields) := by
  obtain ⟨out, hout⟩ := numbers_complete str fields hl
  obtain ⟨fields', hl', rfl⟩ := regex_match_numbers str out hout
  have := numberList_unique str fields' fields hl' hl
  subst this
  unfold match_number_count
  simp only [count_natAbs, hout]
  rw [if_neg, if_neg]
  · rintro ⟨hneg, hany⟩
    rw [← hlen] at hany
    obtain ⟨f, hf, hhead⟩ := (table_sign str fields' hl).1 hany
    have hnn : ¬ count < 0 := by simpa using hneg
    have hpos : 0 < count := by
      rcases (numberList_shape str fields' hl).2 with ⟨_, rfl, -⟩ | ⟨_, _, rfl, -⟩ | ⟨_, _, _, rfl, -⟩ <;>
        simp at hlen <;> omega
    exact hsign hpos f hf hhead
  · rw [table_arity str fields' hl]
    exact fun h => h hlen

/-- A list of two numbers or more holds a comma. -/
theorem numberList_comma (str : List Char) (fields : List (List Char))
    (hl : IsNumberList str fields) (hlen : 2 ≤ fields.length) : ',' ∈ str := by
  obtain ⟨f, fs, w, rest, rfl, -, rfl, -, -, ht⟩ := hl
  cases fs with
  | nil => simp at hlen
  | cons f2 fs =>
    obtain ⟨_, _, _, rfl, -⟩ := ht
    simp

/-- C7. `match_number_count(str, m, count)` succeeds exactly when `str` is a
list of exactly `|count|` numeric fields and, for a positive `count`, no field
starts with a minus sign; a negative `count` allows signed fields.  On success
the sub-matches 1 to `|count|` are the fields of `str` in order (the table is
`str` followed by the fields).  A list is what `S_re::numbers` admits, one to
three numbers separated by commas, so for `count` 0 and for `|count|` above 3
no string is such a list and the function never succeeds. -/
theorem match_number_count_contract (str : List Char) (count : Int) :
    (∀ m, match_number_count str count = some m →
      ∃ fields, IsNumberList str fields ∧ fields.length = count.natAbs ∧
        (0 < count → ∀ f ∈ fields, f.head? ≠ some '-') ∧ m = fieldTable str fields) ∧
    (∀ fields, IsNumberList str fields → fields.length = count.natAbs →
      (0 < count → ∀ f ∈ fields, f.head? ≠ some '-') →
      match_number_count str count = some (fieldTable str fields)) :=
  ⟨match_number_count_some str count, match_number_count_of_list str count⟩

/-- C6 (as amended). A property value that lists two numbers or more
separates them by commas: a value `match_number_count` accepts for two or three
numbers holds a comma.  `PreyPosition = 1, 2` and `Trail = 0.05, 0.02` are
accepted, and the setter stores the listed numbers in its fields. -/
theorem comma_separates_numbers (str : List Char) (count : Int) (m : SMatch)
    (hc : 2 ≤ count.natAbs) (h : match_number_count str count = some m) :
    ',' ∈ str ∧
    (readLine (Reader.start : Reader ℚ) "PreyPosition = 1, 2".toList).reading_broken = false ∧
    (readLine (Reader.start : Reader ℚ) "PreyPosition = 1, 2".toList).sim.prey_position =
      ⟨1, 2⟩ ∧
    (readLine (Reader.start : Reader ℚ) "Trail = 0.05, 0.02".toList).reading_broken = false ∧
    (readLine (Reader.start : Reader ℚ) "Trail = 0.05, 0.02".toList).sim.trail_dash_time =
      5 / 100 ∧
    (readLine (Reader.start : Reader ℚ) "Trail = 0.05, 0.02".toList).sim.trail_gap_time =
      2 / 100 := by
  refine ⟨?_, by decide!, by decide!, by decide!, by decide!, by decide!⟩
  obtain ⟨fields, hl, hlen, -, -⟩ := match_number_count_some str count m h
  exact numberList_comma str fields hl (by omega)

/-! ## Lemmas on the reading loop -/

theorem modifyBack_append {α : Type} (f : α → α) (l : List α) (a : α) :
    modifyBack f (l ++ [a]) = l ++ [f a] := by
  induction l with
  | nil => rfl
  | cons b l ih =>
    cases l with
    | nil => rfl
    | cons c l =>
      have : modifyBack f (b :: c :: (l ++ [a])) = b :: modifyBack f (c :: (l ++ [a])) := rfl
      exact this.trans (congrArg (b :: ·) ih)

theorem openEnded_ne_nil {F : Type} (movements : List (Movement F)) (h : movements ≠ []) :
    openEnded movements ≠ [] := by
  obtain ⟨init, d, rfl⟩ := (List.eq_nil_or_concat movements).resolve_left h
  rw [List.concat_eq_append, openEnded, modifyBack_append]
  simp

theorem numberSetter_movements {F : Type} (count : Int) (store : SMatch → Simulation F → Simulation F)
    (hstore : ∀ i s, (store i s).movements = s.movements) (m : SMatch) (s : Simulation F) :
    (numberSetter count store m s).2.movements = s.movements := by
  unfold numberSetter
  split
  · rfl
  · exact hstore _ _

theorem colorSetter_movements {F : Type} (store : Color → Simulation F → Simulation F)
    (hstore : ∀ c s, (store c s).movements = s.movements) (m : SMatch) (s : Simulation F) :
    (colorSetter store m s).2.movements = s.movements := by
  unfold colorSetter
  split
  · rfl
  · split
    · exact hstore _ _
    · rfl

section SetterLemmas

variable {F : Type} [LinearOrderedField F]

theorem popPlaceholder_nil : popPlaceholder ([] : List (Movement F)) = [] := rfl

theorem popPlaceholder_sublist (movements : List (Movement F)) :
    List.Sublist (popPlaceholder movements) movements := by
  unfold popPlaceholder
  split
  · split
    · exact List.dropLast_sublist _
    · exact List.Sublist.refl _
  · exact List.Sublist.refl _

theorem popPlaceholder_append_zero (movements : List (Movement F)) (d : Movement F)
    (hz : d.duration = 0) : popPlaceholder (movements ++ [d]) = movements := by
  unfold popPlaceholder
  simp [hz]

/-- No property setter touches the movement program. -/
theorem callSetter_movements (setters : List (List Char × Setter F))
    (h : setters = simulation_setters ∨ setters = predator_setters)
    (m : SMatch) (s : Simulation F) :
    (callSetter setters m s).2.movements = s.movements := by
  have hall : ∀ kv ∈ setters, ∀ m s, (kv.2 m s).2.movements = s.movements := by
    rcases h with rfl | rfl
    · intro kv hkv m s
      simp only [simulation_setters, List.mem_cons, List.mem_singleton, List.not_mem_nil,
        or_false] at hkv
      rcases hkv with rfl | rfl | rfl | rfl | rfl | rfl | rfl | rfl | rfl | rfl | rfl | rfl
      all_goals
        simp only [set_prey_position, set_prey_speed, set_predators_speed, set_prey_color,
          set_background_color, set_text_color, set_character_size, set_point_radius,
          set_trail, set_scale_speed, set_rotation_acceleration, set_zoom]
        first
          | (apply numberSetter_movements; intro _ _; rfl)
          | (apply colorSetter_movements; intro _ _; rfl)
          | (repeat' split) <;> rfl
    · intro kv hkv m s
      simp only [predator_setters, List.mem_cons, List.mem_singleton, List.not_mem_nil,
        or_false] at hkv
      rcases hkv with rfl | rfl | rfl
      all_goals
        simp only [set_predator_position, set_predator_color, set_lambda]
        first
          | (apply numberSetter_movements; intro _ _; rfl)
          | (apply colorSetter_movements; intro _ _; rfl)
          | (repeat' split) <;> rfl
  unfold callSetter
  cases hl : setters.lookup (m.at 1) with
  | none => rfl
  | some setter =>
    simp only
    have hmem : (m.at 1, setter) ∈ setters := by
      clear hall h
      induction setters with
      | nil => simp [List.lookup] at hl
      | cons kv rest ih =>
        obtain ⟨k, v⟩ := kv
        simp only [List.lookup] at hl
        split at hl
        · rename_i hk
          cases hl
          have : m.at 1 = k := by simpa using hk
          rw [this]
          exact List.mem_cons_self _ _
        · exact List.mem_cons_of_mem _ (ih hl)
    exact hall _ hmem m s

end SetterLemmas

section ParseTheorems

variable {F : Type} [LinearOrderedField F] [FloorRing F]

/-- A line read outside the control section leaves the movement program. -/
theorem readLine_not_control (rd : Reader F) (line : List Char) (h : rd.state ≠ .control) :
    (readLine rd line).sim.movements = rd.sim.movements := by
  cases hst : rd.state with
  | control => exact absurd hst h
  | started =>
    unfold readLine
    simp only [hst]
    generalize (if endsWith line '\r' then line.dropLast else line) = l
    cases regex_match S_re.property 2 l with
    | some m => exact callSetter_movements _ (Or.inl rfl) m rd.sim
    | none =>
      simp only
      (repeat' split) <;> rfl
  | predator =>
    unfold readLine
    simp only [hst]
    generalize (if endsWith line '\r' then line.dropLast else line) = l
    cases regex_match S_re.property 2 l with
    | some m => exact callSetter_movements _ (Or.inr rfl) m rd.sim
    | none =>
      simp only
      (repeat' split) <;> rfl

/-- What a line read in the control section does to the movement program. -/
theorem readLine_control (rd : Reader F) (line : List Char) (h : rd.state = .control) :
    (readLine rd line).state = .control ∧ (readLine rd line).sim.predators = rd.sim.predators ∧
    (((readLine rd line).sim.movements =
        popPlaceholder rd.sim.movements ++ (directive line : Option (Movement F)).toList) ∨
      ((directive line : Option (Movement F)) = none ∧
        (readLine rd line).sim.movements = rd.sim.movements)) := by
  unfold directive readLine
  simp only [h]
  generalize (if endsWith line '\r' then line.dropLast else line) = l
  cases regex_match S_re.control_value 3 l with
  | some m =>
    simp [add_straight_control, popPlaceholder_nil, Simulation.init]
  | none =>
    cases regex_match S_re.rotate_value 3 l with
    | some m =>
      simp only [add_rotating_control]
      split <;> simp [popPlaceholder_nil, Simulation.init]
    | none =>
      simp only
      split <;> simp [Simulation.init]

/-- The movement program of the reading loop is made of directives of the
lines read, in their order. -/
theorem readLines_sublist (file : List (List Char)) (rd : Reader F) (seen : List (List Char))
    (h : List.Sublist rd.sim.movements (seen.filterMap directive)) :
    List.Sublist (readLines rd file).sim.movements ((seen ++ file).filterMap directive) := by
  induction file generalizing rd seen with
  | nil => simpa [readLines] using h
  | cons line rest ih =>
    have hstep : List.Sublist (readLine rd line).sim.movements
        ((seen ++ [line]).filterMap directive) := by
      rw [List.filterMap_append]
      by_cases hc : rd.state = .control
      · rcases (readLine_control rd line hc).2.2 with h1 | ⟨-, h1⟩
        · rw [h1]
          have : List.filterMap directive [line] = (directive line : Option (Movement F)).toList := by
            cases hd : (directive line : Option (Movement F)) <;> simp [List.filterMap, hd]
          rw [this]
          exact List.Sublist.append ((popPlaceholder_sublist _).trans h) (List.Sublist.refl _)
        · rw [h1]
          exact h.trans (List.sublist_append_left _ _)
      · rw [readLine_not_control rd line hc]
        exact h.trans (List.sublist_append_left _ _)
    have := ih (readLine rd line) (seen ++ [line]) hstep
    simpa [readLines, List.append_assoc] using this

/-- A valid construction: the reading loop ended unbroken with a movement
program that is not empty, and the program was closed by `openEnded`. -/
theorem valid_ofLines (file : List (List Char)) (h : (Simulation.ofLines F file).valid = true) :
    (readLines (Reader.start : Reader F) file).reading_broken = false ∧
    (readLines (Reader.start : Reader F) file).sim.movements ≠ [] ∧
    (Simulation.ofLines F file).movements =
      openEnded (readLines (Reader.start : Reader F) file).sim.movements := by
  unfold Simulation.ofLines finish at h ⊢
  simp only [Reader.start] at h ⊢
  split at h
  · simp at h
  · rename_i hb
    split at h
    · simp at h
    · rename_i he
      refine ⟨by simpa using hb, ?_, ?_⟩
      · intro h0
        rw [h0] at he
        simp at he
      · rw [if_neg hb, if_neg he]

/-- C2. A configuration whose reading loop leaves the movement program empty
is invalid, so is one none of whose lines is a directive, and every valid
Simulation has a movement program that is not empty. -/
theorem empty_program_invalid (file : List (List Char)) :
    ((readLines (Reader.start : Reader F) file).sim.movements = [] →
      (Simulation.ofLines F file).is_valid = false) ∧
    ((∀ line ∈ file, (directive line : Option (Movement F)) = none) →
      (Simulation.ofLines F file).is_valid = false) ∧
    ((Simulation.ofLines F file).is_valid = true → (Simulation.ofLines F file).movements ≠ []) := by
  have key : (readLines (Reader.start : Reader F) file).sim.movements = [] →
      (Simulation.ofLines F file).is_valid = false := by
    intro h0
    cases hv : (Simulation.ofLines F file).is_valid with
    | false => rfl
    | true => exact absurd h0 (valid_ofLines file hv).2.1
  refine ⟨key, ?_, ?_⟩
  · intro hnone
    apply key
    have hsub := readLines_sublist file (Reader.start : Reader F) []
      (by simp [Reader.start, Simulation.init])
    have hfm : List.filterMap (directive : List Char → Option (Movement F)) ([] ++ file) = [] := by
      rw [List.nil_append, List.filterMap_eq_nil_iff]
      exact hnone
    rw [hfm] at hsub
    exact List.eq_nil_of_sublist_nil hsub
  · intro hv
    obtain ⟨-, hne, heq⟩ := valid_ofLines file hv
    rw [heq]
    exact openEnded_ne_nil _ hne

/-- C4 (as amended). A directive of duration 0 that is followed at once by
another directive is discarded before the next segment is appended: the two
lines leave one segment, the second directive.  The lines `3 4` and `3 4 2`
leave in the reading loop the single segment of direction (3, 4) and duration
2; in the constructed Simulation it is the last segment and its duration is
infinite. -/
theorem placeholder_replaced (rd : Reader F) (l1 l2 : List Char) (d1 d2 : Movement F)
    (hs : rd.state = .control) (h1 : directive l1 = some d1) (hz : d1.duration = 0)
    (h2 : directive l2 = some d2) :
    (readLine (readLine rd l1) l2).sim.movements = popPlaceholder rd.sim.movements ++ [d2] ∧
    (readLines (Reader.start : Reader ℚ)
      ["PreyControl:".toList, "3 4".toList, "3 4 2".toList]).sim.movements =
        [⟨false, 3, some 4, ((2 : ℚ) : WithTop ℚ)⟩] ∧
    (Simulation.ofLines ℚ ["PreyControl:".toList, "3 4".toList, "3 4 2".toList]).movements =
      [⟨false, 3, some 4, ⊤⟩] := by
  refine ⟨?_, by decide!, by decide!⟩
  obtain ⟨hs1, -, hm1⟩ := readLine_control rd l1 hs
  obtain ⟨-, -, hm2⟩ := readLine_control (readLine rd l1) l2 hs1
  rcases hm1 with hm1 | ⟨hn, -⟩
  · rcases hm2 with hm2 | ⟨hn, -⟩
    · rw [hm2, hm1, h1, h2]
      simp only [Option.toList]
      rw [popPlaceholder_append_zero _ d1 hz]
    · rw [h2] at hn
      cases hn
  · rw [h1] at hn
    cases hn

end ParseTheorems

/-! ## The reading loop at concrete configurations -/

/-- C1 (the code at the failing input). The line `foo` matches no grammar of
the section `Started` and sets `reading_broken`; the directive `1 0` read after
it assigns `reading_broken` anew, and the configuration is valid. -/
theorem broken_flag_overwritten :
    (readLine (Reader.start : Reader ℚ) "foo".toList).reading_broken = true ∧
    (readLines (Reader.start : Reader ℚ)
      ["foo".toList, "PreyControl:".toList]).reading_broken = true ∧
    (Simulation.ofText ℚ "foo\nPreyControl:\n1 0\n").is_valid = true := by
  decide!

/-- C5 (the code at the failing input). `set_lambda` returns false on
`Lambda = 1.1` and on `Lambda = -0.1`, and yet the configurations that go on
with a control section are valid, the first with the lambda 1.1 stored;
`Lambda = 0.5` is accepted and stored. -/
theorem lambda_failure_masked :
    (readLines (Reader.start : Reader ℚ)
      ["Predator:".toList, "Lambda = 1.1".toList]).reading_broken = true ∧
    (readLines (Reader.start : Reader ℚ)
      ["Predator:".toList, "Lambda = -0.1".toList]).reading_broken = true ∧
    (Simulation.ofText ℚ "Predator:\nLambda = 1.1\nPreyControl:\n1 0\n").is_valid = true ∧
    (Simulation.ofText ℚ "Predator:\nLambda = 1.1\nPreyControl:\n1 0\n").predators.map
      (fun p => p.lambda) = [11 / 10] ∧
    (Simulation.ofText ℚ "Predator:\nLambda = -0.1\nPreyControl:\n1 0\n").is_valid = true ∧
    (readLines (Reader.start : Reader ℚ)
      ["Predator:".toList, "Lambda = 0.5".toList]).reading_broken = false ∧
    (Simulation.ofText ℚ "Predator:\nLambda = 0.5\nPreyControl:\n1 0\n").is_valid = true ∧
    (Simulation.ofText ℚ "Predator:\nLambda = 0.5\nPreyControl:\n1 0\n").predators.map
      (fun p => p.lambda) = [1 / 2] := by
  decide!

/-- C4 (the claim as stated fails). The movement program of the Simulation
built from `3 4` and `3 4 2` is not a single segment of duration 2: its one
segment has an infinite duration. -/
theorem coalesced_pair_not_duration_two :
    (Simulation.ofLines ℚ ["PreyControl:".toList, "3 4".toList, "3 4 2".toList]).movements ≠
      [⟨false, 3, some 4, ((2 : ℚ) : WithTop ℚ)⟩] := by
  decide!

/-- C6 (the claim as stated fails). `PreyPosition = 1 2` and
`Trail = 0.05 0.02` are rejected: the setter returns false and stores
nothing. -/
theorem whitespace_separated_rejected :
    match_number_count "1 2".toList (-2) = none ∧
    (readLine (Reader.start : Reader ℚ) "PreyPosition = 1 2".toList).reading_broken = true ∧
    (readLine (Reader.start : Reader ℚ) "PreyPosition = 1 2".toList).sim.prey_position =
      (Simulation.init : Simulation ℚ).prey_position ∧
    (readLine (Reader.start : Reader ℚ) "Trail = 0.05 0.02".toList).reading_broken = true ∧
    (readLine (Reader.start : Reader ℚ) "Trail = 0.05 0.02".toList).sim.trail_dash_time =
      (Simulation.init : Simulation ℚ).trail_dash_time := by
  decide!

/-! ## Examples of the theorems on the reading loop -/

theorem empty_program_invalid_witness :
    (Simulation.ofLines ℚ ["PreyControl:".toList]).is_valid = false :=
  (empty_program_invalid ["PreyControl:".toList]).1 (by decide!)

theorem placeholder_replaced_witness :
    (readLine (readLine (⟨Simulation.init, .control, false, 0⟩ : Reader ℚ) "3 4".toList)
      "3 4 2".toList).sim.movements = [⟨false, 3, some 4, ((2 : ℚ) : WithTop ℚ)⟩] :=
  (placeholder_replaced (⟨Simulation.init, .control, false, 0⟩ : Reader ℚ) "3 4".toList
    "3 4 2".toList ⟨false, 3, some 4, ((0 : ℚ) : WithTop ℚ)⟩
    ⟨false, 3, some 4, ((2 : ℚ) : WithTop ℚ)⟩ rfl (by decide!) (by decide!) (by decide!)).1.trans
    (by decide!)

theorem comma_separates_numbers_witness : ',' ∈ "1, 2".toList :=
  (comma_separates_numbers "1, 2".toList (-2) (fieldTable "1, 2".toList ["1".toList, "2".toList])
    (by decide) (by decide)).1

theorem match_number_count_contract_witness :
    ∃ fields, IsNumberList "1 , -2.5 ".toList fields ∧ fields.length = (-2 : Int).natAbs ∧
      ((0 : Int) < -2 → ∀ f ∈ fields, f.head? ≠ some '-') ∧
      fieldTable "1 , -2.5 ".toList ["1".toList, "-2.5".toList] =
        fieldTable "1 , -2.5 ".toList fields :=
  (match_number_count_contract "1 , -2.5 ".toList (-2)).1
    (fieldTable "1 , -2.5 ".toList ["1".toList, "-2.5".toList]) (by decide)

/-! ## Lemmas on the tick engine -/

theorem ok_resultOr {ε α : Type} (d : α) (r : Except ε α) (h : staysInModel r = true) :
    r = .ok (resultOr d r) := by
  cases r with
  | ok a => rfl
  | error e => cases h

theorem forEachPredator_get {F : Type} (body : Predator F → Except Fault (Predator F))
    (ps ps' : List (Predator F)) (h : forEachPredator body ps = .ok ps')
    (i : Nat) (p : Predator F) (hp : ps.get? i = some p) :
    ∃ p', body p = .ok p' ∧ ps'.get? i = some p' := by
  induction ps generalizing ps' i with
  | nil => simp at hp
  | cons q qs ih =>
    unfold forEachPredator at h
    simp only [bind, Except.bind] at h
    split at h
    · cases h
    · rename_i q' hq'
      split at h
      · cases h
      · rename_i qs' hqs'
        cases h
        cases i with
        | zero =>
          simp only [List.get?_cons_zero, Option.some.injEq] at hp
          subst hp
          exact ⟨q', hq', rfl⟩
        | succ j =>
          simp only [List.get?_cons_succ] at hp
          obtain ⟨p', hb, hg⟩ := ih qs' hqs' j hp
          exact ⟨p', hb, by simpa using hg⟩

section TickTheorems

variable {F : Type} [LinearOrderedField F]

theorem snapHeading_frame (L : Libm F) (s s' : Simulation F) (m : Movement F)
    (h : snapHeading L s m = .ok s') :
    s'.predators = s.predators ∧ s'.simulation_timer = s.simulation_timer ∧
      s'.substeps = s.substeps := by
  unfold snapHeading at h
  split at h
  · simp only [bind, Except.bind] at h
    split at h
    · cases h
    · cases h; exact ⟨rfl, rfl, rfl⟩
  · cases h; exact ⟨rfl, rfl, rfl⟩

theorem advanceMovement_frame (L : Libm F) (fuel : Nat) (s s' : Simulation F)
    (h : advanceMovement L fuel s = .ok s') :
    s'.predators = s.predators ∧ s'.simulation_timer = s.simulation_timer ∧
      s'.substeps = s.substeps := by
  induction fuel generalizing s with
  | zero =>
    unfold advanceMovement at h
    split at h
    · cases h
    · cases h; exact ⟨rfl, rfl, rfl⟩
  | succ n ih =>
    unfold advanceMovement at h
    split at h
    · simp only [bind, Except.bind] at h
      split at h
      · cases h
      · split at h
        · cases h
        · rename_i m hm s1 hs1
          obtain ⟨h1, h2, h3⟩ := ih _ h
          obtain ⟨g1, g2, g3⟩ := snapHeading_frame L _ _ _ hs1
          exact ⟨h1.trans g1, h2.trans g2, h3.trans g3⟩
    · cases h; exact ⟨rfl, rfl, rfl⟩

theorem preyControl_frame (L : Libm F) (s s' : Simulation F) (elapsed : F)
    (h : preyControl L s elapsed = .ok s') :
    s'.predators = s.predators ∧ s'.simulation_timer = s.simulation_timer ∧
      s'.substeps = s.substeps := by
  unfold preyControl at h
  split at h
  · simp only [bind, Except.bind] at h
    split at h
    · cases h
    · rename_i s1 hs1
      have hf := advanceMovement_frame L _ _ _ hs1
      split at h
      · cases h
      · split at h
        · split at h
          · split at h
            · cases h
            · cases h; exact hf
          · cases h
        · split at h
          · cases h
          · cases h; exact hf
  · cases h; exact ⟨rfl, rfl, rfl⟩

theorem singleStepSimulate_predator (L : Libm F) (s s' : Simulation F) (elapsed : F)
    (h : singleStepSimulate L s elapsed = .ok s')
    (i : Nat) (p : Predator F) (hp : s.predators.get? i = some p) :
    ∃ s0 s1 p1, s0.simulation_timer = s.simulation_timer ∧
      steer L s1 elapsed (markReached L s0 p) = .ok p1 ∧
      (s'.predators.get? i = some p1 ∨ s'.predators.get? i = some (sampleTrail p1)) := by
  unfold singleStepSimulate at h
  simp only [bind, Except.bind] at h
  split at h
  · cases h
  · rename_i sa hsa
    have ha : sa.predators = s.predators ∧ sa.simulation_timer = s.simulation_timer := by
      split at hsa
      · split at hsa
        · cases hsa
        · have := snapHeading_frame L _ _ _ hsa
          exact ⟨this.1, this.2.1⟩
      · cases hsa; exact ⟨rfl, rfl⟩
    split at h
    · cases h
    · rename_i sb hsb
      have hb := preyControl_frame L _ _ _ hsb
      split at h
      · cases h
      · rename_i ps hps
        split at h
        · cases h
        · rename_i mv hmv
          have hget : (List.map (markReached L { sa with elapsed_last := elapsed })
              sa.predators).get? i = some (markReached L { sa with elapsed_last := elapsed } p) := by
            rw [ha.1]
            simp [List.get?_eq_getElem?] at hp ⊢
            exact ⟨p, hp, rfl⟩
          rw [hb.1] at hps
          obtain ⟨p1, hst, hg⟩ := forEachPredator_get _ _ _ hps i _ hget
          refine ⟨{ sa with elapsed_last := elapsed }, sb, p1, ha.2, hst, ?_⟩
          cases h
          simp only
          split
          · right
            simp [List.get?_eq_getElem?] at hg ⊢
            exact ⟨p1, hg, rfl⟩
          · left
            exact hg

theorem singleStepSimulate_timer (L : Libm F) (s s' : Simulation F) (elapsed : F)
    (h : singleStepSimulate L s elapsed = .ok s') :
    s'.simulation_timer = s.simulation_timer + elapsed ∧ s'.substeps = s.substeps := by
  unfold singleStepSimulate at h
  simp only [bind, Except.bind] at h
  split at h
  · cases h
  · rename_i sa hsa
    have ha : sa.simulation_timer = s.simulation_timer ∧ sa.substeps = s.substeps := by
      split at hsa
      · split at hsa
        · cases hsa
        · exact (snapHeading_frame L _ _ _ hsa).2
      · cases hsa; exact ⟨rfl, rfl⟩
    split at h
    · cases h
    · rename_i sb hsb
      have hb := (preyControl_frame L _ _ _ hsb).2
      split at h
      · cases h
      · split at h
        · cases h
        · cases h
          simp only
          split
          · exact ⟨by simp only [hb.1, ha.1], by simp only [hb.2, ha.2]⟩
          · exact ⟨by simp only [hb.1, ha.1], by simp only [hb.2, ha.2]⟩

theorem markReached_of_reached (L : Libm F) (s : Simulation F) (p : Predator F)
    (hr : ¬ p.when_reached < 0) : markReached L s p = p := by
  unfold markReached
  rw [if_neg]
  exact fun h => hr h.1

theorem steer_of_reached (L : Libm F) (s : Simulation F) (elapsed : F) (p : Predator F)
    (hr : ¬ p.when_reached < 0) : steer L s elapsed p = .ok p := by
  unfold steer
  rw [if_neg hr]
  rfl

theorem sampleTrail_of_reached (p : Predator F) (hr : ¬ p.when_reached < 0) :
    sampleTrail p = p := by
  unfold sampleTrail
  rw [if_neg hr]

theorem steer_when_reached (L : Libm F) (s : Simulation F) (elapsed : F) (p p' : Predator F)
    (h : steer L s elapsed p = .ok p') : p'.when_reached = p.when_reached := by
  unfold steer at h
  split at h
  · simp only [bind, Except.bind] at h
    repeat' split at h
    all_goals cases h
    rfl
  · cases h; rfl

theorem sampleTrail_when_reached (p : Predator F) :
    (sampleTrail p).when_reached = p.when_reached := by
  unfold sampleTrail
  split <;> rfl

/-- A predator that is reached is the same after a step. -/
theorem step_reached_frame (L : Libm F) (s s' : Simulation F) (elapsed : F)
    (h : singleStepSimulate L s elapsed = .ok s')
    (i : Nat) (p : Predator F) (hp : s.predators.get? i = some p)
    (hr : ¬ p.when_reached < 0) : s'.predators.get? i = some p := by
  obtain ⟨s0, s1, p1, -, hst, hg⟩ := singleStepSimulate_predator L s s' elapsed h i p hp
  rw [markReached_of_reached L s0 p hr, steer_of_reached L s1 elapsed p hr] at hst
  cases hst
  rw [sampleTrail_of_reached p hr] at hg
  exact hg.elim id id

/-- The value of `when_reached` after a step: the old one, or the time of the
step if the old one was negative. -/
theorem step_when_reached (L : Libm F) (s s' : Simulation F) (elapsed : F)
    (h : singleStepSimulate L s elapsed = .ok s')
    (i : Nat) (p : Predator F) (hp : s.predators.get? i = some p) :
    ∃ p', s'.predators.get? i = some p' ∧
      (p'.when_reached = p.when_reached ∨
        (p.when_reached < 0 ∧ p'.when_reached = s.simulation_timer)) := by
  obtain ⟨s0, s1, p1, ht, hst, hg⟩ := singleStepSimulate_predator L s s' elapsed h i p hp
  have h1 := steer_when_reached L s1 elapsed _ _ hst
  have h2 : (markReached L s0 p).when_reached = p.when_reached ∨
      (p.when_reached < 0 ∧ (markReached L s0 p).when_reached = s.simulation_timer) := by
    unfold markReached
    split
    · rename_i hc
      exact Or.inr ⟨hc.1, ht⟩
    · exact Or.inl rfl
  rcases hg with hg | hg
  · exact ⟨p1, hg, by rw [h1]; exact h2⟩
  · exact ⟨sampleTrail p1, hg, by rw [sampleTrail_when_reached, h1]; exact h2⟩

/-- What a sequence of steps keeps: the sign of the timer, and every reached
predator. -/
theorem repeatStep_frame (L : Libm F) (elapsed : F) (he : 0 ≤ elapsed) (n : Nat)
    (s s' : Simulation F) (h : repeatStep L elapsed n s = .ok s')
    (hv : 0 ≤ s.simulation_timer) :
    0 ≤ s'.simulation_timer ∧
      ∀ i p, s.predators.get? i = some p → ¬ p.when_reached < 0 →
        s'.predators.get? i = some p := by
  induction n generalizing s with
  | zero =>
    cases h
    exact ⟨hv, fun _ _ hp _ => hp⟩
  | succ n ih =>
    unfold repeatStep at h
    simp only [bind, Except.bind] at h
    split at h
    · cases h
    · rename_i s1 hs1
      have ht := (singleStepSimulate_timer L s s1 elapsed hs1).1
      have hv1 : 0 ≤ s1.simulation_timer := by rw [ht]; exact add_nonneg hv he
      obtain ⟨h0, hfr⟩ := ih s1 h hv1
      exact ⟨h0, fun i p hp hr => hfr i p (step_reached_frame L s s1 elapsed hs1 i p hp hr) hr⟩

theorem apply_frame (L : Libm F) (c : Call F) (hc : c.NonNeg) (s s' : Simulation F)
    (h : c.apply L s = .ok s') (hv : 0 ≤ s.simulation_timer) :
    0 ≤ s'.simulation_timer ∧
      ∀ i p, s.predators.get? i = some p → ¬ p.when_reached < 0 →
        s'.predators.get? i = some p := by
  cases c with
  | simulate elapsed =>
    simp only [Call.apply, simulate] at h
    split at h
    · cases h
      exact ⟨hv, fun _ _ hp _ => hp⟩
    · rename_i hsub
      have hpos : (0 : F) < (s.substeps : F) := by
        have : 0 < s.substeps := not_le.mp hsub
        exact_mod_cast this
      exact repeatStep_frame L _ (div_nonneg hc hpos.le) _ s s' h hv
  | setPreyVelocity value =>
    simp only [Call.apply, setPreyVelocity, bind, Except.bind] at h
    split at h
    · cases h
    · cases h
      exact ⟨hv, fun _ _ hp _ => hp⟩
  | rotatePreyVelocity rotation =>
    simp only [Call.apply, rotatePreyVelocity, bind, Except.bind] at h
    split at h
    · cases h
    · cases h
      exact ⟨hv, fun _ _ hp _ => hp⟩
  | setSubsteps n =>
    cases h
    exact ⟨hv, fun _ _ hp _ => hp⟩

theorem runCalls_frame (L : Libm F) (calls : List (Call F)) (hn : ∀ c ∈ calls, c.NonNeg)
    (s s' : Simulation F) (h : runCalls L s calls = .ok s') (hv : 0 ≤ s.simulation_timer) :
    0 ≤ s'.simulation_timer ∧
      ∀ i p, s.predators.get? i = some p → ¬ p.when_reached < 0 →
        s'.predators.get? i = some p := by
  induction calls generalizing s with
  | nil =>
    cases h
    exact ⟨hv, fun _ _ hp _ => hp⟩
  | cons c cs ih =>
    unfold runCalls at h
    simp only [bind, Except.bind] at h
    split at h
    · cases h
    · rename_i s1 hs1
      obtain ⟨hv1, hf1⟩ := apply_frame L c (hn c (List.mem_cons_self _ _)) s s1 hs1 hv
      obtain ⟨h0, hfr⟩ := ih (fun c' hc' => hn c' (List.mem_cons_of_mem _ hc')) s1 h hv1
      exact ⟨h0, fun i p hp hr => hfr i p (hf1 i p hp hr) hr⟩

/-- C8. `simulate(elapsed)` with `substeps <= 0` changes nothing: the state
after the call is the state before it, whatever `elapsed` is. -/
theorem simulate_nonpositive_substeps (L : Libm F) (s : Simulation F) (elapsed : F)
    (h : s.substeps ≤ 0) : simulate L s elapsed = .ok s := by
  unfold simulate
  rw [if_pos h]
  rfl

/-- C9. On a state whose timer is not negative (as it is after construction),
over every sequence of calls with non-negative `elapsed`: a tick changes a
predator's `when_reached` only from a negative (unset) value, and then to the
`simulation_timer` of that tick, which is not negative; and a `when_reached`
that is set (not negative) is the same after every later sequence of calls. -/
theorem when_reached_written_once (L : Libm F) (s s1 s2 : Simulation F)
    (calls1 calls2 : List (Call F)) (hv : 0 ≤ s.simulation_timer)
    (hn1 : ∀ c ∈ calls1, c.NonNeg) (hn2 : ∀ c ∈ calls2, c.NonNeg)
    (h1 : runCalls L s calls1 = .ok s1) (h2 : runCalls L s1 calls2 = .ok s2)
    (i : Nat) (p1 : Predator F) (hp : s1.predators.get? i = some p1) :
    (∀ elapsed s', singleStepSimulate L s1 elapsed = .ok s' →
      ∃ p', s'.predators.get? i = some p' ∧
        (p'.when_reached = p1.when_reached ∨
          (p1.when_reached < 0 ∧ p'.when_reached = s1.simulation_timer ∧
            0 ≤ p'.when_reached))) ∧
    (0 ≤ p1.when_reached →
      ∃ p2, s2.predators.get? i = some p2 ∧ p2.when_reached = p1.when_reached) := by
  have hv1 := (runCalls_frame L calls1 hn1 s s1 h1 hv).1
  constructor
  · intro elapsed s' hs'
    obtain ⟨p', hg, hw⟩ := step_when_reached L s1 s' elapsed hs' i p1 hp
    refine ⟨p', hg, hw.imp id ?_⟩
    rintro ⟨hneg, heq⟩
    exact ⟨hneg, heq, by rw [heq]; exact hv1⟩
  · intro hset
    exact ⟨p1, (runCalls_frame L calls2 hn2 s1 s2 h2 hv1).2 i p1 hp (not_lt.mpr hset), rfl⟩

/-- C10. A predator whose `when_reached` is set (not negative) is left
untouched by `singleStepSimulate`: the capture test, the steering loop and the
trail loop each return it as it is, in every state, and after a step the whole
record, with its position, its velocity and its trail, is the same as before
it. -/
theorem step_leaves_reached_predator (L : Libm F) (s : Simulation F) (elapsed : F)
    (i : Nat) (p : Predator F) (hp : s.predators.get? i = some p)
    (hr : 0 ≤ p.when_reached) :
    (∀ s0, markReached L s0 p = p) ∧ (∀ s1, steer L s1 elapsed p = .ok p) ∧
      sampleTrail p = p ∧
      ∀ s', singleStepSimulate L s elapsed = .ok s' → s'.predators.get? i = some p :=
  ⟨fun s0 => markReached_of_reached L s0 p (not_lt.mpr hr),
    fun s1 => steer_of_reached L s1 elapsed p (not_lt.mpr hr),
    sampleTrail_of_reached p (not_lt.mpr hr),
    fun s' h => step_reached_frame L s s' elapsed h i p hp (not_lt.mpr hr)⟩

end TickTheorems

/-! ## Examples of the tick theorems -/

theorem exampleCalls_nonNeg : (∀ c ∈ exampleCalls1, c.NonNeg) ∧ (∀ c ∈ exampleCalls2, c.NonNeg) := by
  constructor <;> intro c hc <;> simp [exampleCalls1, exampleCalls2] at hc
  · subst hc; simp [Call.NonNeg]
  · rcases hc with rfl | rfl | rfl <;> simp [Call.NonNeg]

theorem simulate_nonpositive_substeps_witness :
    simulate exampleLibm { exampleState with substeps := 0 } 5 =
      .ok { exampleState with substeps := 0 } :=
  simulate_nonpositive_substeps exampleLibm { exampleState with substeps := 0 } 5 (by decide)

theorem when_reached_written_once_witness :
    ∃ p2, exampleLater.predators.get? 0 = some p2 ∧
      p2.when_reached = examplePredator.when_reached :=
  (when_reached_written_once exampleLibm exampleState exampleReached exampleLater
    exampleCalls1 exampleCalls2 (by decide!) exampleCalls_nonNeg.1 exampleCalls_nonNeg.2
    (ok_resultOr _ _ (by decide!)) (ok_resultOr _ _ (by decide!))
    0 examplePredator (by decide!)).2 (by decide!)

theorem step_leaves_reached_predator_witness :
    (resultOr exampleReached (singleStepSimulate exampleLibm exampleReached 1)).predators.get? 0 =
      some examplePredator :=
  (step_leaves_reached_predator exampleLibm exampleReached 1 0 examplePredator (by decide!)
    (by decide!)).2.2.2 _ (ok_resultOr _ _ (by decide!))

/-! ## The guidance law -/

section Guidance

variable {F : Type} [LinearOrderedField F]

theorem dot_self_pos (z : Vec2 F) (hz : z ≠ Vec2.zero) : 0 < dot_product z z := by
  have h : z.x ≠ 0 ∨ z.y ≠ 0 := by
    by_contra hc
    push_neg at hc
    apply hz
    cases z
    simp only [Vec2.zero, Vec2.mk.injEq]
    exact hc
  unfold dot_product
  rcases h with h | h
  · have := mul_self_pos.mpr h
    have := mul_self_nonneg z.y
    linarith
  · have := mul_self_pos.mpr h
    have := mul_self_nonneg z.x
    linarith

theorem sqrtAt_mul_self (L : Libm F) (a : F) (h : L.SqrtAt (a * a)) : L.sqrt (a * a) = |a| := by
  obtain ⟨h0, h1⟩ := h
  have h2 : L.sqrt (a * a) ^ 2 = a ^ 2 := by rw [sq, sq]; exact h1
  rcases sq_eq_sq_iff_eq_or_eq_neg.mp h2 with h3 | h3
  · rw [h3] at h0 ⊢
    exact (abs_of_nonneg h0).symm
  · rw [h3] at h0 ⊢
    have : a ≤ 0 := by linarith
    exact (abs_of_nonpos this).symm

/-- The function `alpha` in exact arithmetic.  For every `z ≠ 0`, `v` and `a`
whose discriminant `(z.v)^2 + (z.z)(a^2 - v.v)` is not negative (and has its
square root), `alpha(z, v, a)` returns a root of
`(z.z) x^2 - 2 (z.v) x + (v.v - a^2) = 0`, no root is greater than it, and the
vector `v - alpha*z` has the squared length `a^2`, hence the length `|a|`. -/
theorem alpha_larger_root (L : Libm F) (z v : Vec2 F) (a : F) (hz : z ≠ Vec2.zero)
    (hD : 0 ≤ dot_product z v * dot_product z v +
      dot_product z z * (a * a - dot_product v v))
    (hs : L.SqrtAt (dot_product z v * dot_product z v +
      dot_product z z * (a * a - dot_product v v))) :
    ∃ al, alpha L z v a = .ok al ∧
      dot_product z z * al * al - 2 * dot_product z v * al + (dot_product v v - a * a) = 0 ∧
      (∀ x, dot_product z z * x * x - 2 * dot_product z v * x + (dot_product v v - a * a) = 0 →
        x ≤ al) ∧
      dot_product (v.sub (z.scale al)) (v.sub (z.scale al)) = a * a ∧
      (L.SqrtAt (a * a) →
        L.sqrt (dot_product (v.sub (z.scale al)) (v.sub (z.scale al))) = |a|) := by
  have hzz := dot_self_pos z hz
  obtain ⟨hr0, hr2⟩ := hs
  generalize hdef : L.sqrt (dot_product z v * dot_product z v +
      dot_product z z * (a * a - dot_product v v)) = r at hr0 hr2
  have hal : alpha L z v a = .ok ((dot_product z v + r) / dot_product z z) := by
    unfold alpha fsqrt fdiv
    simp only [bind, Except.bind, not_lt.mpr hD, if_false, hzz.ne', hdef]
  have hroot : dot_product z z * ((dot_product z v + r) / dot_product z z) *
      ((dot_product z v + r) / dot_product z z) -
      2 * dot_product z v * ((dot_product z v + r) / dot_product z z) +
      (dot_product v v - a * a) = 0 := by
    field_simp
    linear_combination hr2
  refine ⟨_, hal, hroot, ?_, ?_, ?_⟩
  · intro x hx
    rw [le_div_iff₀ hzz]
    have hsq : (dot_product z z * x - dot_product z v) ^ 2 = r ^ 2 := by
      linear_combination (dot_product z z) * hx - hr2
    rcases sq_eq_sq_iff_eq_or_eq_neg.mp hsq with h | h <;> linarith
  · have : dot_product (v.sub (z.scale ((dot_product z v + r) / dot_product z z)))
        (v.sub (z.scale ((dot_product z v + r) / dot_product z z))) =
        dot_product z z * ((dot_product z v + r) / dot_product z z) *
          ((dot_product z v + r) / dot_product z z) -
        2 * dot_product z v * ((dot_product z v + r) / dot_product z z) +
        dot_product v v := by
      simp only [dot_product, Vec2.sub, Vec2.scale]
      ring
    rw [this]
    linear_combination hroot
  · intro hsa
    have : dot_product (v.sub (z.scale ((dot_product z v + r) / dot_product z z)))
        (v.sub (z.scale ((dot_product z v + r) / dot_product z z))) = a * a := by
      have h1 : dot_product (v.sub (z.scale ((dot_product z v + r) / dot_product z z)))
          (v.sub (z.scale ((dot_product z v + r) / dot_product z z))) =
          dot_product z z * ((dot_product z v + r) / dot_product z z) *
            ((dot_product z v + r) / dot_product z z) -
          2 * dot_product z v * ((dot_product z v + r) / dot_product z z) +
          dot_product v v := by
        simp only [dot_product, Vec2.sub, Vec2.scale]
        ring
      rw [h1]
      linear_combination hroot
    rw [this]
    exact sqrtAt_mul_self L a hsa

end Guidance

/-! ## The speeds a configuration can set -/

/-- The call of a setter by its key either fails on an unknown key or is the
call of a setter of the map. -/
theorem callSetter_cases {F : Type} (setters : List (List Char × Setter F)) (m : SMatch)
    (s : Simulation F) :
    callSetter setters m s = (false, s) ∨ ∃ kv ∈ setters, callSetter setters m s = kv.2 m s := by
  unfold callSetter
  cases hl : setters.lookup (m.at 1) with
  | none => exact Or.inl rfl
  | some setter =>
    right
    induction setters with
    | nil => simp [List.lookup] at hl
    | cons kv rest ih =>
      obtain ⟨k, v⟩ := kv
      simp only [List.lookup] at hl
      split at hl
      · cases hl
        exact ⟨(k, setter), List.mem_cons_self _ _, rfl⟩
      · obtain ⟨kv', hmem, heq⟩ := ih hl
        exact ⟨kv', List.mem_cons_of_mem _ hmem, heq⟩

section Speeds

variable {F : Type} [LinearOrderedField F]

theorem stod_nonneg (s : List Char) (h : s.head? ≠ some '-') : (0 : F) ≤ stod s := by
  unfold stod
  have hneg : (s.head? == some '-') = false := by
    cases hb : (s.head? == some '-') with
    | false => rfl
    | true => exact absurd (by simpa using hb) h
  simp only [hneg, Bool.false_eq_true, if_false]
  exact div_nonneg (Nat.cast_nonneg _) (pow_nonneg (by norm_num) _)

/-- The number a setter of one unsigned number stores is not negative. -/
theorem unsigned_field_nonneg (str : List Char) (i : SMatch)
    (h : match_number_count str 1 = some i) : (0 : F) ≤ stod (i.at 1) := by
  obtain ⟨fields, hl, hlen, hsign, rfl⟩ := match_number_count_some str 1 i h
  obtain ⟨-, ⟨f1, rfl, -⟩ | ⟨f1, f2, rfl, -⟩ | ⟨f1, f2, f3, rfl, -⟩⟩ := numberList_shape str fields hl
  · apply stod_nonneg
    have := hsign (by norm_num) f1 (List.mem_singleton.mpr rfl)
    simpa [fieldTable, SMatch.at] using this
  · simp at hlen
  · simp at hlen

theorem numberSetter_speeds (count : Int) (store : SMatch → Simulation F → Simulation F)
    (hstore : ∀ i s, (store i s).prey_speed = s.prey_speed ∧
      (store i s).predators_speed = s.predators_speed)
    (m : SMatch) (s : Simulation F) (h : SpeedsNonNeg s) :
    SpeedsNonNeg (numberSetter count store m s).2 := by
  unfold numberSetter
  split
  · exact h
  · unfold SpeedsNonNeg
    rw [(hstore _ _).1, (hstore _ _).2]
    exact h

theorem colorSetter_speeds (store : Color → Simulation F → Simulation F)
    (hstore : ∀ c s, (store c s).prey_speed = s.prey_speed ∧
      (store c s).predators_speed = s.predators_speed)
    (m : SMatch) (s : Simulation F) (h : SpeedsNonNeg s) :
    SpeedsNonNeg (colorSetter store m s).2 := by
  unfold colorSetter
  split
  · exact h
  · split
    · unfold SpeedsNonNeg
      rw [(hstore _ _).1, (hstore _ _).2]
      exact h
    · exact h

theorem callSetter_speeds (setters : List (List Char × Setter F))
    (hs : setters = simulation_setters ∨ setters = predator_setters)
    (m : SMatch) (s : Simulation F) (h : SpeedsNonNeg s) :
    SpeedsNonNeg (callSetter setters m s).2 := by
  rcases callSetter_cases setters m s with hc | ⟨kv, hkv, hc⟩
  · rw [hc]; exact h
  · rw [hc]
    rcases hs with rfl | rfl
    · simp only [simulation_setters, List.mem_cons, List.mem_singleton, List.not_mem_nil,
        or_false] at hkv
      rcases hkv with rfl | rfl | rfl | rfl | rfl | rfl | rfl | rfl | rfl | rfl | rfl | rfl
      all_goals
        simp only [set_prey_position, set_prey_speed, set_predators_speed, set_prey_color,
          set_background_color, set_text_color, set_character_size, set_point_radius,
          set_trail, set_scale_speed, set_rotation_acceleration, set_zoom]
        first
          | (apply numberSetter_speeds _ _ _ _ _ h; intro _ _; exact ⟨rfl, rfl⟩)
          | (apply colorSetter_speeds _ _ _ _ h; intro _ _; exact ⟨rfl, rfl⟩)
          | (unfold numberSetter
             split
             · exact h
             · rename_i i hi
               first
                 | exact ⟨unsigned_field_nonneg _ i hi, h.2⟩
                 | exact ⟨h.1, unsigned_field_nonneg _ i hi⟩)
          | ((repeat' split) <;> exact h)
    · simp only [predator_setters, List.mem_cons, List.mem_singleton, List.not_mem_nil,
        or_false] at hkv
      rcases hkv with rfl | rfl | rfl
      all_goals
        simp only [set_predator_position, set_predator_color, set_lambda]
        first
          | (apply numberSetter_speeds _ _ _ _ _ h; intro _ _; exact ⟨rfl, rfl⟩)
          | (apply colorSetter_speeds _ _ _ _ h; intro _ _; exact ⟨rfl, rfl⟩)
          | ((repeat' split) <;> exact h)

end Speeds

section SpeedsOfFile

variable {F : Type} [LinearOrderedField F] [FloorRing F]

theorem readLine_speeds (rd : Reader F) (line : List Char) (h : SpeedsNonNeg rd.sim) :
    SpeedsNonNeg (readLine rd line).sim := by
  unfold readLine
  simp only
  generalize (if endsWith line '\r' then line.dropLast else line) = l
  cases hst : rd.state with
  | started =>
    simp only
    cases regex_match S_re.property 2 l with
    | some m => exact callSetter_speeds _ (Or.inl rfl) m rd.sim h
    | none =>
      simp only
      (repeat' split) <;> exact h
  | predator =>
    simp only
    cases regex_match S_re.property 2 l with
    | some m => exact callSetter_speeds _ (Or.inr rfl) m rd.sim h
    | none =>
      simp only
      (repeat' split) <;> exact h
  | control =>
    simp only
    cases regex_match S_re.control_value 3 l with
    | some m => exact h
    | none =>
      cases regex_match S_re.rotate_value 3 l with
      | some m =>
        simp only [add_rotating_control]
        split <;> exact h
      | none =>
        simp only
        split <;> exact h

theorem readLines_speeds (file : List (List Char)) (rd : Reader F) (h : SpeedsNonNeg rd.sim) :
    SpeedsNonNeg (readLines rd file).sim := by
  induction file generalizing rd with
  | nil => exact h
  | cons line rest ih => exact ih (readLine rd line) (readLine_speeds rd line h)

/-- C19 (as amended). `PreySpeed` and `PredatorsSpeed` cannot be negative: every
Simulation built has `prey_speed >= 0` and `predators_speed >= 0`.  A line
`PreySpeed = -1` or `PredatorsSpeed = -1` is rejected by its setter and stores
nothing; the value 0 is not rejected. -/
theorem speeds_not_negative (file : List (List Char)) :
    0 ≤ (Simulation.ofLines F file).prey_speed ∧
    0 ≤ (Simulation.ofLines F file).predators_speed ∧
    (readLine (Reader.start : Reader ℚ) "PreySpeed = -1".toList).reading_broken = true ∧
    (readLine (Reader.start : Reader ℚ) "PreySpeed = -1".toList).sim.prey_speed = 1 ∧
    (readLine (Reader.start : Reader ℚ) "PredatorsSpeed = -1".toList).reading_broken = true ∧
    (readLine (Reader.start : Reader ℚ) "PredatorsSpeed = -1".toList).sim.predators_speed =
      12 / 10 := by
  have h0 : SpeedsNonNeg (Reader.start : Reader F).sim := by
    simp only [Reader.start, Simulation.init, SpeedsNonNeg]
    constructor <;> norm_num
  have h := readLines_speeds file (Reader.start : Reader F) h0
  have hf : SpeedsNonNeg (Simulation.ofLines F file) := by
    unfold Simulation.ofLines finish
    simp only [Reader.start] at h ⊢
    (repeat' split) <;> exact h
  exact ⟨hf.1, hf.2, by decide!, by decide!, by decide!, by decide!⟩

end SpeedsOfFile

/-- C19 (the claim as stated fails). `PreySpeed = 0` and `PredatorsSpeed = 0` are
accepted by their setters, and the configuration that holds both is valid with
both speeds 0. -/
theorem zero_speed_accepted :
    (readLine (Reader.start : Reader ℚ) "PreySpeed = 0".toList).reading_broken = false ∧
    (readLine (Reader.start : Reader ℚ) "PreySpeed = 0".toList).sim.prey_speed = 0 ∧
    (readLine (Reader.start : Reader ℚ) "PredatorsSpeed = 0".toList).reading_broken = false ∧
    (readLine (Reader.start : Reader ℚ) "PredatorsSpeed = 0".toList).sim.predators_speed = 0 ∧
    (Simulation.ofText ℚ "PreySpeed = 0\nPredatorsSpeed = 0\nPreyControl:\n1 0\n").is_valid =
      true ∧
    (Simulation.ofText ℚ "PreySpeed = 0\nPredatorsSpeed = 0\nPreyControl:\n1 0\n").prey_speed =
      0 ∧
    (Simulation.ofText ℚ
      "PreySpeed = 0\nPredatorsSpeed = 0\nPreyControl:\n1 0\n").predators_speed = 0 := by
  decide!

/-! ## The parts of a step -/

section StepTheorems
variable {F : Type} [LinearOrderedField F]

/-- A step, as the sequence of its parts. -/
theorem singleStepSimulate_eq (L : Libm F) (s : Simulation F) (elapsed : F) :
    singleStepSimulate L s elapsed = (do
      let sa ← stepHead L s
      let sb ← preyControl L (afterCapture L sa elapsed) elapsed
      let ps ← forEachPredator (steer L sb elapsed) sb.predators
      let mv ← normalize L sb.prey_velocity (sb.prey_speed * elapsed)
      pure (stepTail sb ps mv elapsed)) := rfl

theorem singleStepSimulate_ok (L : Libm F) (s s' : Simulation F) (elapsed : F) :
    singleStepSimulate L s elapsed = .ok s' ↔
      ∃ sa sb ps mv, stepHead L s = .ok sa ∧
        preyControl L (afterCapture L sa elapsed) elapsed = .ok sb ∧
        forEachPredator (steer L sb elapsed) sb.predators = .ok ps ∧
        normalize L sb.prey_velocity (sb.prey_speed * elapsed) = .ok mv ∧
        s' = stepTail sb ps mv elapsed := by
  rw [singleStepSimulate_eq]
  simp only [bind, Except.bind, pure, Except.pure]
  constructor
  · intro h
    split at h
    · cases h
    · rename_i sa hsa
      split at h
      · cases h
      · rename_i sb hsb
        split at h
        · cases h
        · rename_i ps hps
          split at h
          · cases h
          · rename_i mv hmv
            cases h
            exact ⟨sa, sb, ps, mv, hsa, hsb, hps, hmv, rfl⟩
  · rintro ⟨sa, sb, ps, mv, hsa, hsb, hps, hmv, rfl⟩
    simp only [hsa, hsb, hps, hmv]

theorem snapHeading_eq (L : Libm F) (s s' : Simulation F) (m : Movement F)
    (h : snapHeading L s m = .ok s') : s' = { s with prey_velocity := s'.prey_velocity } := by
  unfold snapHeading at h
  split at h
  · simp only [bind, Except.bind] at h
    split at h
    · cases h
    · cases h; rfl
  · cases h; rfl

theorem stepHead_eq (L : Libm F) (s s' : Simulation F) (h : stepHead L s = .ok s') :
    s' = { s with prey_velocity := s'.prey_velocity } := by
  unfold stepHead at h
  split at h
  · simp only [bind, Except.bind] at h
    split at h
    · cases h
    · exact snapHeading_eq L s s' _ h
  · cases h; rfl

/-- The predator `i` after a step: the capture test, the steering and the
trail sample, each on the state it runs in. -/
theorem step_predator (L : Libm F) (s s' : Simulation F) (elapsed : F)
    (h : singleStepSimulate L s elapsed = .ok s')
    (i : Nat) (p : Predator F) (hp : s.predators.get? i = some p) :
    ∃ sa sb p1, stepHead L s = .ok sa ∧
      preyControl L (afterCapture L sa elapsed) elapsed = .ok sb ∧
      steer L sb elapsed (markReached L (atCapture sa elapsed) p) = .ok p1 ∧
      s'.predators.get? i =
        some (if sb.trail_timer - elapsed < 0 then sampleTrail p1 else p1) := by
  obtain ⟨sa, sb, ps, mv, hsa, hsb, hps, hmv, rfl⟩ := (singleStepSimulate_ok L s s' elapsed).1 h
  have hsa' := stepHead_eq L s sa hsa
  have hb := preyControl_frame L _ _ _ hsb
  have hget : sb.predators.get? i = some (markReached L (atCapture sa elapsed) p) := by
    rw [hb.1]
    have : sa.predators = s.predators := by rw [hsa']
    simp only [afterCapture, atCapture, this]
    simp [List.get?_eq_getElem?] at hp ⊢
    exact ⟨p, hp, rfl⟩
  obtain ⟨p1, hst, hg⟩ := forEachPredator_get _ _ _ hps i _ hget
  refine ⟨sa, sb, p1, hsa, hsb, hst, ?_⟩
  simp only [stepTail]
  split
  · simp [List.get?_eq_getElem?] at hg ⊢
    exact ⟨p1, hg, rfl⟩
  · exact hg

/-- C11 (as amended). In each tick the capture test marks an unreached predator
as reached, with `when_reached` the current `simulation_timer`, exactly when its
distance to the prey is below `(predators_speed - prey_speed)` times the elapsed
time of the tick being simulated. -/
theorem capture_test_current_elapsed (L : Libm F) (s s' : Simulation F) (elapsed : F)
    (h : singleStepSimulate L s elapsed = .ok s')
    (i : Nat) (p : Predator F) (hp : s.predators.get? i = some p)
    (hu : p.when_reached < 0) :
    ∃ p', s'.predators.get? i = some p' ∧
      p'.when_reached =
        if distance L s.prey_position p.position <
            (s.predators_speed - s.prey_speed) * elapsed
        then s.simulation_timer else p.when_reached := by
  obtain ⟨sa, sb, p1, hsa, -, hst, hg⟩ := step_predator L s s' elapsed h i p hp
  have hsa' := stepHead_eq L s sa hsa
  refine ⟨_, hg, ?_⟩
  have h1 : (if sb.trail_timer - elapsed < 0 then sampleTrail p1 else p1).when_reached =
      p1.when_reached := by
    split
    · exact sampleTrail_when_reached p1
    · rfl
  rw [h1, steer_when_reached L sb elapsed _ _ hst]
  have hpos : sa.prey_position = s.prey_position := by rw [hsa']
  have hps : sa.predators_speed = s.predators_speed := by rw [hsa']
  have hprs : sa.prey_speed = s.prey_speed := by rw [hsa']
  have htm : sa.simulation_timer = s.simulation_timer := by rw [hsa']
  simp only [markReached, predator_close_to_prey, atCapture, hu, true_and, decide_eq_true_eq,
    hpos, hps, hprs, htm]
  split <;> rfl

end StepTheorems

/-- C11 (the claim as stated fails). Before the first tick `elapsed_last` is 0
and the predator of `exampleState`, at distance 5, is not below the threshold of
the previous elapsed time; a first tick of 6 seconds marks it reached.  After a
first tick of 4 seconds the predator is at distance 3, below the threshold 4 of
that tick, and a second tick of 1 second does not mark it. -/
theorem capture_ignores_previous_elapsed :
    exampleState.elapsed_last = 0 ∧
    exampleState.predators.map (fun p => p.when_reached) = [-1] ∧
    exampleState.predators.map
      (fun p => decide (distance exampleLibm exampleState.prey_position p.position <
        (exampleState.predators_speed - exampleState.prey_speed) *
          exampleState.elapsed_last)) = [false] ∧
    (resultOr exampleState (singleStepSimulate exampleLibm exampleState 6)).predators.map
      (fun p => p.when_reached) = [0] ∧
    (resultOr exampleState (singleStepSimulate exampleLibm exampleState 4)).elapsed_last = 4 ∧
    (resultOr exampleState (singleStepSimulate exampleLibm exampleState 4)).predators.map
      (fun p => decide (distance exampleLibm
        (resultOr exampleState (singleStepSimulate exampleLibm exampleState 4)).prey_position
        p.position < (exampleState.predators_speed - exampleState.prey_speed) * 4)) = [true] ∧
    (resultOr exampleState (runCalls exampleLibm exampleState
      [.simulate 4, .simulate 1])).predators.map (fun p => p.when_reached) = [-1] ∧
    staysInModel (runCalls exampleLibm exampleState [.simulate 4, .simulate 1]) = true := by
  decide!

/-! ## Steering by the caller, and coincident positions -/

section OffPlan
variable {F : Type} [LinearOrderedField F]

theorem alpha_zero (L : Libm F) (v : Vec2 F) (a : F) :
    alpha L Vec2.zero v a = .error .notReal := by
  simp [alpha, fsqrt, fdiv, dot_product, Vec2.zero, bind, Except.bind]

/-- A step of a state that is off the plan keeps the switch, the cursor and
the boundary, and keeps `prey_velocity` unless it runs at time 0. -/
theorem step_off_plan (L : Libm F) (s s' : Simulation F) (elapsed : F)
    (hoff : s.move_by_plan = false) (h : singleStepSimulate L s elapsed = .ok s') :
    s'.move_by_plan = false ∧ s'.current_movement = s.current_movement ∧
      s'.time_of_next_movement = s.time_of_next_movement ∧
      (s.simulation_timer ≠ 0 → s'.prey_velocity = s.prey_velocity) := by
  obtain ⟨sa, sb, ps, mv, hsa, hsb, hps, hmv, rfl⟩ := (singleStepSimulate_ok L s _ elapsed).1 h
  have hsa' := stepHead_eq L s sa hsa
  have hoffa : (afterCapture L sa elapsed).move_by_plan = false := by
    rw [hsa']; exact hoff
  have hsb' : sb = afterCapture L sa elapsed := by
    unfold preyControl at hsb
    rw [hoffa] at hsb
    simp only [Bool.false_eq_true, if_false] at hsb
    cases hsb
    rfl
  have hfin : ∀ x : Simulation F, x = stepTail sb ps mv elapsed →
      x.move_by_plan = sb.move_by_plan ∧ x.current_movement = sb.current_movement ∧
      x.time_of_next_movement = sb.time_of_next_movement ∧
      x.prey_velocity = sb.prey_velocity := by
    rintro x rfl
    simp only [stepTail]
    split <;> exact ⟨rfl, rfl, rfl, rfl⟩
  obtain ⟨h1, h2, h3, h4⟩ := hfin _ rfl
  rw [h1, h2, h3, h4, hsb']
  refine ⟨hoffa, ?_, ?_, ?_⟩
  · simp only [afterCapture, atCapture]; rw [hsa']
  · simp only [afterCapture, atCapture]; rw [hsa']
  · intro hne
    simp only [afterCapture, atCapture]
    unfold stepHead at hsa
    rw [if_neg hne] at hsa
    cases hsa
    rfl

end OffPlan

/-- C14 (the code at the failing input). `setPreyVelocity((0, 1))` before the
first tick switches the plan off and sets `prey_velocity` to (0, 1); the first
`simulate` call, at time 0, still takes the start heading of the rotating
movement and sets `prey_velocity` to (1, 0).  Apart from that statement the
claim holds: a step off the plan keeps the switch, the cursor and the boundary,
and at a time other than 0 it keeps `prey_velocity`. -/
theorem first_tick_overrides_steering :
    staysInModel (setPreyVelocity exampleLibm rotatingState ⟨0, 1⟩) = true ∧
    steeredState.move_by_plan = false ∧
    steeredState.prey_velocity = ⟨0, 1⟩ ∧
    staysInModel (simulate exampleLibm steeredState 1) = true ∧
    (resultOr steeredState (simulate exampleLibm steeredState 1)).prey_velocity = ⟨1, 0⟩ ∧
    (resultOr steeredState (simulate exampleLibm steeredState 1)).move_by_plan = false ∧
    ∀ (F : Type) [LinearOrderedField F] (L : Libm F) (s s' : Simulation F) (elapsed : F),
      s.move_by_plan = false → singleStepSimulate L s elapsed = .ok s' →
      s'.move_by_plan = false ∧ s'.current_movement = s.current_movement ∧
        s'.time_of_next_movement = s.time_of_next_movement ∧
        (s.simulation_timer ≠ 0 → s'.prey_velocity = s.prey_velocity) :=
  ⟨by decide!, by decide!, by decide!, by decide!, by decide!, by decide!,
    fun _ _ L s s' elapsed hoff h => step_off_plan L s s' elapsed hoff h⟩

/-- C18 (the code at the failing input). With a predator as fast as the prey
and on the prey's position, the predator is not marked reached and the step
divides by zero: `alpha` divides by `z.z`, which is 0 whenever the positions
coincide. -/
theorem coincident_predator_divides_by_zero :
    coincidentState.is_valid = true ∧
    coincidentState.predators.map (fun p => (p.position, p.when_reached)) = [(⟨0, 0⟩, -1)] ∧
    coincidentState.prey_position = ⟨0, 0⟩ ∧
    coincidentState.predators.map
      (fun p => faultOf (parallelDirection exampleLibm coincidentState p)) = [some .notReal] ∧
    faultOf (singleStepSimulate exampleLibm coincidentState (1 / 10)) = some .notReal ∧
    ∀ (F : Type) [LinearOrderedField F] (L : Libm F) (v : Vec2 F) (a : F),
      alpha L Vec2.zero v a = .error .notReal :=
  ⟨by decide!, by decide!, by decide!, by decide!, by decide!,
    fun _ _ L v a => alpha_zero L v a⟩

/-! ## The trail timer -/

section Trail
variable {F : Type} [LinearOrderedField F]

theorem advanceMovement_eq (L : Libm F) (fuel : Nat) (s s' : Simulation F)
    (h : advanceMovement L fuel s = .ok s') :
    s' = { s with current_movement := s'.current_movement,
                  time_of_next_movement := s'.time_of_next_movement,
                  prey_velocity := s'.prey_velocity } := by
  induction fuel generalizing s with
  | zero =>
    unfold advanceMovement at h
    split at h
    · cases h
    · cases h; rfl
  | succ n ih =>
    unfold advanceMovement at h
    split at h
    · simp only [bind, Except.bind] at h
      split at h
      · cases h
      · split at h
        · cases h
        · rename_i m hm s1 hs1
          have h1 := ih _ h
          have h2 := snapHeading_eq L _ _ _ hs1
          rw [h1, h2]
    · cases h; rfl

theorem preyControl_eq (L : Libm F) (s s' : Simulation F) (elapsed : F)
    (h : preyControl L s elapsed = .ok s') :
    s' = { s with current_movement := s'.current_movement,
                  time_of_next_movement := s'.time_of_next_movement,
                  prey_velocity := s'.prey_velocity } := by
  unfold preyControl at h
  split at h
  · simp only [bind, Except.bind] at h
    split at h
    · cases h
    · rename_i s1 hs1
      have hf := advanceMovement_eq L _ _ _ hs1
      split at h
      · cases h
      · split at h
        · split at h
          · split at h
            · cases h
            · cases h; rw [hf]
          · cases h
        · split at h
          · cases h
          · cases h; rw [hf]
  · cases h; rfl

/-- What a step does to the trail timer and to the prey's trail. -/
theorem step_trail (L : Libm F) (s s' : Simulation F) (elapsed : F)
    (h : singleStepSimulate L s elapsed = .ok s') :
    s'.trail_dash_time = s.trail_dash_time ∧ s'.trail_gap_time = s.trail_gap_time ∧
    (s.trail_timer - elapsed < 0 →
      s'.prey_trail.length = s.prey_trail.length + 1 ∧
      s'.trail_timer = s.trail_timer - elapsed +
        (if s.trail_gap_now then s.trail_dash_time else s.trail_gap_time) ∧
      s'.trail_gap_now = !s.trail_gap_now) ∧
    (¬ s.trail_timer - elapsed < 0 →
      s'.prey_trail.length = s.prey_trail.length ∧
      s'.trail_timer = s.trail_timer - elapsed ∧ s'.trail_gap_now = s.trail_gap_now) := by
  obtain ⟨sa, sb, ps, mv, hsa, hsb, hps, hmv, rfl⟩ := (singleStepSimulate_ok L s _ elapsed).1 h
  have hsa' := stepHead_eq L s sa hsa
  have hsb' := preyControl_eq L _ _ _ hsb
  have e1 : sb.trail_timer = s.trail_timer := by rw [hsb']; simp only [afterCapture, atCapture]; rw [hsa']
  have e2 : sb.trail_gap_now = s.trail_gap_now := by rw [hsb']; simp only [afterCapture, atCapture]; rw [hsa']
  have e3 : sb.trail_dash_time = s.trail_dash_time := by rw [hsb']; simp only [afterCapture, atCapture]; rw [hsa']
  have e4 : sb.trail_gap_time = s.trail_gap_time := by rw [hsb']; simp only [afterCapture, atCapture]; rw [hsa']
  have e5 : sb.prey_trail = s.prey_trail := by rw [hsb']; simp only [afterCapture, atCapture]; rw [hsa']
  simp only [stepTail, e1, e2, e3, e4, e5]
  refine ⟨?_, ?_, ?_, ?_⟩
  · split <;> rfl
  · split <;> rfl
  · intro hl
    rw [if_pos hl]
    simp
  · intro hl
    rw [if_neg hl]
    exact ⟨rfl, rfl, rfl⟩

theorem steer_trail (L : Libm F) (s : Simulation F) (elapsed : F) (p p' : Predator F)
    (h : steer L s elapsed p = .ok p') : p'.trail = p.trail := by
  unfold steer at h
  split at h
  · simp only [bind, Except.bind] at h
    repeat' split at h
    all_goals cases h
    rfl
  · cases h; rfl

/-- What a step does to the trail of a predator that is unreached after it. -/
theorem step_predator_trail (L : Libm F) (s s' : Simulation F) (elapsed : F)
    (h : singleStepSimulate L s elapsed = .ok s')
    (i : Nat) (p : Predator F) (hp : s.predators.get? i = some p) :
    ∃ p', s'.predators.get? i = some p' ∧
      (p'.when_reached < 0 → p.when_reached < 0 ∧
        p'.trail.length = p.trail.length + (if s.trail_timer - elapsed < 0 then 1 else 0)) := by
  obtain ⟨sa, sb, p1, hsa, hsb, hst, hg⟩ := step_predator L s s' elapsed h i p hp
  have hsa' := stepHead_eq L s sa hsa
  have hsb' := preyControl_eq L _ _ _ hsb
  have e1 : sb.trail_timer = s.trail_timer := by
    rw [hsb']; simp only [afterCapture, atCapture]; rw [hsa']
  rw [e1] at hg
  refine ⟨_, hg, ?_⟩
  have hw := steer_when_reached L sb elapsed _ _ hst
  have ht := steer_trail L sb elapsed _ _ hst
  have hm : (markReached L (atCapture sa elapsed) p).trail = p.trail := by
    unfold markReached; split <;> rfl
  have hmw : (markReached L (atCapture sa elapsed) p).when_reached < 0 → p.when_reached < 0 := by
    unfold markReached
    split
    · rename_i hc; exact fun _ => hc.1
    · exact id
  split
  · intro hneg
    rw [sampleTrail_when_reached, hw] at hneg
    refine ⟨hmw hneg, ?_⟩
    have : p1.when_reached < 0 := by rw [hw]; exact hneg
    simp [sampleTrail, this, ht, hm]
  · intro hneg
    rw [hw] at hneg
    exact ⟨hmw hneg, by rw [ht, hm]; rfl⟩

/-- A tick shorter than the gap time takes the trail timer to its next
phase. -/
theorem trailPhase_step (L : Libm F) (s s' : Simulation F) (elapsed T : F) (N : Nat)
    (he0 : 0 < elapsed) (he : elapsed < 2 / 100) (hph : TrailPhase s T N)
    (h : singleStepSimulate L s elapsed = .ok s') :
    ∃ d : Nat, TrailPhase s' (T + elapsed) (N + d) ∧
      s'.prey_trail.length = s.prey_trail.length + d ∧
      d = (if s.trail_timer - elapsed < 0 then 1 else 0) := by
  obtain ⟨hd', hg', hlapse, hkeep⟩ := step_trail L s s' elapsed h
  obtain ⟨hd, hg, hcase⟩ := hph
  by_cases hl : s.trail_timer - elapsed < 0
  · obtain ⟨h1, h2, h3⟩ := hlapse hl
    refine ⟨1, ⟨hd'.trans hd, hg'.trans hg, ?_⟩, h1, by rw [if_pos hl]⟩
    rcases hcase with ⟨hgn, j, hN, ht, h0, hlt⟩ | ⟨hgn, j, hN, ht, h0, hlt⟩
    · right
      rw [hgn] at h2 h3
      simp only [if_true, hd] at h2
      refine ⟨by simpa using h3, j, by omega, ?_, ?_, ?_⟩
      · rw [h2, ht]; ring
      · rw [h2]; linarith
      · rw [h2]; linarith
    · left
      rw [hgn] at h2 h3
      simp only [Bool.false_eq_true, if_false, hg] at h2
      refine ⟨by simpa using h3, j + 1, by omega, ?_, ?_, ?_⟩
      · rw [h2, ht]; push_cast; ring
      · rw [h2]; linarith
      · rw [h2]; linarith
  · obtain ⟨h1, h2, h3⟩ := hkeep hl
    refine ⟨0, ⟨hd'.trans hd, hg'.trans hg, ?_⟩, h1, by rw [if_neg hl]⟩
    have hl' : 0 ≤ s.trail_timer - elapsed := not_lt.mp hl
    rcases hcase with ⟨hgn, j, hN, ht, h0, hlt⟩ | ⟨hgn, j, hN, ht, h0, hlt⟩
    · left
      refine ⟨h3.trans hgn, j, hN, ?_, ?_, ?_⟩
      · rw [h2, ht]; ring
      · rw [h2]; exact hl'
      · rw [h2]; linarith
    · right
      refine ⟨h3.trans hgn, j, hN, ?_, ?_, ?_⟩
      · rw [h2, ht]; ring
      · rw [h2]; exact hl'
      · rw [h2]; linarith

/-- The number of samples of a phase is within one of twice the time over
the period 0.07. -/
theorem trailPhase_count (s : Simulation F) (T : F) (N : Nat) (hph : TrailPhase s T N) :
    |(N : F) - 2 * T / (7 / 100)| < 1 := by
  obtain ⟨-, -, hcase⟩ := hph
  rw [abs_lt]
  rcases hcase with ⟨-, j, hN, ht, h0, hlt⟩ | ⟨-, j, hN, ht, h0, hlt⟩
  · have hT : T = 7 / 100 * (j : F) - s.trail_timer := by rw [ht]; ring
    have hNF : (N : F) = 2 * (j : F) := by rw [hN]; push_cast; ring
    have hdiv : 2 * T / (7 / 100) = 2 * (j : F) + 0 - 200 / 7 * s.trail_timer := by
      rw [hT]; field_simp; ring
    rw [hNF, hdiv]
    constructor <;> linarith
  · have hT : T = 7 / 100 * (j : F) + 5 / 100 - s.trail_timer := by rw [ht]; ring
    have hNF : (N : F) = 2 * (j : F) + 1 := by rw [hN]; push_cast; ring
    have hdiv : 2 * T / (7 / 100) = 2 * (j : F) + 10 / 7 - 200 / 7 * s.trail_timer := by
      rw [hT]; field_simp; ring
    rw [hNF, hdiv]
    constructor <;> linarith

/-- The trail over a run of ticks of one length. -/
theorem trailPhase_run (L : Libm F) (elapsed : F) (he0 : 0 < elapsed) (he : elapsed < 2 / 100)
    (n : Nat) (s s' : Simulation F) (T : F) (N : Nat) (hph : TrailPhase s T N)
    (h : repeatStep L elapsed n s = .ok s') :
    ∃ d : Nat, TrailPhase s' (T + n * elapsed) (N + d) ∧
      s'.prey_trail.length = s.prey_trail.length + d ∧
      ∀ i p, s.predators.get? i = some p →
        ∃ p', s'.predators.get? i = some p' ∧
          (p'.when_reached < 0 → p.when_reached < 0 ∧ p'.trail.length = p.trail.length + d) := by
  induction n generalizing s T N with
  | zero =>
    cases h
    exact ⟨0, by simpa using hph, rfl, fun i p hp => ⟨p, hp, fun hneg => ⟨hneg, rfl⟩⟩⟩
  | succ n ih =>
    unfold repeatStep at h
    simp only [bind, Except.bind] at h
    split at h
    · cases h
    · rename_i s1 hs1
      obtain ⟨d1, hph1, hlen1, hd1⟩ := trailPhase_step L s s1 elapsed T N he0 he hph hs1
      obtain ⟨d2, hph2, hlen2, hpred2⟩ := ih s1 (T + elapsed) (N + d1) hph1 h
      refine ⟨d1 + d2, ?_, by rw [hlen2, hlen1]; ring, ?_⟩
      · have e1 : T + ((n + 1 : Nat) : F) * elapsed = T + elapsed + (n : F) * elapsed := by
          push_cast; ring
        rw [e1, ← Nat.add_assoc]
        exact hph2
      · intro i p hp
        obtain ⟨p1, hp1, hstep⟩ := step_predator_trail L s s1 elapsed hs1 i p hp
        obtain ⟨p', hp', hrest⟩ := hpred2 i p1 hp1
        refine ⟨p', hp', fun hneg => ?_⟩
        obtain ⟨hneg1, hl2⟩ := hrest hneg
        obtain ⟨hneg0, hl1⟩ := hstep hneg1
        refine ⟨hneg0, ?_⟩
        rw [hl2, hl1, ← hd1]
        ring

/-- The trail count with an exact trail timer.  With `trail_dash_time` 0.05,
`trail_gap_time` 0.02 and a fixed tick length below 0.02, from a fresh trail
timer, after `n` ticks (the simulated time `T = n * elapsed`) that stay in the
real numbers the number `N` of trail points sampled for the prey, and for each
predator that is still unreached, differs from `2 * T / (0.05 + 0.02)` by less
than one: a point is sampled when a dash ends and when a gap ends. -/
theorem trail_points_count (L : Libm F) (s s' : Simulation F) (elapsed : F) (n : Nat)
    (hd : s.trail_dash_time = 5 / 100) (hg : s.trail_gap_time = 2 / 100)
    (ht : s.trail_timer = 0) (hgn : s.trail_gap_now = true)
    (he0 : 0 < elapsed) (he : elapsed < 2 / 100)
    (h : repeatStep L elapsed n s = .ok s') :
    ∃ N : Nat, s'.prey_trail.length = s.prey_trail.length + N ∧
      |(N : F) - 2 * ((n : F) * elapsed) / (5 / 100 + 2 / 100)| < 1 ∧
      ∀ i p, s.predators.get? i = some p →
        ∃ p', s'.predators.get? i = some p' ∧
          (p'.when_reached < 0 → p'.trail.length = p.trail.length + N) := by
  have hph : TrailPhase s 0 0 :=
    ⟨hd, hg, Or.inl ⟨hgn, 0, rfl, by rw [ht]; simp, by rw [ht], by rw [ht]; norm_num⟩⟩
  obtain ⟨N, hphN, hlen, hpred⟩ := trailPhase_run L elapsed he0 he n s s' 0 0 hph h
  refine ⟨N, hlen, ?_, ?_⟩
  · have := trailPhase_count s' _ _ hphN
    simp only [zero_add] at this
    have e : (5 : F) / 100 + 2 / 100 = 7 / 100 := by norm_num
    rw [e]
    exact this
  · intro i p hp
    obtain ⟨p', hp', hrest⟩ := hpred i p hp
    exact ⟨p', hp', fun hneg => (hrest hneg).2⟩

end Trail

/-- With an exact trail timer, after 70 ticks of 0.01 (0.7 seconds) from the
fresh state with the dash time 0.05 and the gap time 0.02, the prey trail has 20
points, while 0.7 / 0.07 is 10: a point is sampled twice in each period. -/
theorem trail_points_twice_per_period :
    idleState.trail_dash_time = 5 / 100 ∧ idleState.trail_gap_time = 2 / 100 ∧
      idleState.trail_timer = 0 ∧ idleState.trail_gap_now = true ∧ idleState.prey_trail = [] ∧
      staysInModel (repeatStep exampleLibm (1 / 100) 70 idleState) = true ∧
      (resultOr idleState (repeatStep exampleLibm (1 / 100) 70 idleState)).prey_trail.length = 20 ∧
      ¬ |((20 : Nat) : ℚ) - (70 * (1 / 100)) / (5 / 100 + 2 / 100)| ≤ 1 := by
  refine ⟨by decide!, by decide!, by decide!, by decide!, by decide!, by decide!, by decide!, ?_⟩
  norm_num

/-- The trail count on a run with a pursuing predator. -/
theorem trail_points_count_witness :
    ∃ N : Nat,
      (resultOr exampleState (repeatStep exampleLibm (1 / 100) 70 exampleState)).prey_trail.length =
        exampleState.prey_trail.length + N ∧
      |(N : ℚ) - 2 * (((70 : Nat) : ℚ) * (1 / 100)) / (5 / 100 + 2 / 100)| < 1 ∧
      ∀ i p, exampleState.predators.get? i = some p →
        ∃ p', (resultOr exampleState
            (repeatStep exampleLibm (1 / 100) 70 exampleState)).predators.get? i = some p' ∧
          (p'.when_reached < 0 → p'.trail.length = p.trail.length + N) :=
  trail_points_count exampleLibm exampleState _ (1 / 100) 70 (by decide!) (by decide!)
    (by decide!) (by decide!) (by decide!) (by decide!) (ok_resultOr _ _ (by decide!))

/-! ## Examples of the theorems on the capture test and on `alpha` -/

/-- The root `alpha` of the example `z = (1, 0)`, `v = (6/5, 8/5)`, `a = 2`. -/
theorem alpha_larger_root_witness :
    ∃ al, alpha exampleLibm (⟨1, 0⟩ : Vec2 ℚ) ⟨6 / 5, 8 / 5⟩ 2 = .ok al ∧
      dot_product (⟨1, 0⟩ : Vec2 ℚ) ⟨1, 0⟩ * al * al -
        2 * dot_product (⟨1, 0⟩ : Vec2 ℚ) ⟨6 / 5, 8 / 5⟩ * al +
        (dot_product (⟨6 / 5, 8 / 5⟩ : Vec2 ℚ) ⟨6 / 5, 8 / 5⟩ - 2 * 2) = 0 :=
  (alpha_larger_root exampleLibm ⟨1, 0⟩ ⟨6 / 5, 8 / 5⟩ 2 (by decide!) (by decide!)
    ⟨by decide!, by decide!⟩).imp fun _ h => ⟨h.1, h.2.1⟩

/-- The capture test on the first tick of the example state: the predator at
the distance 5 is reached in a tick of 6 seconds. -/
theorem capture_test_current_elapsed_witness :
    ∃ p', (resultOr exampleState
        (singleStepSimulate exampleLibm exampleState 6)).predators.get? 0 = some p' ∧
      p'.when_reached =
        if distance exampleLibm exampleState.prey_position (⟨3, 4⟩ : Vec2 ℚ) <
            (exampleState.predators_speed - exampleState.prey_speed) * 6
        then exampleState.simulation_timer else -1 :=
  capture_test_current_elapsed exampleLibm exampleState _ 6 (ok_resultOr _ _ (by decide!)) 0
    { examplePredator with when_reached := -1 } (by decide!) (by decide!)

/-! ## The plan executor -/

section Plan
variable {F : Type} [LinearOrderedField F]

theorem normalize_total (L : Libm F) (hL : L.SqrtNonzero) (v : Vec2 F) (t : F) :
    ∃ u, normalize L v t = .ok u := by
  unfold normalize
  split
  · exact ⟨v, rfl⟩
  · rename_i hv
    have h0 : L.sqrt (dot_product v v) ≠ 0 := hL _ (dot_self_pos v hv)
    simp [bind, Except.bind, fdiv, h0, pure, Except.pure]

theorem snapHeading_total (L : Libm F) (hL : L.SqrtNonzero) (s : Simulation F) (m : Movement F) :
    ∃ s', snapHeading L s m = .ok s' := by
  unfold snapHeading
  split
  · rename_i y _ _
    obtain ⟨u, hu⟩ := normalize_total L hL ⟨L.cos y, L.sin y⟩ s.prey_speed
    simp [bind, Except.bind, hu, pure, Except.pure]
  · exact ⟨s, rfl⟩

theorem endTime_succ (movements : List (Movement F)) (j : Nat) (m : Movement F)
    (h : movements.get? (j + 1) = some m) :
    endTime movements (j + 1) = endTime movements j + m.duration := by
  unfold endTime
  have hlt : j + 1 < movements.length := by
    rw [List.get?_eq_getElem?] at h
    exact (List.getElem?_eq_some_iff.mp h).1
  have hm : movements[j + 1] = m := by
    rw [List.get?_eq_getElem?] at h
    exact (List.getElem?_eq_some_iff.mp h).2
  rw [List.take_succ, List.getElem?_eq_getElem hlt]
  simp [hm]

theorem endTime_last (movements : List (Movement F)) (j : Nat)
    (hlast : ∃ m, movements.getLast? = some m ∧ m.duration = ⊤)
    (h : movements.length ≤ j + 1) : endTime movements j = ⊤ := by
  obtain ⟨m, hm, hd⟩ := hlast
  unfold endTime
  rw [List.take_of_length_le h]
  obtain ⟨init, rfl⟩ : ∃ init, movements = init ++ [m] := by
    rcases List.eq_nil_or_concat movements with h0 | ⟨init, b, rfl⟩
    · rw [h0] at hm; simp at hm
    · simp at hm
      exact ⟨init, by rw [hm]; simp⟩
  simp [hd]

/-- The loop of the plan executor: with fuel for the segments that are left it
ends, on the first segment that has not ended. -/
theorem advanceMovement_plan (L : Libm F) (hL : L.SqrtNonzero) (fuel : Nat) (s : Simulation F)
    (hinv : PlanInv s) (hfuel : s.movements.length ≤ s.current_movement + 1 + fuel) :
    ∃ s', advanceMovement L fuel s = .ok s' ∧ PlanInv s' ∧
      (s.simulation_timer : WithTop F) < s'.time_of_next_movement := by
  induction fuel generalizing s with
  | zero =>
    obtain ⟨hc, ht, hlast, hy, hprev⟩ := hinv
    have htop : s.time_of_next_movement = ⊤ := by
      rw [ht]; exact endTime_last _ _ hlast (by omega)
    have hn : ¬ s.time_of_next_movement ≤ (s.simulation_timer : WithTop F) := by
      rw [htop]; simp
    refine ⟨s, ?_, ⟨hc, ht, hlast, hy, hprev⟩, not_le.mp hn⟩
    unfold advanceMovement
    rw [if_neg hn]; rfl
  | succ fuel ih =>
    by_cases hle : s.time_of_next_movement ≤ (s.simulation_timer : WithTop F)
    · obtain ⟨hc, ht, hlast, hy, hprev⟩ := hinv
      have hnext : s.current_movement + 1 < s.movements.length := by
        by_contra hcon
        have htop : s.time_of_next_movement = ⊤ := by
          rw [ht]; exact endTime_last _ _ hlast (by omega)
        rw [htop] at hle
        simp at hle
      have hget : s.movements.get? (s.current_movement + 1) =
          some (s.movements.get ⟨s.current_movement + 1, hnext⟩) := List.get?_eq_get hnext
      obtain ⟨s1, hs1⟩ := snapHeading_total L hL
        { s with current_movement := s.current_movement + 1,
                 time_of_next_movement := s.time_of_next_movement +
                   (s.movements.get ⟨s.current_movement + 1, hnext⟩).duration }
        (s.movements.get ⟨s.current_movement + 1, hnext⟩)
      have e1 := snapHeading_eq L _ _ _ hs1
      have hinv1 : PlanInv s1 := by
        rw [e1]
        refine ⟨hnext, ?_, hlast, hy, ?_⟩
        · show s.time_of_next_movement + _ = endTime s.movements (s.current_movement + 1)
          rw [endTime_succ _ _ _ hget, ht]
        · intro j hj
          show endTime s.movements j ≤ (s.simulation_timer : WithTop F)
          have hj' : j < s.current_movement + 1 := hj
          rcases Nat.lt_succ_iff_lt_or_eq.mp hj' with h1 | h1
          · exact hprev j h1
          · rw [h1, ← ht]; exact hle
      have hfuel1 : s1.movements.length ≤ s1.current_movement + 1 + fuel := by
        rw [e1]
        show s.movements.length ≤ s.current_movement + 1 + 1 + fuel
        omega
      obtain ⟨s', hs', hinv', hlt'⟩ := ih s1 hinv1 hfuel1
      have htm : s1.simulation_timer = s.simulation_timer := by rw [e1]
      rw [htm] at hlt'
      refine ⟨s', ?_, hinv', hlt'⟩
      unfold advanceMovement
      rw [if_pos hle]
      simp only [bind, Except.bind, currentMovement, hget, hs1]
      exact hs'
    · refine ⟨s, ?_, hinv, not_le.mp hle⟩
      unfold advanceMovement
      rw [if_neg hle]; rfl

/-- The invariant of the executor needs only the program, the cursor, the time
of the next movement and a timer that has not gone back. -/
theorem planInv_frame (s s' : Simulation F) (hinv : PlanInv s)
    (hm : s'.movements = s.movements) (hc : s'.current_movement = s.current_movement)
    (ht : s'.time_of_next_movement = s.time_of_next_movement)
    (htm : s.simulation_timer ≤ s'.simulation_timer) : PlanInv s' := by
  obtain ⟨h1, h2, h3, h4, h5⟩ := hinv
  refine ⟨by rw [hm, hc]; exact h1, by rw [hm, hc, ht]; exact h2, by rw [hm]; exact h3,
    by rw [hm]; exact h4, ?_⟩
  intro j hj
  rw [hm]
  rw [hc] at hj
  exact (h5 j hj).trans (WithTop.coe_le_coe.mpr htm)

/-- The plan executor on a state of the invariant: it returns, the cursor is
on the first segment that has not ended, and the invariant holds after it. -/
theorem preyControl_plan (L : Libm F) (hL : L.SqrtNonzero) (s : Simulation F) (elapsed : F)
    (hinv : PlanInv s) (hp : s.move_by_plan = true) :
    ∃ s', preyControl L s elapsed = .ok s' ∧ PlanInv s' ∧
      (s.simulation_timer : WithTop F) < s'.time_of_next_movement ∧
      s'.movements = s.movements ∧ s'.simulation_timer = s.simulation_timer := by
  obtain ⟨s1, hs1, hinv1, hlt1⟩ := advanceMovement_plan L hL s.movements.length s hinv (by omega)
  have e1 := advanceMovement_eq L _ _ _ hs1
  have hm1 : s1.movements = s.movements := by rw [e1]
  have ht1 : s1.simulation_timer = s.simulation_timer := by rw [e1]
  have hc := hinv1.1
  have hy := hinv1.2.2.2.1
  have hget : s1.movements.get? s1.current_movement = some (s1.movements.get ⟨_, hc⟩) :=
    List.get?_eq_get hc
  have hmem : s1.movements.get ⟨_, hc⟩ ∈ s1.movements := List.get_mem _ _ _
  have key : ∀ v : Vec2 F, PlanInv { s1 with prey_velocity := v } ∧
      (s.simulation_timer : WithTop F) < ({ s1 with prey_velocity := v }).time_of_next_movement ∧
      ({ s1 with prey_velocity := v }).movements = s.movements ∧
      ({ s1 with prey_velocity := v }).simulation_timer = s.simulation_timer :=
    fun v => ⟨planInv_frame s1 _ hinv1 rfl rfl rfl le_rfl, hlt1, hm1, ht1⟩
  unfold preyControl
  rw [if_pos hp]
  simp only [bind, Except.bind, hs1, currentMovement, hget]
  cases hr : (s1.movements.get ⟨_, hc⟩).rotating with
  | false =>
    have hy' := hy _ hmem hr
    cases hyv : (s1.movements.get ⟨_, hc⟩).y with
    | none => exact absurd hyv hy'
    | some y =>
      obtain ⟨u, hu⟩ := normalize_total L hL ⟨(s1.movements.get ⟨_, hc⟩).x, y⟩ s1.prey_speed
      simp only [Bool.not_false, if_true, hu]
      exact ⟨_, rfl, key u⟩
  | true =>
    obtain ⟨u, hu⟩ := normalize_total L hL
      ⟨L.cos (L.atan2 s1.prey_velocity.y s1.prey_velocity.x +
          elapsed * (s1.movements.get ⟨_, hc⟩).x),
        L.sin (L.atan2 s1.prey_velocity.y s1.prey_velocity.x +
          elapsed * (s1.movements.get ⟨_, hc⟩).x)⟩ s1.prey_speed
    simp only [Bool.not_true, Bool.false_eq_true, if_false, hu]
    exact ⟨_, rfl, key u⟩

/-- A step keeps the invariant of the executor. -/
theorem step_plan (L : Libm F) (hL : L.SqrtNonzero) (s s' : Simulation F) (elapsed : F)
    (he : 0 ≤ elapsed) (hinv : PlanInv s) (h : singleStepSimulate L s elapsed = .ok s') :
    PlanInv s' := by
  obtain ⟨sa, sb, ps, mv, hsa, hsb, -, -, rfl⟩ := (singleStepSimulate_ok L s s' elapsed).mp h
  have ea := stepHead_eq L s sa hsa
  have hinva : PlanInv (afterCapture L sa elapsed) :=
    planInv_frame s _ hinv (by rw [ea]; rfl) (by rw [ea]; rfl) (by rw [ea]; rfl)
      (by rw [ea]; exact le_rfl)
  have hinvb : PlanInv sb := by
    by_cases hp : (afterCapture L sa elapsed).move_by_plan = true
    · obtain ⟨sb', hsb', hinv', -⟩ := preyControl_plan L hL _ elapsed hinva hp
      rw [hsb] at hsb'
      cases hsb'
      exact hinv'
    · unfold preyControl at hsb
      rw [if_neg hp] at hsb
      cases hsb
      exact hinva
  refine planInv_frame sb _ hinvb ?_ ?_ ?_ ?_
  · simp only [stepTail]; split <;> rfl
  · simp only [stepTail]; split <;> rfl
  · simp only [stepTail]; split <;> rfl
  · simp only [stepTail]
    split <;> exact le_add_of_nonneg_right he

theorem repeatStep_plan (L : Libm F) (hL : L.SqrtNonzero) (elapsed : F) (he : 0 ≤ elapsed)
    (n : Nat) (s s' : Simulation F) (hinv : PlanInv s)
    (h : repeatStep L elapsed n s = .ok s') : PlanInv s' := by
  induction n generalizing s with
  | zero => cases h; exact hinv
  | succ n ih =>
    unfold repeatStep at h
    simp only [bind, Except.bind] at h
    split at h
    · cases h
    · rename_i s1 hs1
      exact ih s1 (step_plan L hL s s1 elapsed he hinv hs1) h

theorem apply_plan (L : Libm F) (hL : L.SqrtNonzero) (c : Call F) (hc : c.NonNeg)
    (s s' : Simulation F) (hinv : PlanInv s) (h : c.apply L s = .ok s') : PlanInv s' := by
  cases c with
  | simulate elapsed =>
    simp only [Call.apply, simulate] at h
    split at h
    · cases h; exact hinv
    · rename_i hsub
      have hpos : (0 : F) < (s.substeps : F) := by
        have : 0 < s.substeps := not_le.mp hsub
        exact_mod_cast this
      exact repeatStep_plan L hL _ (div_nonneg hc hpos.le) _ s s' hinv h
  | setPreyVelocity value =>
    simp only [Call.apply, setPreyVelocity, bind, Except.bind] at h
    split at h
    · cases h
    · cases h
      exact planInv_frame s _ hinv rfl rfl rfl le_rfl
  | rotatePreyVelocity rotation =>
    simp only [Call.apply, rotatePreyVelocity, bind, Except.bind] at h
    split at h
    · cases h
    · cases h
      exact planInv_frame s _ hinv rfl rfl rfl le_rfl
  | setSubsteps n =>
    cases h
    exact planInv_frame s _ hinv rfl rfl rfl le_rfl

theorem runCalls_plan (L : Libm F) (hL : L.SqrtNonzero) (calls : List (Call F))
    (hn : ∀ c ∈ calls, c.NonNeg) (s s' : Simulation F) (hinv : PlanInv s)
    (h : runCalls L s calls = .ok s') : PlanInv s' := by
  induction calls generalizing s with
  | nil => cases h; exact hinv
  | cons c cs ih =>
    unfold runCalls at h
    simp only [bind, Except.bind] at h
    split at h
    · cases h
    · rename_i s1 hs1
      exact ih (fun c' hc' => hn c' (List.mem_cons_of_mem _ hc')) s1
        (apply_plan L hL c (hn c (List.mem_cons_self _ _)) s s1 hinv hs1) h

end Plan

theorem sqrtIter_eq (n : Nat) (fuel g : Nat) (h : g ≤ fuel) :
    sqrtIter n fuel g = Nat.sqrt.iter n g := by
  induction fuel generalizing g with
  | zero =>
    have hg : g = 0 := by omega
    subst hg
    rw [Nat.sqrt.iter]
    simp [sqrtIter]
  | succ fuel ih =>
    rw [Nat.sqrt.iter]
    simp only [sqrtIter]
    by_cases hlt : (g + n / g) / 2 < g
    · rw [if_pos hlt, dif_pos hlt]
      exact ih _ (by omega)
    · rw [if_neg hlt, dif_neg hlt]

theorem natSqrt_eq (n : Nat) : natSqrt n = Nat.sqrt n := by
  unfold natSqrt
  rw [sqrtIter_eq n n n le_rfl]
  exact Nat.eq_sqrt.mpr ⟨Nat.sqrt.iter_sq_le n n,
    Nat.sqrt.lt_iter_succ_sq n n (by nlinarith)⟩

/-- The square root of `exampleLibm` is exact on squares. -/
theorem exampleLibm_sqrt_sq (x : ℚ) : exampleLibm.sqrt (x * x) = |x| := by
  show ((natSqrt (x * x).num.toNat : ℚ)) / (natSqrt (x * x).den : ℚ) = |x|
  rw [natSqrt_eq, natSqrt_eq, Rat.mul_self_num, Rat.mul_self_den, Nat.sqrt_eq]
  have h1 : (x.num * x.num).toNat = x.num.natAbs * x.num.natAbs := by
    have h2 : x.num * x.num = ((x.num.natAbs * x.num.natAbs : Nat) : Int) := by
      push_cast
      rw [← abs_mul_abs_self x.num, Int.abs_eq_natAbs]
    rw [h2]
    exact Int.toNat_natCast _
  rw [h1, Nat.sqrt_eq, Rat.abs_def, Rat.divInt_eq_div]
  push_cast
  rw [Nat.cast_natAbs, Int.cast_abs]

/-- The square root of `exampleLibm` of a positive number is not zero. -/
theorem exampleLibm_sqrtNonzero : exampleLibm.SqrtNonzero := by
  intro x hx
  show ((natSqrt x.num.toNat : ℚ)) / (natSqrt x.den : ℚ) ≠ 0
  rw [natSqrt_eq, natSqrt_eq]
  have h1 : 0 < Nat.sqrt x.num.toNat := Nat.sqrt_pos.mpr (by
    have : 0 < x.num := Rat.num_pos.mpr hx
    omega)
  have h2 : 0 < Nat.sqrt x.den := Nat.sqrt_pos.mpr x.den_pos
  have h1' : (0 : ℚ) < (Nat.sqrt x.num.toNat : ℚ) := by exact_mod_cast h1
  have h2' : (0 : ℚ) < (Nat.sqrt x.den : ℚ) := by exact_mod_cast h2
  exact (div_pos h1' h2').ne'

section PlanOfFile
variable {F : Type} [LinearOrderedField F] [FloorRing F]

theorem directive_straight (line : List Char) (d : Movement F)
    (h : (directive line : Option (Movement F)) = some d) (hr : d.rotating = false) :
    d.y ≠ none := by
  unfold directive readLine at h
  simp only at h
  generalize (if endsWith line '\r' then line.dropLast else line) = l at h
  cases hc : regex_match S_re.control_value 3 l with
  | some m =>
    simp [hc, add_straight_control, popPlaceholder_nil, Simulation.init] at h
    rw [← h]
    simp
  | none =>
    cases hrv : regex_match S_re.rotate_value 3 l with
    | some m =>
      simp only [hc, hrv, add_rotating_control] at h
      split at h
      · simp [popPlaceholder_nil, Simulation.init] at h
      · simp [popPlaceholder_nil, Simulation.init] at h
        rw [← h] at hr
        simp at hr
    | none =>
      simp only [hc, hrv] at h
      split at h <;> simp [Simulation.init] at h

/-- A valid construction leaves the executor in its invariant. -/
theorem planInv_ofLines (file : List (List Char))
    (h : (Simulation.ofLines F file).valid = true) : PlanInv (Simulation.ofLines F file) := by
  obtain ⟨hb, hne, heq⟩ := valid_ofLines file h
  obtain ⟨init, d, hcat⟩ := (List.eq_nil_or_concat _).resolve_left hne
  rw [List.concat_eq_append] at hcat
  have hsub := readLines_sublist file (Reader.start : Reader F) []
    (by simp [Reader.start, Simulation.init])
  rw [List.nil_append, hcat] at hsub
  have hmov : (Simulation.ofLines F file).movements = init ++ [{ d with duration := ⊤ }] := by
    rw [heq, hcat, openEnded, modifyBack_append]
  have hcur : (Simulation.ofLines F file).current_movement = 0 ∧
      (Simulation.ofLines F file).time_of_next_movement =
        (((Simulation.ofLines F file).movements.head?.map (fun m => m.duration)).getD 0) := by
    unfold Simulation.ofLines finish
    simp only [Reader.start] at hb hne
    have hemp : (readLines (⟨Simulation.init, .started, false, 0⟩ : Reader F) file).sim.movements.isEmpty
        = false := by
      cases hm : (readLines (⟨Simulation.init, .started, false, 0⟩ : Reader F) file).sim.movements with
      | nil => exact absurd hm hne
      | cons a l => rfl
    simp [hb, hemp]
  refine ⟨?_, ?_, ?_, ?_, ?_⟩
  · rw [hcur.1, hmov]; simp
  · rw [hcur.2, hcur.1]
    unfold endTime
    cases hm : (Simulation.ofLines F file).movements with
    | nil => rw [hmov] at hm; simp at hm
    | cons a l => simp
  · exact ⟨{ d with duration := ⊤ }, by rw [hmov]; simp, rfl⟩
  · intro m hm hrot
    rw [hmov] at hm
    have hex : ∃ m0 ∈ init ++ [d], m0.rotating = m.rotating ∧ m0.y = m.y := by
      rcases List.mem_append.mp hm with h1 | h1
      · exact ⟨m, List.mem_append_left _ h1, rfl, rfl⟩
      · have : m = { d with duration := ⊤ } := by simpa using h1
        exact ⟨d, by simp, by rw [this], by rw [this]⟩
    obtain ⟨m0, hm0, hr0, hy0⟩ := hex
    obtain ⟨line, -, hd⟩ := List.mem_filterMap.mp (hsub.subset hm0)
    rw [← hy0]
    exact directive_straight line m0 hd (hr0.trans hrot)
  · intro j hj
    rw [hcur.1] at hj
    exact absurd hj (Nat.not_lt_zero _)

/-- C20. In plan-driven mode, on a state reached from a valid construction by
calls with non-negative `elapsed`, at the simulation time `t`, the plan
executor of a step returns, and after it `time_of_next_movement` is the sum of the durations of the segments 0
through the cursor and is greater than the simulation time `t`, while every
segment before the cursor has an end time not greater than `t`: the cursor is
the first segment whose end time exceeds `t`, however many segments are crossed
in the tick. -/
theorem executor_cursor_first_open (L : Libm F) (hL : L.SqrtNonzero) (file : List (List Char))
    (calls : List (Call F)) (s : Simulation F) (elapsed : F)
    (hv : (Simulation.ofLines F file).is_valid = true) (hn : ∀ c ∈ calls, c.NonNeg)
    (h : runCalls L (Simulation.ofLines F file) calls = .ok s)
    (hp : s.move_by_plan = true) :
    ∃ s', preyControl L s elapsed = .ok s' ∧ s'.movements = s.movements ∧
      s'.current_movement < s.movements.length ∧
      s'.time_of_next_movement = endTime s.movements s'.current_movement ∧
      (s.simulation_timer : WithTop F) < endTime s.movements s'.current_movement ∧
      ∀ j, j < s'.current_movement → endTime s.movements j ≤ (s.simulation_timer : WithTop F) := by
  have hinv := runCalls_plan L hL calls hn _ s (planInv_ofLines file hv) h
  obtain ⟨s', hs', ⟨hc, ht, -, -, hprev⟩, hlt, hm, htm⟩ := preyControl_plan L hL s elapsed hinv hp
  rw [hm] at hc ht hprev
  rw [htm] at hprev
  exact ⟨s', hs', hm, hc, ht, by rw [← ht]; exact hlt, hprev⟩

end PlanOfFile

/-- The executor crosses two segments in the tick at the time 3. -/
theorem executor_cursor_first_open_witness :
    (crossingState.current_movement = 0 ∧
      (resultOr crossingState (preyControl exampleLibm crossingState 1)).current_movement = 2) ∧
    ∃ s', preyControl exampleLibm crossingState 1 = .ok s' ∧
      s'.movements = crossingState.movements ∧
      s'.current_movement < crossingState.movements.length ∧
      s'.time_of_next_movement = endTime crossingState.movements s'.current_movement ∧
      (crossingState.simulation_timer : WithTop ℚ) <
        endTime crossingState.movements s'.current_movement ∧
      ∀ j, j < s'.current_movement →
        endTime crossingState.movements j ≤ (crossingState.simulation_timer : WithTop ℚ) :=
  ⟨⟨by decide!, by decide!⟩,
    executor_cursor_first_open exampleLibm exampleLibm_sqrtNonzero threeSegments [.simulate 3]
      crossingState 1 (by decide!) (by simp [Call.NonNeg]) (ok_resultOr _ _ (by decide!))
      (by decide!)⟩

/-! ## Parallel navigation at a prey speed other than 1 -/

/-- C12 (the code at the failing input). With the prey speed 2, the predators'
speed 4, the prey at (0, 0) on the heading (3, 4) and a predator of lambda 1 at
(2, 0), the positions differ and the discriminant of `alpha` is 36/25; the step
gives the prey the velocity (6/5, 8/5), of magnitude 2, and the predator the
velocity (-12/5, 16/5), of magnitude 4.  Their difference (-18/5, 8/5) is not
parallel to the line of sight (-2, 0): `parallelDirection` divides the positions
and the predators' speed by `prey_speed` but takes the prey's velocity at the
length `prey_speed`, not 1.  The velocity given is `c (v - alpha z)` with
`c = prey_speed`, and its difference to `v` is parallel to `z` only when
`c = 1` or `v` is parallel to `z`. -/
theorem parallel_direction_off_line_of_sight :
    slantState.is_valid = true ∧
    slantState.prey_speed = 2 ∧ slantState.predators_speed = 4 ∧
    slantState.prey_position = ⟨0, 0⟩ ∧
    slantState.predators.map (fun p => (p.lambda, p.position, p.when_reached)) =
      [(1, ⟨2, 0⟩, -1)] ∧
    staysInModel (singleStepSimulate exampleLibm slantState (1 / 10)) = true ∧
    (resultOr slantState (singleStepSimulate exampleLibm slantState (1 / 10))).prey_velocity =
      ⟨6 / 5, 8 / 5⟩ ∧
    dot_product (⟨1, 0⟩ : Vec2 ℚ) ⟨6 / 5, 8 / 5⟩ * dot_product (⟨1, 0⟩ : Vec2 ℚ) ⟨6 / 5, 8 / 5⟩ +
      dot_product (⟨1, 0⟩ : Vec2 ℚ) ⟨1, 0⟩ *
        (2 * 2 - dot_product (⟨6 / 5, 8 / 5⟩ : Vec2 ℚ) ⟨6 / 5, 8 / 5⟩) = 36 / 25 ∧
    (resultOr slantState (singleStepSimulate exampleLibm slantState (1 / 10))).predators.map
      (fun p => p.velocity) = [⟨-12 / 5, 16 / 5⟩] ∧
    (resultOr slantState (singleStepSimulate exampleLibm slantState (1 / 10))).predators.map
      (fun p => cross_product
        (p.velocity.sub (resultOr slantState
          (singleStepSimulate exampleLibm slantState (1 / 10))).prey_velocity)
        (slantState.prey_position.sub ⟨2, 0⟩)) = [16 / 5] ∧
    ∀ (F : Type) [LinearOrderedField F] (z v : Vec2 F) (al c : F),
      cross_product (((v.sub (z.scale al)).scale c).sub v) z = (c - 1) * cross_product v z :=
  ⟨by decide!, by decide!, by decide!, by decide!, by decide!, by decide!, by decide!,
    by decide!, by decide!, by decide!, fun _ _ z v al c => by
      simp only [cross_product, Vec2.sub, Vec2.scale]
      ring⟩

/-! ## The states of the reading loop -/

theorem regex_match_matches (re : Regex) (g : Nat) (str : List Char) (out : SMatch)
    (h : regex_match re g str = some out) :
    ∃ c', re.Matches str (str :: List.replicate g []) c' := by
  obtain ⟨s, rest, caps', hs, hm, hk⟩ := run_sound re _ _ _ _ h
  obtain ⟨rfl, -⟩ := atEnd_some _ _ _ hk
  rw [List.append_nil] at hs
  subst hs
  exact ⟨caps', hm⟩

theorem plain_lit (l : List Char) : Plain (Regex.lit l) (fun s => s = l) := by
  induction l with
  | nil => exact plain_eps
  | cons a l ih =>
    have h : Plain (Regex.lit (a :: l)) (fun s => ∃ s1 s2, s = s1 ++ s2 ∧ s1 = [a] ∧ s2 = l) :=
      plain_seq (plain_chr a) ih
    refine plain_congr h fun s => ?_
    constructor
    · rintro ⟨s1, s2, rfl, rfl, rfl⟩; rfl
    · rintro rfl; exact ⟨[a], l, rfl, rfl, rfl⟩

/-- A marker line is white space, the marker, and a rest. -/
theorem marker_shape (l str : List Char) (c c' : SMatch)
    (h : (Regex.cat [S_re.ws, Regex.lit l, .starLazy (.cls isSpace), S_re.comment]).Matches
      str c c') :
    ∃ w t, str = w ++ (l ++ t) ∧ IsWhite w := by
  simp only [Regex.cat, Regex.Matches] at h
  obtain ⟨s1, s2, c1, rfl, h1, s3, s4, c2, rfl, h2, -⟩ := h
  obtain ⟨hw, -⟩ := (plain_ws _ _ _).1 h1
  obtain ⟨rfl, -⟩ := (plain_lit l _ _ _).1 h2
  exact ⟨s1, s4, rfl, hw⟩

/-- An empty line is white space and then nothing or a comment. -/
theorem empty_line_shape (str : List Char) (c c' : SMatch)
    (h : S_re.empty_line.Matches str c c') :
    ∃ w t, str = w ++ t ∧ IsWhite w ∧ (t = [] ∨ t.head? = some ';') := by
  simp only [S_re.empty_line, S_re.comment, Regex.cat, Regex.Matches] at h
  obtain ⟨s1, s2, c1, rfl, h1, s3, s4, c2, rfl, h2, rfl, -⟩ := h
  obtain ⟨hw, -⟩ := (plain_ws _ _ _).1 h1
  refine ⟨s1, s3 ++ [], rfl, hw, ?_⟩
  rcases h2 with ⟨s5, s6, c3, rfl, h5, -⟩ | ⟨rfl, -⟩
  · obtain ⟨rfl, -⟩ := (plain_chr ';' _ _ _).1 h5
    right; rfl
  · left; rfl

/-- A property line is white space, a word, white space, and the sign `=`
with a rest. -/
theorem property_shape (str : List Char) (c c' : SMatch)
    (h : S_re.property.Matches str c c') :
    ∃ w a word w' t, str = w ++ (a :: word ++ (w' ++ '=' :: t)) ∧ IsWhite w ∧ isWord a = true ∧
      (∀ ch ∈ word, isWord ch = true) ∧ IsWhite w' := by
  simp only [S_re.property, Regex.cat, Regex.Matches] at h
  obtain ⟨s1, s2, c1, rfl, h1, s3, s4, c2, rfl, ⟨c2', h2, -⟩, s5, s6, c3, rfl, h5,
    s7, s8, c4, rfl, h7, -⟩ := h
  obtain ⟨hw, -⟩ := (plain_ws _ _ _).1 h1
  obtain ⟨hw', -⟩ := (plain_ws _ _ _).1 h5
  obtain ⟨rfl, -⟩ := (plain_chr '=' _ _ _).1 h7
  have h2' : (Regex.plus (.cls isWord)).Matches s3 c1 c2' := h2
  obtain ⟨⟨a1, a2, rfl, ⟨a, rfl, ha⟩, hrest⟩, -⟩ :=
    (plain_seq (plain_cls isWord) (plain_star_cls isWord) _ _ _).1 h2'
  exact ⟨s1, a, a2, s5, s8, by simp, hw, ha, hrest, hw'⟩

theorem isSpace_not_isWord (c : Char) (h : isSpace c = true) : isWord c = false := by
  simp only [isSpace, Bool.or_eq_true, beq_iff_eq] at h
  rcases h with ((((rfl | rfl) | rfl) | rfl) | rfl) | rfl <;> decide

theorem isWord_not_isSpace (c : Char) (h : isWord c = true) : isSpace c = false := by
  cases hs : isSpace c with
  | false => rfl
  | true => rw [isSpace_not_isWord c hs] at h; cases h

/-- A line that starts (after white space) with a word and a colon is no
empty line. -/
theorem marker_not_empty (a : Char) (l t w w2 t2 : List Char) (ha : isWord a = true)
    (h : w ++ (a :: l ++ t) = w2 ++ t2) (hw : IsWhite w) (hw2 : IsWhite w2)
    (ht2 : t2 = [] ∨ t2.head? = some ';') : False := by
  have hsp := span_unique isSpace w w2 (a :: l ++ t) t2 h hw hw2
    (by
      intro c hc
      simp only [List.cons_append, List.head?_cons, Option.some.injEq] at hc
      subst hc
      exact isWord_not_isSpace _ ha)
    (by
      rcases ht2 with rfl | h2
      · intro c hc; simp at hc
      · intro c hc
        rw [h2] at hc
        cases hc
        decide)
  rcases ht2 with rfl | h2
  · simp at hsp
  · rw [← hsp.2] at h2
    simp only [List.cons_append, List.head?_cons, Option.some.injEq] at h2
    subst h2
    revert ha
    decide

/-- A line that starts (after white space) with a word and a colon is no
property line. -/
theorem marker_not_property (word t w w2 word2 w3 t2 : List Char) (a a2 : Char)
    (ha : isWord a = true) (hword : ∀ ch ∈ word, isWord ch = true)
    (h : w ++ (a :: word ++ ':' :: t) = w2 ++ (a2 :: word2 ++ (w3 ++ '=' :: t2)))
    (hw : IsWhite w) (hw2 : IsWhite w2) (ha2 : isWord a2 = true)
    (hword2 : ∀ ch ∈ word2, isWord ch = true) (hw3 : IsWhite w3) : False := by
  have hsp := span_unique isSpace w w2 _ _ h hw hw2
    (by
      intro c hc
      simp only [List.cons_append, List.head?_cons, Option.some.injEq] at hc
      subst hc
      exact isWord_not_isSpace _ ha)
    (by
      intro c hc
      simp only [List.cons_append, List.head?_cons, Option.some.injEq] at hc
      subst hc
      exact isWord_not_isSpace _ ha2)
  have hwd := span_unique isWord (a :: word) (a2 :: word2) (':' :: t) (w3 ++ '=' :: t2) hsp.2
    (by
      intro c hc
      rcases List.mem_cons.mp hc with rfl | hc
      · exact ha
      · exact hword c hc)
    (by
      intro c hc
      rcases List.mem_cons.mp hc with rfl | hc
      · exact ha2
      · exact hword2 c hc)
    (by
      intro c hc
      simp only [List.head?_cons, Option.some.injEq] at hc
      subst hc
      decide)
    (by
      intro c hc
      cases w3 with
      | nil =>
        simp only [List.nil_append, List.head?_cons, Option.some.injEq] at hc
        subst hc
        decide
      | cons x w3 =>
        simp only [List.cons_append, List.head?_cons, Option.some.injEq] at hc
        subst hc
        exact isSpace_not_isWord _ (hw3 _ (List.mem_cons_self _ _)))
  have h2 := hwd.2
  cases w3 with
  | nil =>
    simp only [List.nil_append, List.cons.injEq] at h2
    exact absurd h2.1 (by decide)
  | cons x w3 =>
    simp only [List.cons_append, List.cons.injEq] at h2
    have hx := hw3 x (List.mem_cons_self _ _)
    rw [← h2.1] at hx
    exact absurd hx (by decide)

theorem predator_exclusive (l : List Char) (h : (regex_match S_re.predator 0 l).isSome = true) :
    regex_match S_re.property 2 l = none ∧ (regex_match S_re.empty_line 0 l).isSome = false := by
  obtain ⟨out, hout⟩ := Option.isSome_iff_exists.mp h
  obtain ⟨c', hm⟩ := regex_match_matches _ _ _ _ hout
  obtain ⟨w, t, hstr, hw⟩ := marker_shape _ _ _ _ hm
  constructor
  · cases hp : regex_match S_re.property 2 l with
    | none => rfl
    | some m =>
      exfalso
      obtain ⟨c2, hm2⟩ := regex_match_matches _ _ _ _ hp
      obtain ⟨w2, a2, word2, w3, t2, hstr2, hw2, ha2, hword2, hw3⟩ := property_shape _ _ _ hm2
      rw [hstr] at hstr2
      exact marker_not_property "redator".toList t w w2 word2 w3 t2 'P' a2 (by decide)
        (by decide) hstr2 hw hw2 ha2 hword2 hw3
  · cases he : regex_match S_re.empty_line 0 l with
    | none => rfl
    | some m =>
      exfalso
      obtain ⟨c2, hm2⟩ := regex_match_matches _ _ _ _ he
      obtain ⟨w2, t2, hstr2, hw2, ht2⟩ := empty_line_shape _ _ _ hm2
      rw [hstr] at hstr2
      exact marker_not_empty 'P' "redator:".toList t w w2 t2 (by decide) hstr2 hw hw2 ht2

theorem preycontrol_exclusive (l : List Char)
    (h : (regex_match S_re.preycontrol 0 l).isSome = true) :
    regex_match S_re.property 2 l = none ∧ (regex_match S_re.empty_line 0 l).isSome = false ∧
      (regex_match S_re.predator 0 l).isSome = false := by
  obtain ⟨out, hout⟩ := Option.isSome_iff_exists.mp h
  obtain ⟨c', hm⟩ := regex_match_matches _ _ _ _ hout
  obtain ⟨w, t, hstr, hw⟩ := marker_shape _ _ _ _ hm
  refine ⟨?_, ?_, ?_⟩
  · cases hp : regex_match S_re.property 2 l with
    | none => rfl
    | some m =>
      exfalso
      obtain ⟨c2, hm2⟩ := regex_match_matches _ _ _ _ hp
      obtain ⟨w2, a2, word2, w3, t2, hstr2, hw2, ha2, hword2, hw3⟩ := property_shape _ _ _ hm2
      rw [hstr] at hstr2
      exact marker_not_property "reyControl".toList t w w2 word2 w3 t2 'P' a2 (by decide)
        (by decide) hstr2 hw hw2 ha2 hword2 hw3
  · cases he : regex_match S_re.empty_line 0 l with
    | none => rfl
    | some m =>
      exfalso
      obtain ⟨c2, hm2⟩ := regex_match_matches _ _ _ _ he
      obtain ⟨w2, t2, hstr2, hw2, ht2⟩ := empty_line_shape _ _ _ hm2
      rw [hstr] at hstr2
      exact marker_not_empty 'P' "reyControl:".toList t w w2 t2 (by decide) hstr2 hw hw2 ht2
  · cases he : regex_match S_re.predator 0 l with
    | none => rfl
    | some m =>
      exfalso
      obtain ⟨c2, hm2⟩ := regex_match_matches _ _ _ _ he
      obtain ⟨w2, t2, hstr2, hw2⟩ := marker_shape _ _ _ _ hm2
      rw [hstr] at hstr2
      have hsp := span_unique isSpace w w2 _ _ hstr2 hw hw2
        (by intro c hc; cases hc; decide) (by intro c hc; cases hc; decide)
      have h2 := hsp.2
      simp at h2

theorem modifyBack_length {α : Type} (f : α → α) (l : List α) :
    (modifyBack f l).length = l.length := by
  rcases List.eq_nil_or_concat l with rfl | ⟨init, a, rfl⟩
  · rfl
  · rw [List.concat_eq_append, modifyBack_append]
    simp

section SetterPredators
variable {F : Type} [LinearOrderedField F]

theorem callSetter_predators (setters : List (List Char × Setter F))
    (hs : setters = simulation_setters ∨ setters = predator_setters)
    (m : SMatch) (s : Simulation F) :
    (callSetter setters m s).2.predators.length = s.predators.length := by
  rcases callSetter_cases setters m s with hc | ⟨kv, hkv, hc⟩
  · rw [hc]
  · rw [hc]
    rcases hs with rfl | rfl
    · simp only [simulation_setters, List.mem_cons, List.mem_singleton, List.not_mem_nil,
        or_false] at hkv
      rcases hkv with rfl | rfl | rfl | rfl | rfl | rfl | rfl | rfl | rfl | rfl | rfl | rfl
      all_goals
        simp only [set_prey_position, set_prey_speed, set_predators_speed, set_prey_color,
          set_background_color, set_text_color, set_character_size, set_point_radius,
          set_trail, set_scale_speed, set_rotation_acceleration, set_zoom, numberSetter,
          colorSetter]
        (repeat' split) <;> rfl
    · simp only [predator_setters, List.mem_cons, List.mem_singleton, List.not_mem_nil,
        or_false] at hkv
      rcases hkv with rfl | rfl | rfl
      all_goals
        simp only [set_predator_position, set_predator_color, set_lambda, numberSetter,
          colorSetter]
        (repeat' split) <;> simp [modifyBack_length]

end SetterPredators

section ReadingStates
variable {F : Type} [LinearOrderedField F] [FloorRing F]

/-- One line read before the control section: a `PreyControl:` marker opens
the control section, a `Predator:` marker adds a predator, and no other line
does either. -/
theorem readLine_marker (rd : Reader F) (line : List Char) (h : rd.state ≠ .control) :
    (isPreyControlMarker line = true →
      (readLine rd line).state = .control ∧
        (readLine rd line).sim.predators.length = rd.sim.predators.length) ∧
    (isPreyControlMarker line = false →
      (readLine rd line).state ≠ .control ∧
        rd.state.rank ≤ (readLine rd line).state.rank ∧
        (readLine rd line).sim.predators.length =
          rd.sim.predators.length + (if isPredatorMarker line = true then 1 else 0)) := by
  have hexP := predator_exclusive (chomp line)
  have hexC := preycontrol_exclusive (chomp line)
  unfold isPreyControlMarker isPredatorMarker
  unfold readLine
  simp only
  unfold chomp at hexP hexC ⊢
  generalize (if endsWith line '\r' then line.dropLast else line) = l at hexP hexC ⊢
  cases hst : rd.state with
  | control => exact absurd hst h
  | started =>
    simp only
    cases hp : regex_match S_re.property 2 l with
    | some m =>
      have hc : (regex_match S_re.preycontrol 0 l).isSome = false := by
        cases hc : (regex_match S_re.preycontrol 0 l).isSome with
        | false => rfl
        | true => rw [(hexC hc).1] at hp; cases hp
      have hd : (regex_match S_re.predator 0 l).isSome = false := by
        cases hd : (regex_match S_re.predator 0 l).isSome with
        | false => rfl
        | true => rw [(hexP hd).1] at hp; cases hp
      simp only [hc, hd, Bool.false_eq_true, if_false, false_implies, true_and, true_implies,
        add_zero]
      refine ⟨by simp, le_rfl, ?_⟩
      exact callSetter_predators _ (Or.inl rfl) m rd.sim
    | none =>
      simp only
      cases he : (regex_match S_re.empty_line 0 l).isSome with
      | true =>
        have hc : (regex_match S_re.preycontrol 0 l).isSome = false := by
          cases hc : (regex_match S_re.preycontrol 0 l).isSome with
          | false => rfl
          | true => rw [(hexC hc).2.1] at he; cases he
        have hd : (regex_match S_re.predator 0 l).isSome = false := by
          cases hd : (regex_match S_re.predator 0 l).isSome with
          | false => rfl
          | true => rw [(hexP hd).2] at he; cases he
        simp [hc, hd, hst]
      | false =>
        cases hd : (regex_match S_re.predator 0 l).isSome with
        | true =>
          have hc : (regex_match S_re.preycontrol 0 l).isSome = false := by
            cases hc : (regex_match S_re.preycontrol 0 l).isSome with
            | false => rfl
            | true => rw [(hexC hc).2.2] at hd; cases hd
          simp [hc, ReadingState.rank]
        | false =>
          cases hc : (regex_match S_re.preycontrol 0 l).isSome with
          | true => simp
          | false => simp [hst]
  | predator =>
    simp only
    cases hp : regex_match S_re.property 2 l with
    | some m =>
      have hc : (regex_match S_re.preycontrol 0 l).isSome = false := by
        cases hc : (regex_match S_re.preycontrol 0 l).isSome with
        | false => rfl
        | true => rw [(hexC hc).1] at hp; cases hp
      have hd : (regex_match S_re.predator 0 l).isSome = false := by
        cases hd : (regex_match S_re.predator 0 l).isSome with
        | false => rfl
        | true => rw [(hexP hd).1] at hp; cases hp
      simp only [hc, hd, Bool.false_eq_true, if_false, false_implies, true_and, true_implies,
        add_zero]
      refine ⟨by simp, le_rfl, ?_⟩
      exact callSetter_predators _ (Or.inr rfl) m rd.sim
    | none =>
      simp only
      cases he : (regex_match S_re.empty_line 0 l).isSome with
      | true =>
        have hc : (regex_match S_re.preycontrol 0 l).isSome = false := by
          cases hc : (regex_match S_re.preycontrol 0 l).isSome with
          | false => rfl
          | true => rw [(hexC hc).2.1] at he; cases he
        have hd : (regex_match S_re.predator 0 l).isSome = false := by
          cases hd : (regex_match S_re.predator 0 l).isSome with
          | false => rfl
          | true => rw [(hexP hd).2] at he; cases he
        simp [hc, hd, hst]
      | false =>
        cases hd : (regex_match S_re.predator 0 l).isSome with
        | true =>
          have hc : (regex_match S_re.preycontrol 0 l).isSome = false := by
            cases hc : (regex_match S_re.preycontrol 0 l).isSome with
            | false => rfl
            | true => rw [(hexC hc).2.2] at hd; cases hd
          simp [hc, hst, modifyBack_length]
        | false =>
          cases hc : (regex_match S_re.preycontrol 0 l).isSome with
          | true => simp
          | false => simp [hst]

theorem readLines_control (file : List (List Char)) (rd : Reader F) (h : rd.state = .control) :
    (readLines rd file).state = .control ∧
      (readLines rd file).sim.predators = rd.sim.predators := by
  induction file generalizing rd with
  | nil => exact ⟨h, rfl⟩
  | cons line rest ih =>
    obtain ⟨h1, h2, -⟩ := readLine_control rd line h
    obtain ⟨h3, h4⟩ := ih (readLine rd line) h1
    exact ⟨h3, h4.trans h2⟩

theorem readLine_rank (rd : Reader F) (line : List Char) :
    rd.state.rank ≤ (readLine rd line).state.rank := by
  by_cases h : rd.state = .control
  · rw [(readLine_control rd line h).1, h]
  · cases hc : isPreyControlMarker line with
    | true =>
      rw [((readLine_marker rd line h).1 hc).1]
      cases rd.state <;> simp [ReadingState.rank]
    | false => exact ((readLine_marker rd line h).2 hc).2.1

theorem readLines_rank (file : List (List Char)) (rd : Reader F) :
    rd.state.rank ≤ (readLines rd file).state.rank := by
  induction file generalizing rd with
  | nil => exact le_rfl
  | cons line rest ih => exact (readLine_rank rd line).trans (ih (readLine rd line))

/-- The predators of the reading loop: one for every `Predator:` marker
before the first `PreyControl:` marker. -/
theorem readLines_predators (file : List (List Char)) (rd : Reader F)
    (h : rd.state ≠ .control) :
    (readLines rd file).sim.predators.length =
      rd.sim.predators.length +
        ((file.takeWhile (fun l => !isPreyControlMarker l)).filter isPredatorMarker).length := by
  induction file generalizing rd with
  | nil => simp [readLines]
  | cons line rest ih =>
    have hstep : readLines rd (line :: rest) = readLines (readLine rd line) rest := rfl
    rw [hstep]
    cases hc : isPreyControlMarker line with
    | true =>
      obtain ⟨h1, h2⟩ := (readLine_marker rd line h).1 hc
      rw [(readLines_control rest _ h1).2, h2]
      simp [List.takeWhile, hc]
    | false =>
      obtain ⟨h1, -, h3⟩ := (readLine_marker rd line h).2 hc
      rw [ih _ h1, h3]
      cases hd : isPredatorMarker line with
      | true => simp [List.takeWhile, hc, hd, List.filter]; omega
      | false => simp [List.takeWhile, hc, hd, List.filter]

/-- C17. The state of the reading loop only moves forward in the order
Started, Predator, Control: no line takes it to an earlier state, once it has
left Started it never is Started again, once it is Control it is Control after
every remaining line, and the number of predators of the Simulation built is
the number of `Predator:` marker lines before the first `PreyControl:` marker
line. -/
theorem parser_state_forward (file : List (List Char)) :
    (∀ (rd : Reader F) (line : List Char), rd.state.rank ≤ (readLine rd line).state.rank) ∧
    (∀ (rd : Reader F) (lines : List (List Char)), rd.state ≠ .started →
      (readLines rd lines).state ≠ .started) ∧
    (∀ (rd : Reader F) (lines : List (List Char)), rd.state = .control →
      (readLines rd lines).state = .control) ∧
    (Simulation.ofLines F file).predators.length =
      ((file.takeWhile (fun l => !isPreyControlMarker l)).filter isPredatorMarker).length := by
  refine ⟨readLine_rank, ?_, fun rd lines h => (readLines_control lines rd h).1, ?_⟩
  · intro rd lines h hs
    have := readLines_rank lines rd
    rw [hs] at this
    cases hr : rd.state with
    | started => exact h hr
    | predator => rw [hr] at this; simp [ReadingState.rank] at this
    | control => rw [hr] at this; simp [ReadingState.rank] at this
  · have hcount := readLines_predators file (⟨Simulation.init, .started, false, 0⟩ : Reader F)
      (by simp)
    have hinit : (Simulation.init : Simulation F).predators.length = 0 := rfl
    rw [hinit, Nat.zero_add] at hcount
    rw [← hcount]
    unfold Simulation.ofLines finish
    (repeat' split) <;> simp

end ReadingStates

/-- The count at a configuration with two predators and a `Predator:` line in the
control section, which is not counted. -/
theorem two_predators_counted :
    (Simulation.ofLines ℚ ["Zoom = 1".toList, "Predator:".toList, "Lambda = 1".toList,
      "Predator: ; second".toList, "PreyControl:".toList, "1 0".toList,
      "Predator:".toList]).predators.length = 2 ∧
    ((["Zoom = 1".toList, "Predator:".toList, "Lambda = 1".toList,
      "Predator: ; second".toList, "PreyControl:".toList, "1 0".toList,
      "Predator:".toList].takeWhile (fun l => !isPreyControlMarker l)).filter
        isPredatorMarker).length = 2 := by
  decide!

/-! ## The chase of a stationary prey -/

section ChaseSteps
variable {F : Type} [LinearOrderedField F]

theorem normalize_zero (L : Libm F) (t : F) : normalize L (⟨0, 0⟩ : Vec2 F) t = .ok ⟨0, 0⟩ := by
  unfold normalize
  exact if_pos rfl

theorem normalize_of_sq (L : Libm F) (hL : L.SqrtExact) (v : Vec2 F) (t l : F) (hl : 0 < l)
    (hsq : dot_product v v = l * l) :
    normalize L v t = .ok ⟨v.x * t / l, v.y * t / l⟩ := by
  have hv : v ≠ Vec2.zero := by
    rintro rfl
    simp only [dot_product, Vec2.zero, mul_zero, add_zero] at hsq
    have := mul_pos hl hl
    linarith
  have hs : L.sqrt (dot_product v v) = l := by rw [hsq, hL l, abs_of_pos hl]
  unfold normalize
  rw [if_neg hv]
  simp only [bind, Except.bind, fdiv, hs, hl.ne', if_false, pure, Except.pure]

theorem naiveDirection_chase (L : Libm F) (hL : L.SqrtExact) (s : Simulation F)
    (p : Predator F) (d : F) (hd : 0 < d)
    (hdist : dot_product (s.prey_position.sub p.position) (s.prey_position.sub p.position) =
      d * d) :
    naiveDirection L s p = .ok ⟨(s.prey_position.sub p.position).x * 1 / d,
      (s.prey_position.sub p.position).y * 1 / d⟩ :=
  normalize_of_sq L hL _ 1 d hd hdist

theorem alpha_of_sq (L : Libm F) (hL : L.SqrtExact) (z v : Vec2 F) (a r : F) (hr : 0 ≤ r)
    (hD : dot_product z v * dot_product z v + dot_product z z * (a * a - dot_product v v) =
      r * r)
    (hzz : dot_product z z ≠ 0) :
    alpha L z v a = .ok ((dot_product z v + r) / dot_product z z) := by
  unfold alpha
  simp only [bind, Except.bind, fsqrt]
  rw [hD, if_neg (not_lt.mpr (mul_self_nonneg r)), hL r, abs_of_nonneg hr]
  simp only [fdiv, hzz, if_false]

/-- The body of `parallelDirection`, from the results of its parts. -/
theorem parallelDirection_ok (L : Libm F) (s : Simulation F) (p : Predator F)
    (a zx zy al : F) (v pd : Vec2 F)
    (h1 : fdiv s.predators_speed s.prey_speed = .ok a)
    (h2 : fdiv (p.position.x - s.prey_position.x) s.prey_speed = .ok zx)
    (h3 : fdiv (p.position.y - s.prey_position.y) s.prey_speed = .ok zy)
    (h4 : normalize L s.prey_velocity s.prey_speed = .ok v)
    (h5 : alpha L ⟨zx, zy⟩ v a = .ok al)
    (h6 : normalize L (v.sub ((⟨zx, zy⟩ : Vec2 F).scale al)) 1 = .ok pd) :
    parallelDirection L s p = .ok pd := by
  unfold parallelDirection
  simp only [bind, Except.bind, h1, h2, h3, h4, h5, h6]

/-- The body of the steering loop on an unreached predator, from the results
of its parts. -/
theorem steer_ok (L : Libm F) (s : Simulation F) (elapsed : F) (p : Predator F)
    (nd pd mv : Vec2 F) (vx vy : F) (hu : p.when_reached < 0)
    (h1 : naiveDirection L s p = .ok nd) (h2 : parallelDirection L s p = .ok pd)
    (h3 : normalize L ((pd.scale p.lambda).add (nd.scale (1 - p.lambda)))
      (s.predators_speed * elapsed) = .ok mv)
    (h4 : fdiv mv.x elapsed = .ok vx) (h5 : fdiv mv.y elapsed = .ok vy) :
    steer L s elapsed p =
      .ok { p with position := p.position.add mv, velocity := ⟨vx, vy⟩ } := by
  unfold steer
  rw [if_pos hu]
  simp only [bind, Except.bind, h1, h2, h3, h4, h5]
  rfl

theorem fdiv_ok (a b : F) (hb : b ≠ 0) : fdiv a b = .ok (a / b) := by
  unfold fdiv
  rw [if_neg hb]

theorem parallelDirection_chase (L : Libm F) (hL : L.SqrtExact) (s : Simulation F)
    (p : Predator F) (d : F) (hd : 0 < d) (hps : s.prey_speed = 1) (hprs : s.predators_speed = 2)
    (hv : s.prey_velocity = ⟨0, 0⟩)
    (hdist : dot_product (s.prey_position.sub p.position) (s.prey_position.sub p.position) =
      d * d) :
    ∃ pd, parallelDirection L s p = .ok pd := by
  have hd0 : d ≠ 0 := hd.ne'
  have hdist' : (s.prey_position.x - p.position.x) * (s.prey_position.x - p.position.x) +
      (s.prey_position.y - p.position.y) * (s.prey_position.y - p.position.y) = d * d := hdist
  have hzz : dot_product (⟨(p.position.x - s.prey_position.x) / 1,
      (p.position.y - s.prey_position.y) / 1⟩ : Vec2 F)
      ⟨(p.position.x - s.prey_position.x) / 1, (p.position.y - s.prey_position.y) / 1⟩ = d * d := by
    simp only [dot_product, div_one]
    linarith
  have hal := alpha_of_sq L hL (⟨(p.position.x - s.prey_position.x) / 1,
      (p.position.y - s.prey_position.y) / 1⟩ : Vec2 F) ⟨0, 0⟩ (2 / 1) (2 * d) (by linarith)
    (by
      rw [hzz]
      simp only [dot_product, mul_zero, add_zero, div_one]
      ring)
    (by rw [hzz]; exact mul_self_ne_zero.mpr hd0)
  have hu : dot_product
      ((⟨0, 0⟩ : Vec2 F).sub ((⟨(p.position.x - s.prey_position.x) / 1,
        (p.position.y - s.prey_position.y) / 1⟩ : Vec2 F).scale
        ((dot_product (⟨(p.position.x - s.prey_position.x) / 1,
          (p.position.y - s.prey_position.y) / 1⟩ : Vec2 F) ⟨0, 0⟩ + 2 * d) /
          dot_product (⟨(p.position.x - s.prey_position.x) / 1,
            (p.position.y - s.prey_position.y) / 1⟩ : Vec2 F)
            ⟨(p.position.x - s.prey_position.x) / 1, (p.position.y - s.prey_position.y) / 1⟩)))
      ((⟨0, 0⟩ : Vec2 F).sub ((⟨(p.position.x - s.prey_position.x) / 1,
        (p.position.y - s.prey_position.y) / 1⟩ : Vec2 F).scale
        ((dot_product (⟨(p.position.x - s.prey_position.x) / 1,
          (p.position.y - s.prey_position.y) / 1⟩ : Vec2 F) ⟨0, 0⟩ + 2 * d) /
          dot_product (⟨(p.position.x - s.prey_position.x) / 1,
            (p.position.y - s.prey_position.y) / 1⟩ : Vec2 F)
            ⟨(p.position.x - s.prey_position.x) / 1, (p.position.y - s.prey_position.y) / 1⟩))) =
      2 * 2 := by
    rw [hzz]
    simp only [dot_product, Vec2.sub, Vec2.scale, mul_zero, add_zero, div_one, zero_add, zero_sub]
    have e1 : (p.position.x - s.prey_position.x) * (p.position.x - s.prey_position.x) +
        (p.position.y - s.prey_position.y) * (p.position.y - s.prey_position.y) = d * d := by
      linarith
    field_simp
    linear_combination (4 * d ^ 2) * e1
  exact ⟨_, parallelDirection_ok L s p _ _ _ _ _ _
    (by rw [hps, hprs]; exact fdiv_ok _ _ one_ne_zero)
    (by rw [hps]; exact fdiv_ok _ _ one_ne_zero)
    (by rw [hps]; exact fdiv_ok _ _ one_ne_zero)
    (by rw [hv]; exact normalize_zero L _)
    hal
    (normalize_of_sq L hL _ 1 2 two_pos hu)⟩

/-- The steering of the chase: the predator moves by `2 * elapsed` towards the
prey, and past it when it is nearer. -/
theorem steer_chase (L : Libm F) (hL : L.SqrtExact) (s : Simulation F) (p : Predator F)
    (d elapsed : F) (hd : 0 < d) (he : elapsed ≠ 0) (hps : s.prey_speed = 1)
    (hprs : s.predators_speed = 2) (hv : s.prey_velocity = ⟨0, 0⟩) (hlam : p.lambda = 0)
    (hu : p.when_reached < 0)
    (hdist : dot_product (s.prey_position.sub p.position) (s.prey_position.sub p.position) =
      d * d) :
    ∃ p', steer L s elapsed p = .ok p' ∧ p'.lambda = p.lambda ∧
      p'.when_reached = p.when_reached ∧
      dot_product (s.prey_position.sub p'.position) (s.prey_position.sub p'.position) =
        (d - 2 * elapsed) * (d - 2 * elapsed) := by
  have hd0 : d ≠ 0 := hd.ne'
  have hdist' : (s.prey_position.x - p.position.x) * (s.prey_position.x - p.position.x) +
      (s.prey_position.y - p.position.y) * (s.prey_position.y - p.position.y) = d * d := hdist
  obtain ⟨pd, hpd⟩ := parallelDirection_chase L hL s p d hd hps hprs hv hdist
  have hnd := naiveDirection_chase L hL s p d hd hdist
  have hdir : dot_product
      ((pd.scale p.lambda).add ((⟨(s.prey_position.sub p.position).x * 1 / d,
        (s.prey_position.sub p.position).y * 1 / d⟩ : Vec2 F).scale (1 - p.lambda)))
      ((pd.scale p.lambda).add ((⟨(s.prey_position.sub p.position).x * 1 / d,
        (s.prey_position.sub p.position).y * 1 / d⟩ : Vec2 F).scale (1 - p.lambda))) = 1 * 1 := by
    rw [hlam]
    simp only [dot_product, Vec2.sub, Vec2.scale, Vec2.add, mul_zero, zero_add, sub_zero,
      mul_one]
    field_simp
    linear_combination hdist'
  have hmv := normalize_of_sq L hL _ (s.predators_speed * elapsed) 1 one_pos hdir
  refine ⟨_, steer_ok L s elapsed p _ pd _ _ _ hu hnd hpd hmv (fdiv_ok _ _ he) (fdiv_ok _ _ he),
    rfl, rfl, ?_⟩
  rw [hlam, hprs]
  simp only [dot_product, Vec2.sub, Vec2.scale, Vec2.add, mul_zero, zero_add, sub_zero,
    mul_one, div_one]
  field_simp
  linear_combination ((d - 2 * elapsed) ^ 2) * hdist'

theorem stepHead_chase (L : Libm F) (s : Simulation F) (p : Predator F) (d : F)
    (hc : Chase s p d) : stepHead L s = .ok s := by
  obtain ⟨-, -, -, hm, hcur, -⟩ := hc
  unfold stepHead
  split
  · have hget : s.movements.get? s.current_movement = some ⟨false, 0, some 0, ⊤⟩ := by
      rw [hm, hcur]; rfl
    simp only [currentMovement, hget, bind, Except.bind, snapHeading]
    rfl
  · rfl

theorem preyControl_chase (L : Libm F) (s : Simulation F) (elapsed : F)
    (hp : s.move_by_plan = true) (hm : s.movements = [⟨false, 0, some 0, ⊤⟩])
    (hcur : s.current_movement = 0) (ht : s.time_of_next_movement = ⊤) :
    preyControl L s elapsed = .ok { s with prey_velocity := ⟨0, 0⟩ } := by
  have hadv : advanceMovement L s.movements.length s = .ok s := by
    rw [hm]
    show advanceMovement L (0 + 1) s = .ok s
    unfold advanceMovement
    rw [if_neg (by rw [ht]; simp)]
    rfl
  have hget : s.movements.get? s.current_movement = some ⟨false, 0, some 0, ⊤⟩ := by
    rw [hm, hcur]; rfl
  unfold preyControl
  rw [if_pos hp]
  simp only [bind, Except.bind]
  rw [hadv]
  simp only [currentMovement, hget, Bool.not_false, if_true, normalize_zero]
  rfl

theorem forEachPredator_single {G : Type} (body : Predator G → Except Fault (Predator G))
    (q q' : Predator G) (h : body q = .ok q') : forEachPredator body [q] = .ok [q'] := by
  simp only [forEachPredator, bind, Except.bind, h]
  rfl

/-- One tick of the chase. -/
theorem step_chase (L : Libm F) (hL : L.SqrtExact) (s : Simulation F) (p : Predator F)
    (d elapsed : F) (he : 0 < elapsed) (hc : Chase s p d) :
    ∃ s' p' d', singleStepSimulate L s elapsed = .ok s' ∧ Chase s' p' d' ∧
      ((p.when_reached < 0 ∧ d < elapsed ∧ p'.when_reached = s.simulation_timer ∧ d' = d) ∨
        (p.when_reached < 0 ∧ elapsed ≤ d ∧ p'.when_reached = p.when_reached ∧
          d' = |d - 2 * elapsed|) ∨
        (¬ p.when_reached < 0 ∧ p'.when_reached = p.when_reached ∧ d' = d)) := by
  have hhead := stepHead_chase L s p d hc
  obtain ⟨hps, hprs, hplan, hm, hcur, ht, hpred, hlam, htm, hd, hdist⟩ := hc
  have hsb := preyControl_chase L (afterCapture L s elapsed) elapsed hplan hm hcur ht
  have hdistance : distance L s.prey_position p.position = d := by
    unfold distance
    simp only
    rw [hdist, hL d, abs_of_nonneg hd]
  have hmv0 : normalize L (⟨0, 0⟩ : Vec2 F) (s.prey_speed * elapsed) = .ok ⟨0, 0⟩ :=
    normalize_zero L _
  -- the state after a tick that gives the predator `q`
  have hafter : ∀ q : Predator F, q.lambda = 0 → ∀ d' : F, 0 ≤ d' →
      dot_product (s.prey_position.sub q.position) (s.prey_position.sub q.position) = d' * d' →
      ∃ q', Chase (stepTail { afterCapture L s elapsed with prey_velocity := ⟨0, 0⟩ } [q] ⟨0, 0⟩
        elapsed) q' d' ∧ q'.when_reached = q.when_reached := by
    intro q hq d' hd' hdq
    have hpos : (s.prey_position.add (⟨0, 0⟩ : Vec2 F)) = s.prey_position := by
      simp [Vec2.add]
    by_cases hl : s.trail_timer - elapsed < 0
    · refine ⟨sampleTrail q, ⟨?_, ?_, ?_, ?_, ?_, ?_, ?_, ?_, ?_, hd', ?_⟩, sampleTrail_when_reached q⟩
      all_goals try simp only [stepTail, afterCapture, atCapture, hl, if_true]
      · exact hps
      · exact hprs
      · exact hplan
      · exact hm
      · exact hcur
      · exact ht
      · simp
      · unfold sampleTrail; split <;> exact hq
      · exact add_nonneg htm he.le
      · rw [hpos]
        have : (sampleTrail q).position = q.position := by unfold sampleTrail; split <;> rfl
        rw [this]; exact hdq
    · refine ⟨q, ⟨?_, ?_, ?_, ?_, ?_, ?_, ?_, ?_, ?_, hd', ?_⟩, rfl⟩
      all_goals try simp only [stepTail, afterCapture, atCapture, hl, if_false]
      · exact hps
      · exact hprs
      · exact hplan
      · exact hm
      · exact hcur
      · exact ht
      · exact hq
      · exact add_nonneg htm he.le
      · rw [hpos]; exact hdq
  have hpreds : (afterCapture L s elapsed).predators = [markReached L (atCapture s elapsed) p] := by
    show (atCapture s elapsed).predators.map _ = _
    have : (atCapture s elapsed).predators = [p] := hpred
    rw [this]
    rfl
  by_cases hu : p.when_reached < 0
  · by_cases hclose : d < elapsed
    · -- reached in this tick
      have hmark : markReached L (atCapture s elapsed) p =
          { p with when_reached := s.simulation_timer } := by
        unfold markReached
        have : predator_close_to_prey L (atCapture s elapsed) p = true := by
          simp only [predator_close_to_prey, atCapture, hdistance, hps, hprs, decide_eq_true_eq]
          linarith
        rw [if_pos ⟨hu, this⟩]
        rfl
      obtain ⟨q', hq', hw⟩ := hafter { p with when_reached := s.simulation_timer } hlam d hd hdist
      refine ⟨_, q', d, (singleStepSimulate_ok L s _ elapsed).mpr
        ⟨s, _, [{ p with when_reached := s.simulation_timer }], ⟨0, 0⟩, hhead, hsb, ?_, hmv0, rfl⟩,
        hq', Or.inl ⟨hu, hclose, hw, rfl⟩⟩
      exact (congrArg (forEachPredator _) (hpreds.trans (congrArg (fun q => [q]) hmark))).trans
        (forEachPredator_single _ _ _ (steer_of_reached _ _ _ _ (by simpa using htm)))
    · -- not reached: the predator moves
      have hfar : elapsed ≤ d := not_lt.mp hclose
      have hd0 : 0 < d := lt_of_lt_of_le he hfar
      have hmark : markReached L (atCapture s elapsed) p = p := by
        unfold markReached
        have : predator_close_to_prey L (atCapture s elapsed) p = false := by
          simp only [predator_close_to_prey, atCapture, hdistance, hps, hprs, decide_eq_false_iff_not]
          linarith
        rw [if_neg (by simp [this])]
      obtain ⟨p1, hp1, hl1, hw1, hd1⟩ := steer_chase L hL
        { afterCapture L s elapsed with prey_velocity := ⟨0, 0⟩ } p d elapsed hd0 he.ne'
        hps hprs rfl hlam hu hdist
      have hd1' : dot_product (s.prey_position.sub p1.position)
          (s.prey_position.sub p1.position) = |d - 2 * elapsed| * |d - 2 * elapsed| := by
        rw [abs_mul_abs_self]
        exact hd1
      obtain ⟨q', hq', hw⟩ := hafter p1 (hl1.trans hlam) _ (abs_nonneg _) hd1'
      refine ⟨_, q', _, (singleStepSimulate_ok L s _ elapsed).mpr
        ⟨s, _, [p1], ⟨0, 0⟩, hhead, hsb, ?_, hmv0, rfl⟩,
        hq', Or.inr (Or.inl ⟨hu, hfar, hw.trans hw1, rfl⟩)⟩
      exact (congrArg (forEachPredator _) (hpreds.trans (congrArg (fun q => [q]) hmark))).trans
        (forEachPredator_single _ _ _ hp1)
  · have hmark : markReached L (atCapture s elapsed) p = p :=
      markReached_of_reached L _ p hu
    obtain ⟨q', hq', hw⟩ := hafter p hlam d hd hdist
    refine ⟨_, q', d, (singleStepSimulate_ok L s _ elapsed).mpr
      ⟨s, _, [p], ⟨0, 0⟩, hhead, hsb, ?_, hmv0, rfl⟩,
      hq', Or.inr (Or.inr ⟨hu, hw, rfl⟩)⟩
    exact (congrArg (forEachPredator _) (hpreds.trans (congrArg (fun q => [q]) hmark))).trans
      (forEachPredator_single _ _ _ (steer_of_reached _ _ _ _ hu))

theorem repeatStep_succ (L : Libm F) (elapsed : F) (n : Nat) (s s1 : Simulation F)
    (h : singleStepSimulate L s elapsed = .ok s1) :
    repeatStep L elapsed (n + 1) s = repeatStep L elapsed n s1 := by
  simp only [repeatStep, bind, Except.bind, h]

/-- The chase goes on for every number of ticks. -/
theorem chase_total (L : Libm F) (hL : L.SqrtExact) (elapsed : F) (he : 0 < elapsed) (n : Nat)
    (s : Simulation F) (p : Predator F) (d : F) (hc : Chase s p d) :
    ∃ s' p' d', repeatStep L elapsed n s = .ok s' ∧ Chase s' p' d' := by
  induction n generalizing s p d with
  | zero => exact ⟨s, p, d, rfl, hc⟩
  | succ n ih =>
    obtain ⟨s1, p1, d1, hs1, hc1, -⟩ := step_chase L hL s p d elapsed he hc
    obtain ⟨s', p', d', hs', hc'⟩ := ih s1 p1 d1 hc1
    exact ⟨s', p', d', by rw [repeatStep_succ L elapsed n s s1 hs1]; exact hs', hc'⟩

/-- At a distance that is an odd multiple of the tick length the predator is
never reached: it comes to the distance `elapsed` and then jumps over the prey
in every tick. -/
theorem chase_never (L : Libm F) (hL : L.SqrtExact) (elapsed : F) (he : 0 < elapsed) (n : Nat)
    (s : Simulation F) (p : Predator F) (d : F) (m : Nat) (hc : Chase s p d)
    (hu : p.when_reached < 0) (hd : d = (2 * (m : F) + 1) * elapsed) :
    ∃ s' p', repeatStep L elapsed n s = .ok s' ∧ s'.predators = [p'] ∧ p'.when_reached < 0 := by
  induction n generalizing s p d m with
  | zero => exact ⟨s, p, rfl, hc.2.2.2.2.2.2.1, hu⟩
  | succ n ih =>
    have hm0 : (0 : F) ≤ (m : F) := Nat.cast_nonneg m
    have hge : elapsed ≤ d := by rw [hd]; nlinarith
    obtain ⟨s1, p1, d1, hs1, hc1, hcase⟩ := step_chase L hL s p d elapsed he hc
    rcases hcase with ⟨-, hlt, -, -⟩ | ⟨-, -, hw, hd1⟩ | ⟨hnu, -, -⟩
    · exact absurd hlt (not_lt.mpr hge)
    · have hu1 : p1.when_reached < 0 := by rw [hw]; exact hu
      have hodd : ∃ m1 : Nat, d1 = (2 * (m1 : F) + 1) * elapsed := by
        cases m with
        | zero =>
          refine ⟨0, ?_⟩
          rw [hd1, hd]
          simp only [Nat.cast_zero, mul_zero, zero_add, one_mul]
          have : elapsed - 2 * elapsed = -elapsed := by ring
          rw [this, abs_neg, abs_of_pos he]
        | succ k =>
          refine ⟨k, ?_⟩
          rw [hd1, hd]
          have hk0 : (0 : F) ≤ (k : F) := Nat.cast_nonneg k
          have : (2 * ((k + 1 : Nat) : F) + 1) * elapsed - 2 * elapsed =
              (2 * (k : F) + 1) * elapsed := by
            push_cast; ring
          rw [this, abs_of_nonneg (by nlinarith)]
      obtain ⟨m1, hm1⟩ := hodd
      obtain ⟨s', p', hs', hp', hw'⟩ := ih s1 p1 d1 m1 hc1 hu1 hm1
      exact ⟨s', p', by rw [repeatStep_succ L elapsed n s s1 hs1]; exact hs', hp', hw'⟩
    · exact absurd hu hnu

/-- At a distance that is no odd multiple of the tick length the predator is
reached after finitely many ticks. -/
theorem chase_reaches (L : Libm F) (hL : L.SqrtExact) (elapsed : F) (he : 0 < elapsed) (k : Nat)
    (s : Simulation F) (p : Predator F) (d : F) (hc : Chase s p d) (hu : p.when_reached < 0)
    (hk : d < (k : F) * elapsed) (hodd : ¬ ∃ m : Nat, d = (2 * (m : F) + 1) * elapsed) :
    ∃ n s' p', repeatStep L elapsed n s = .ok s' ∧ s'.predators = [p'] ∧
      0 ≤ p'.when_reached := by
  induction k generalizing s p d with
  | zero =>
    have hd0 : 0 ≤ d := hc.2.2.2.2.2.2.2.2.2.1
    simp only [Nat.cast_zero, zero_mul] at hk
    exact absurd hk (not_lt.mpr hd0)
  | succ k ih =>
    have htm : 0 ≤ s.simulation_timer := hc.2.2.2.2.2.2.2.2.1
    obtain ⟨s1, p1, d1, hs1, hc1, hcase⟩ := step_chase L hL s p d elapsed he hc
    rcases hcase with ⟨-, -, hw, -⟩ | ⟨-, hge, hw, hd1⟩ | ⟨hnu, -, -⟩
    · refine ⟨1, s1, p1, ?_, hc1.2.2.2.2.2.2.1, by rw [hw]; exact htm⟩
      rw [repeatStep_succ L elapsed 0 s s1 hs1]
      rfl
    · have hu1 : p1.when_reached < 0 := by rw [hw]; exact hu
      have hne : d ≠ elapsed := by
        intro h
        exact hodd ⟨0, by rw [h]; simp⟩
      have hgt : elapsed < d := lt_of_le_of_ne hge (Ne.symm hne)
      have hk' : d < ((k : F) + 1) * elapsed := by
        have := hk
        push_cast at this
        exact this
      have hk1 : (1 : F) ≤ (k : F) := by
        cases k with
        | zero =>
          simp only [Nat.cast_zero, zero_add, one_mul] at hk'
          exact absurd hk' (not_lt.mpr hge)
        | succ j =>
          push_cast
          have : (0 : F) ≤ (j : F) := Nat.cast_nonneg j
          linarith
      by_cases h2 : 2 * elapsed ≤ d
      · have hd1' : d1 = d - 2 * elapsed := by
          rw [hd1, abs_of_nonneg (by linarith)]
        have hlt1 : d1 < (k : F) * elapsed := by rw [hd1']; nlinarith
        have hodd1 : ¬ ∃ m : Nat, d1 = (2 * (m : F) + 1) * elapsed := by
          rintro ⟨m, hm⟩
          refine hodd ⟨m + 1, ?_⟩
          have : d = d1 + 2 * elapsed := by rw [hd1']; ring
          rw [this, hm]
          push_cast
          ring
        obtain ⟨n, s', p', hs', hp', hw'⟩ := ih s1 p1 d1 hc1 hu1 hlt1 hodd1
        exact ⟨n + 1, s', p', by rw [repeatStep_succ L elapsed n s s1 hs1]; exact hs', hp', hw'⟩
      · have h2' : d < 2 * elapsed := not_le.mp h2
        have hd1' : d1 = 2 * elapsed - d := by
          rw [hd1, abs_of_neg (by linarith)]
          ring
        have hsmall : d1 < elapsed := by rw [hd1']; linarith
        have hlt1 : d1 < (k : F) * elapsed := by nlinarith
        have hodd1 : ¬ ∃ m : Nat, d1 = (2 * (m : F) + 1) * elapsed := by
          rintro ⟨m, hm⟩
          have hm0 : (0 : F) ≤ (m : F) := Nat.cast_nonneg m
          have : elapsed ≤ d1 := by rw [hm]; nlinarith
          linarith
        obtain ⟨n, s', p', hs', hp', hw'⟩ := ih s1 p1 d1 hc1 hu1 hlt1 hodd1
        exact ⟨n + 1, s', p', by rw [repeatStep_succ L elapsed n s s1 hs1]; exact hs', hp', hw'⟩
    · exact absurd hu hnu

end ChaseSteps

section ChaseRuns
variable {F : Type} [LinearOrderedField F] [Archimedean F]

/-- The chase in exact arithmetic, with a square root that is exact on
squares.  With `prey_speed` 1, `predators_speed` 2, a stationary prey, one
unreached predator of lambda 0 at the distance `d` and a fixed positive tick
length, every number of ticks is run, and there is a finite number of ticks
after which the predator's `when_reached` is set exactly when `d` is not an odd
multiple of the tick length. -/
theorem chase_reached_iff (L : Libm F) (hL : L.SqrtExact) (s : Simulation F) (p : Predator F)
    (d elapsed : F) (he : 0 < elapsed) (hc : Chase s p d) (hu : p.when_reached < 0) :
    (∀ n, ∃ s' p', repeatStep L elapsed n s = .ok s' ∧ s'.predators = [p']) ∧
    ((∃ n s' p', repeatStep L elapsed n s = .ok s' ∧ s'.predators = [p'] ∧
        0 ≤ p'.when_reached) ↔
      ¬ ∃ m : Nat, d = (2 * (m : F) + 1) * elapsed) := by
  refine ⟨fun n => ?_, ?_, ?_⟩
  · obtain ⟨s', p', d', hs', hc'⟩ := chase_total L hL elapsed he n s p d hc
    exact ⟨s', p', hs', hc'.2.2.2.2.2.2.1⟩
  · rintro ⟨n, s', p', hs', hp', hw'⟩ ⟨m, hm⟩
    obtain ⟨s2, p2, hs2, hp2, hw2⟩ := chase_never L hL elapsed he n s p d m hc hu hm
    rw [hs'] at hs2
    cases hs2
    rw [hp'] at hp2
    cases hp2
    exact absurd hw2 (not_lt.mpr hw')
  · intro hodd
    obtain ⟨k, hk⟩ := exists_nat_gt (d / elapsed)
    have hk' : d < (k : F) * elapsed := (div_lt_iff₀ he).mp hk
    exact chase_reaches L hL elapsed he k s p d hc hu hk' hodd

end ChaseRuns

theorem chase_exampleState :
    Chase exampleState { examplePredator with when_reached := -1 } 5 := by
  unfold Chase
  refine ⟨by decide!, by decide!, by decide!, by decide!, by decide!, by decide!, by decide!,
    by decide!, by decide!, by decide!, by decide!⟩

/-- The chase of `exampleState` with ticks of 2 seconds: the distance 5 is no
odd multiple of 2, and the predator is reached in the second tick, at the
time 2. -/
theorem chase_reached_iff_witness :
    (resultOr exampleState (repeatStep exampleLibm 2 2 exampleState)).predators.map
      (fun p => p.when_reached) = [2] ∧
    (∀ n, ∃ s' p', repeatStep exampleLibm 2 n exampleState = .ok s' ∧ s'.predators = [p']) ∧
    ((∃ n s' p', repeatStep exampleLibm 2 n exampleState = .ok s' ∧ s'.predators = [p'] ∧
        0 ≤ p'.when_reached) ↔
      ¬ ∃ m : Nat, (5 : ℚ) = (2 * (m : ℚ) + 1) * 2) :=
  ⟨by decide!, chase_reached_iff exampleLibm exampleLibm_sqrt_sq exampleState
    { examplePredator with when_reached := -1 } 5 2 two_pos chase_exampleState (by decide!)⟩

/-! ## The default colour of a predator -/

section DefaultColour
variable {F : Type} [LinearOrderedField F] [FloorRing F]

theorem toUint8_fraction (x : F) (h0 : 0 ≤ x) (h1 : x < 1) : toUint8 x = 0 := by
  unfold toUint8
  have : ⌊x⌋ = 0 := Int.floor_eq_iff.mpr ⟨by simpa using h0, by simpa using h1⟩
  rw [this]
  rfl

/-- The colour the end of construction gives to a predator of a lambda
strictly between 0 and 1 that has no colour: black. -/
theorem finalColor_fraction (p : Predator F) (ha : p.color.a = 0) (h0 : 0 < p.lambda)
    (h1 : p.lambda < 1) : (finalColor p).color = Color.rgb 0 0 0 := by
  unfold finalColor
  rw [if_pos ha]
  simp only
  rw [toUint8_fraction p.lambda h0.le h1, toUint8_fraction (1 - p.lambda) (by linarith)
    (by linarith)]
  rfl

end DefaultColour

/-- C22 (the code at the failing input). Two predators of lambda 0.5 with no
`Color` line: the one whose block is closed by a `Predator:` marker gets the
blend (127, 127, 0), the one whose block is closed by the `PreyControl:` marker
gets (0, 0, 0).  The `PreyControl:` marker gives no colour; construction gives
one when it ends, by `Uint8(lambda) * 255`, which truncates lambda before the
product: every predator of a lambda strictly between 0 and 1 that has no colour
when construction ends is black.  For the lambdas 1 and 0 the two rules give the
same colour. -/
theorem default_colour_rules_differ :
    blendState.is_valid = true ∧
    blendState.predators.map (fun p => (p.lambda, p.color)) =
      [(1 / 2, ⟨127, 127, 0, 255⟩), (1 / 2, ⟨0, 0, 0, 255⟩)] ∧
    (readLines (Reader.start : Reader ℚ) ["Predator:".toList, "Lambda = 0.5".toList,
      "Predator:".toList, "Lambda = 0.5".toList, "PreyControl:".toList]).sim.predators.map
        (fun p => p.color) = [⟨127, 127, 0, 255⟩, ⟨0, 0, 0, 0⟩] ∧
    (Simulation.ofLines ℚ ["Predator:".toList, "Lambda = 1".toList, "Predator:".toList,
      "Lambda = 1".toList, "PreyControl:".toList, "1 0".toList]).predators.map
        (fun p => p.color) = [⟨255, 0, 0, 255⟩, ⟨255, 0, 0, 255⟩] ∧
    (Simulation.ofLines ℚ ["Predator:".toList, "Lambda = 0".toList, "Predator:".toList,
      "Lambda = 0".toList, "PreyControl:".toList, "1 0".toList]).predators.map
        (fun p => p.color) = [⟨0, 255, 0, 255⟩, ⟨0, 255, 0, 255⟩] ∧
    ∀ (F : Type) [LinearOrderedField F] [FloorRing F] (p : Predator F),
      p.color.a = 0 → 0 < p.lambda → p.lambda < 1 → (finalColor p).color = ⟨0, 0, 0, 255⟩ :=
  ⟨by decide!, by decide!, by decide!, by decide!, by decide!,
    fun _ _ _ p ha h0 h1 => finalColor_fraction p ha h0 h1⟩

/-! ## The cursor never leaves the program -/

section CursorSafety
variable {F : Type} [LinearOrderedField F]

theorem fdiv_fault (a b : F) (e : Fault) (h : fdiv a b = .error e) : e = .notReal := by
  unfold fdiv at h
  split at h <;> cases h
  rfl

theorem fsqrt_fault (L : Libm F) (a : F) (e : Fault) (h : fsqrt L a = .error e) :
    e = .notReal := by
  unfold fsqrt at h
  split at h <;> cases h
  rfl

theorem normalize_fault (L : Libm F) (v : Vec2 F) (t : F) (e : Fault)
    (h : normalize L v t = .error e) : e = .notReal := by
  unfold normalize at h
  split at h
  · cases h
  · simp only [bind, Except.bind] at h
    split at h
    · rename_i h1; cases h; exact fdiv_fault _ _ _ h1
    · split at h
      · rename_i h1; cases h; exact fdiv_fault _ _ _ h1
      · cases h

theorem alpha_fault (L : Libm F) (z v : Vec2 F) (a : F) (e : Fault)
    (h : alpha L z v a = .error e) : e = .notReal := by
  unfold alpha at h
  simp only [bind, Except.bind] at h
  split at h
  · rename_i h1; cases h; exact fsqrt_fault _ _ _ h1
  · exact fdiv_fault _ _ _ h

theorem parallelDirection_fault (L : Libm F) (s : Simulation F) (p : Predator F) (e : Fault)
    (h : parallelDirection L s p = .error e) : e = .notReal := by
  unfold parallelDirection at h
  simp only [bind, Except.bind] at h
  split at h
  · rename_i h1; cases h; exact fdiv_fault _ _ _ h1
  · split at h
    · rename_i h1; cases h; exact fdiv_fault _ _ _ h1
    · split at h
      · rename_i h1; cases h; exact fdiv_fault _ _ _ h1
      · split at h
        · rename_i h1; cases h; exact normalize_fault _ _ _ _ h1
        · split at h
          · rename_i h1; cases h; exact alpha_fault _ _ _ _ _ h1
          · exact normalize_fault _ _ _ _ h

theorem steer_fault (L : Libm F) (s : Simulation F) (elapsed : F) (p : Predator F) (e : Fault)
    (h : steer L s elapsed p = .error e) : e = .notReal := by
  unfold steer at h
  split at h
  · simp only [bind, Except.bind] at h
    split at h
    · rename_i h1; cases h; exact normalize_fault _ _ _ _ h1
    · split at h
      · rename_i h1; cases h; exact parallelDirection_fault _ _ _ _ h1
      · split at h
        · rename_i h1; cases h; exact normalize_fault _ _ _ _ h1
        · split at h
          · rename_i h1; cases h; exact fdiv_fault _ _ _ h1
          · split at h
            · rename_i h1; cases h; exact fdiv_fault _ _ _ h1
            · cases h
  · cases h

theorem forEachPredator_fault {G : Type} (body : Predator G → Except Fault (Predator G))
    (hb : ∀ p e, body p = .error e → e = .notReal) (l : List (Predator G)) (e : Fault)
    (h : forEachPredator body l = .error e) : e = .notReal := by
  induction l with
  | nil => cases h
  | cons q qs ih =>
    unfold forEachPredator at h
    simp only [bind, Except.bind] at h
    split at h
    · rename_i h1; cases h; exact hb _ _ h1
    · split at h
      · rename_i h1; cases h; exact ih h1
      · cases h

theorem snapHeading_fault (L : Libm F) (s : Simulation F) (m : Movement F) (e : Fault)
    (h : snapHeading L s m = .error e) : e = .notReal := by
  unfold snapHeading at h
  split at h
  · simp only [bind, Except.bind] at h
    split at h
    · rename_i h1; cases h; exact normalize_fault _ _ _ _ h1
    · cases h
  · cases h

theorem planSafe_frame (s s' : Simulation F) (hs : PlanSafe s)
    (hm : s'.movements = s.movements) (hc : s'.current_movement = s.current_movement)
    (ht : s'.time_of_next_movement = s.time_of_next_movement) : PlanSafe s' := by
  obtain ⟨h1, h2, h3⟩ := hs
  exact ⟨by rw [hm, hc]; exact h1, by rw [hm, hc, ht]; exact h2, by rw [hm]; exact h3⟩

/-- The loop of the plan executor on a safe cursor: it never runs off the
program. -/
theorem advanceMovement_safe (L : Libm F) (fuel : Nat) (s : Simulation F) (hs : PlanSafe s)
    (hfuel : s.movements.length ≤ s.current_movement + 1 + fuel) :
    (∃ s', advanceMovement L fuel s = .ok s' ∧ PlanSafe s' ∧ s'.movements = s.movements ∧
      s.current_movement ≤ s'.current_movement) ∨
    advanceMovement L fuel s = .error .notReal := by
  induction fuel generalizing s with
  | zero =>
    obtain ⟨hc, ht, hlast⟩ := hs
    have htop : s.time_of_next_movement = ⊤ := by
      rw [ht]; exact endTime_last _ _ hlast (by omega)
    have hn : ¬ s.time_of_next_movement ≤ (s.simulation_timer : WithTop F) := by
      rw [htop]; simp
    left
    refine ⟨s, ?_, ⟨hc, ht, hlast⟩, rfl, le_rfl⟩
    unfold advanceMovement
    rw [if_neg hn]; rfl
  | succ fuel ih =>
    by_cases hle : s.time_of_next_movement ≤ (s.simulation_timer : WithTop F)
    · obtain ⟨hc, ht, hlast⟩ := hs
      have hnext : s.current_movement + 1 < s.movements.length := by
        by_contra hcon
        have htop : s.time_of_next_movement = ⊤ := by
          rw [ht]; exact endTime_last _ _ hlast (by omega)
        rw [htop] at hle
        simp at hle
      have hget : s.movements.get? (s.current_movement + 1) =
          some (s.movements.get ⟨s.current_movement + 1, hnext⟩) := List.get?_eq_get hnext
      have hunf : advanceMovement L (fuel + 1) s =
          (snapHeading L
            { s with current_movement := s.current_movement + 1,
                     time_of_next_movement := s.time_of_next_movement +
                       (s.movements.get ⟨s.current_movement + 1, hnext⟩).duration }
            (s.movements.get ⟨s.current_movement + 1, hnext⟩)).bind
            (advanceMovement L fuel) := by
        conv_lhs => unfold advanceMovement
        rw [if_pos hle]
        simp only [bind, Except.bind, currentMovement, hget]
      rw [hunf]
      cases hsn : snapHeading L
            { s with current_movement := s.current_movement + 1,
                     time_of_next_movement := s.time_of_next_movement +
                       (s.movements.get ⟨s.current_movement + 1, hnext⟩).duration }
            (s.movements.get ⟨s.current_movement + 1, hnext⟩) with
      | error e =>
        right
        rw [snapHeading_fault _ _ _ _ hsn]
        rfl
      | ok s1 =>
        have e1 := snapHeading_eq L _ _ _ hsn
        have hs1 : PlanSafe s1 := by
          rw [e1]
          refine ⟨hnext, ?_, hlast⟩
          show s.time_of_next_movement + _ = endTime s.movements (s.current_movement + 1)
          rw [endTime_succ _ _ _ hget, ht]
        have hfuel1 : s1.movements.length ≤ s1.current_movement + 1 + fuel := by
          rw [e1]
          show s.movements.length ≤ s.current_movement + 1 + 1 + fuel
          omega
        have hm1 : s1.movements = s.movements := by rw [e1]
        have hc1 : s1.current_movement = s.current_movement + 1 := by rw [e1]
        rcases ih s1 hs1 hfuel1 with ⟨s', hs', hsafe', hm', hc'⟩ | herr
        · left
          exact ⟨s', hs', hsafe', hm'.trans hm1, by omega⟩
        · right
          exact herr
    · left
      refine ⟨s, ?_, hs, rfl, le_rfl⟩
      unfold advanceMovement
      rw [if_neg hle]; rfl

theorem preyControl_safe (L : Libm F) (s : Simulation F) (elapsed : F) (hs : PlanSafe s) :
    (∃ s', preyControl L s elapsed = .ok s' ∧ PlanSafe s' ∧ s'.movements = s.movements ∧
      s.current_movement ≤ s'.current_movement) ∨
    preyControl L s elapsed = .error .notReal := by
  by_cases hp : s.move_by_plan = true
  · have hunf : preyControl L s elapsed =
        (advanceMovement L s.movements.length s).bind (fun s => do
          let m ← currentMovement s
          if !m.rotating then
            match m.y with
            | some y => do
              let v ← normalize L ⟨m.x, y⟩ s.prey_speed
              pure { s with prey_velocity := v }
            | none => .error .notReal
          else do
            let angle := L.atan2 s.prey_velocity.y s.prey_velocity.x
            let angle := angle + elapsed * m.x
            let v ← normalize L ⟨L.cos angle, L.sin angle⟩ s.prey_speed
            pure { s with prey_velocity := v }) := by
      unfold preyControl
      rw [if_pos hp]
      rfl
    rw [hunf]
    rcases advanceMovement_safe L s.movements.length s hs (by omega) with
      ⟨s1, hs1, hsafe1, hm1, hc1⟩ | herr
    · rw [hs1]
      have hc := hsafe1.1
      have hget : s1.movements.get? s1.current_movement = some (s1.movements.get ⟨_, hc⟩) :=
        List.get?_eq_get hc
      have key : ∀ v : Vec2 F, PlanSafe { s1 with prey_velocity := v } ∧
          ({ s1 with prey_velocity := v }).movements = s.movements ∧
          s.current_movement ≤ ({ s1 with prey_velocity := v }).current_movement :=
        fun v => ⟨planSafe_frame s1 _ hsafe1 rfl rfl rfl, hm1, hc1⟩
      simp only [Except.bind, bind, currentMovement, hget]
      cases hr : (s1.movements.get ⟨_, hc⟩).rotating with
      | false =>
        simp only [Bool.not_false, if_true]
        cases hyv : (s1.movements.get ⟨_, hc⟩).y with
        | none => right; rfl
        | some y =>
          simp only
          cases hn : normalize L ⟨(s1.movements.get ⟨_, hc⟩).x, y⟩ s1.prey_speed with
          | error e => right; rw [normalize_fault _ _ _ _ hn]
          | ok u => left; exact ⟨_, rfl, key u⟩
      | true =>
        simp only [Bool.not_true, Bool.false_eq_true, if_false]
        cases hn : normalize L
          ⟨L.cos (L.atan2 s1.prey_velocity.y s1.prey_velocity.x +
              elapsed * (s1.movements.get ⟨_, hc⟩).x),
            L.sin (L.atan2 s1.prey_velocity.y s1.prey_velocity.x +
              elapsed * (s1.movements.get ⟨_, hc⟩).x)⟩ s1.prey_speed with
        | error e => right; rw [normalize_fault _ _ _ _ hn]
        | ok u => left; exact ⟨_, rfl, key u⟩
    · right
      rw [herr]
      rfl
  · left
    refine ⟨s, ?_, hs, rfl, le_rfl⟩
    unfold preyControl
    rw [if_neg hp]
    rfl

theorem stepHead_safe (L : Libm F) (s : Simulation F) (hs : PlanSafe s) :
    (∃ s', stepHead L s = .ok s') ∨ stepHead L s = .error .notReal := by
  unfold stepHead
  split
  · have hget : s.movements.get? s.current_movement = some (s.movements.get ⟨_, hs.1⟩) :=
      List.get?_eq_get hs.1
    simp only [bind, Except.bind, currentMovement, hget]
    cases hn : snapHeading L s (s.movements.get ⟨_, hs.1⟩) with
    | error e => right; rw [snapHeading_fault _ _ _ _ hn]
    | ok u => left; exact ⟨u, rfl⟩
  · left; exact ⟨s, rfl⟩

/-- A step on a safe cursor: it keeps the cursor safe, or some arithmetic
result of it is no real number; the cursor does not leave the program. -/
theorem step_safe (L : Libm F) (s : Simulation F) (elapsed : F) (hs : PlanSafe s) :
    (∃ s', singleStepSimulate L s elapsed = .ok s' ∧ PlanSafe s' ∧
      s'.movements = s.movements ∧ s.current_movement ≤ s'.current_movement) ∨
    singleStepSimulate L s elapsed = .error .notReal := by
  rw [singleStepSimulate_eq]
  rcases stepHead_safe L s hs with ⟨sa, hsa⟩ | herr
  · have ea := stepHead_eq L s sa hsa
    have hsA : PlanSafe (afterCapture L sa elapsed) :=
      planSafe_frame s _ hs (by rw [ea]; rfl) (by rw [ea]; rfl) (by rw [ea]; rfl)
    have hmA : (afterCapture L sa elapsed).movements = s.movements := by rw [ea]; rfl
    have hcA : (afterCapture L sa elapsed).current_movement = s.current_movement := by
      rw [ea]; rfl
    rcases preyControl_safe L (afterCapture L sa elapsed) elapsed hsA with
      ⟨sb, hsb, hsafeb, hmb, hcb⟩ | herr
    · cases hps : forEachPredator (steer L sb elapsed) sb.predators with
      | error e =>
        right
        rw [forEachPredator_fault _ (fun p e h => steer_fault L sb elapsed p e h) _ _ hps] at hps
        simp only [bind, Except.bind, hsa, hsb, hps]
      | ok ps =>
        cases hmv : normalize L sb.prey_velocity (sb.prey_speed * elapsed) with
        | error e =>
          right
          rw [normalize_fault _ _ _ _ hmv] at hmv
          simp only [bind, Except.bind, hsa, hsb, hps, hmv]
        | ok mv =>
          left
          refine ⟨stepTail sb ps mv elapsed, by simp only [bind, Except.bind, hsa, hsb, hps, hmv]; rfl,
            planSafe_frame sb _ hsafeb ?_ ?_ ?_, ?_, ?_⟩
          · simp only [stepTail]; split <;> rfl
          · simp only [stepTail]; split <;> rfl
          · simp only [stepTail]; split <;> rfl
          · have : (stepTail sb ps mv elapsed).movements = sb.movements := by
              simp only [stepTail]; split <;> rfl
            rw [this, hmb, hmA]
          · have : (stepTail sb ps mv elapsed).current_movement = sb.current_movement := by
              simp only [stepTail]; split <;> rfl
            rw [this]
            omega
    · right
      simp only [bind, Except.bind, hsa, herr]
  · right
    simp only [bind, Except.bind, herr]

theorem repeatStep_safe (L : Libm F) (elapsed : F) (n : Nat) (s : Simulation F)
    (hs : PlanSafe s) :
    (∃ s', repeatStep L elapsed n s = .ok s' ∧ PlanSafe s' ∧ s'.movements = s.movements ∧
      s.current_movement ≤ s'.current_movement) ∨
    repeatStep L elapsed n s = .error .notReal := by
  induction n generalizing s with
  | zero => left; exact ⟨s, rfl, hs, rfl, le_rfl⟩
  | succ n ih =>
    rcases step_safe L s elapsed hs with ⟨s1, hs1, hsafe1, hm1, hc1⟩ | herr
    · rw [repeatStep_succ L elapsed n s s1 hs1]
      rcases ih s1 hsafe1 with ⟨s', hs', hsafe', hm', hc'⟩ | herr
      · left; exact ⟨s', hs', hsafe', hm'.trans hm1, hc1.trans hc'⟩
      · right; exact herr
    · right
      simp only [repeatStep, bind, Except.bind, herr]

theorem apply_safe (L : Libm F) (c : Call F) (s : Simulation F) (hs : PlanSafe s) :
    (∃ s', c.apply L s = .ok s' ∧ PlanSafe s' ∧ s'.movements = s.movements ∧
      s.current_movement ≤ s'.current_movement) ∨
    c.apply L s = .error .notReal := by
  cases c with
  | simulate elapsed =>
    simp only [Call.apply, simulate]
    split
    · left; exact ⟨s, rfl, hs, rfl, le_rfl⟩
    · exact repeatStep_safe L _ _ s hs
  | setPreyVelocity value =>
    simp only [Call.apply, setPreyVelocity, bind, Except.bind]
    cases hn : normalize L value s.prey_speed with
    | error e => right; rw [normalize_fault _ _ _ _ hn]
    | ok v => left; exact ⟨_, rfl, planSafe_frame s _ hs rfl rfl rfl, rfl, le_rfl⟩
  | rotatePreyVelocity rotation =>
    simp only [Call.apply, rotatePreyVelocity, bind, Except.bind]
    split
    · rename_i e hn
      right; rw [normalize_fault _ _ _ _ hn]
    · left; exact ⟨_, rfl, planSafe_frame s _ hs rfl rfl rfl, rfl, le_rfl⟩
  | setSubsteps n =>
    left; exact ⟨_, rfl, planSafe_frame s _ hs rfl rfl rfl, rfl, le_rfl⟩

theorem runCalls_safe (L : Libm F) (calls : List (Call F)) (s : Simulation F)
    (hs : PlanSafe s) :
    (∃ s', runCalls L s calls = .ok s' ∧ PlanSafe s' ∧ s'.movements = s.movements ∧
      s.current_movement ≤ s'.current_movement) ∨
    runCalls L s calls = .error .notReal := by
  induction calls generalizing s with
  | nil => left; exact ⟨s, rfl, hs, rfl, le_rfl⟩
  | cons c cs ih =>
    rcases apply_safe L c s hs with ⟨s1, hs1, hsafe1, hm1, hc1⟩ | herr
    · have hunf : runCalls L s (c :: cs) = runCalls L s1 cs := by
        simp only [runCalls, bind, Except.bind, hs1]
      rw [hunf]
      rcases ih s1 hsafe1 with ⟨s', hs', hsafe', hm', hc'⟩ | herr
      · left; exact ⟨s', hs', hsafe', hm'.trans hm1, hc1.trans hc'⟩
      · right; exact herr
    · right
      simp only [runCalls, bind, Except.bind, herr]

end CursorSafety

section CursorOfFile
variable {F : Type} [LinearOrderedField F] [FloorRing F]

/-- C23. From every valid construction, over every sequence of calls (the
timer of the model is a finite number), the cursor of the plan executor never
leaves the movement program: no run and no step dereferences the iterator past
the end, after every run the cursor is on a segment, so that it was advanced at
most (program length - 1) times in total, and whenever it is on the last
segment `time_of_next_movement` is infinite, which stops the loop. -/
theorem cursor_stays_on_program (L : Libm F) (file : List (List Char)) (calls : List (Call F))
    (hv : (Simulation.ofLines F file).is_valid = true) :
    faultOf (runCalls L (Simulation.ofLines F file) calls) ≠ some .pastTheEnd ∧
    ∀ s, runCalls L (Simulation.ofLines F file) calls = .ok s →
      s.movements = (Simulation.ofLines F file).movements ∧
      s.current_movement + 1 ≤ s.movements.length ∧
      (s.current_movement + 1 = s.movements.length → s.time_of_next_movement = ⊤) ∧
      ∀ elapsed, faultOf (singleStepSimulate L s elapsed) ≠ some .pastTheEnd := by
  have hinv := planInv_ofLines file hv
  have hsafe : PlanSafe (Simulation.ofLines F file) := ⟨hinv.1, hinv.2.1, hinv.2.2.1⟩
  rcases runCalls_safe L calls _ hsafe with ⟨s', hs', hsafe', hm', -⟩ | herr
  · refine ⟨by rw [hs']; simp [faultOf], ?_⟩
    intro s hs
    rw [hs'] at hs
    cases hs
    refine ⟨hm', hsafe'.1, ?_, ?_⟩
    · intro hlast
      rw [hsafe'.2.1]
      exact endTime_last _ _ hsafe'.2.2 (by omega)
    · intro elapsed
      rcases step_safe L s' elapsed hsafe' with ⟨s2, hs2, -⟩ | herr
      · rw [hs2]; simp [faultOf]
      · rw [herr]; simp [faultOf]
  · refine ⟨by rw [herr]; simp [faultOf], ?_⟩
    intro s hs
    rw [herr] at hs
    cases hs

end CursorOfFile

/-- The cursor on the program `threeSegments`: after ticks of 3 seconds and of
1 second it is on the last segment, and the time of the next movement is
infinite. -/
theorem cursor_stays_on_program_witness :
    ((resultOr Simulation.init (runCalls exampleLibm (Simulation.ofLines ℚ threeSegments)
        [.simulate 3, .simulate 1])).current_movement = 2 ∧
      (resultOr Simulation.init (runCalls exampleLibm (Simulation.ofLines ℚ threeSegments)
        [.simulate 3, .simulate 1])).time_of_next_movement = ⊤) ∧
    faultOf (runCalls exampleLibm (Simulation.ofLines ℚ threeSegments)
      [.simulate 3, .simulate 1]) ≠ some .pastTheEnd ∧
    ∀ s, runCalls exampleLibm (Simulation.ofLines ℚ threeSegments)
        [.simulate 3, .simulate 1] = .ok s →
      s.movements = (Simulation.ofLines ℚ threeSegments).movements ∧
      s.current_movement + 1 ≤ s.movements.length ∧
      (s.current_movement + 1 = s.movements.length → s.time_of_next_movement = ⊤) ∧
      ∀ elapsed, faultOf (singleStepSimulate exampleLibm s elapsed) ≠ some .pastTheEnd :=
  ⟨⟨by decide!, by decide!⟩,
    cursor_stays_on_program exampleLibm threeSegments [.simulate 3, .simulate 1] (by decide!)⟩

/-! ## The predators of a step -/

section PredatorsOfStep
variable {F : Type} [LinearOrderedField F]

theorem markReached_withPredators (L : Libm F) (s : Simulation F) (l : List (Predator F))
    (elapsed : F) :
    markReached L (atCapture (withPredators s l) elapsed) = markReached L (atCapture s elapsed) :=
  rfl

theorem steer_withPredators (L : Libm F) (s : Simulation F) (l : List (Predator F))
    (elapsed : F) : steer L (withPredators s l) elapsed = steer L s elapsed := rfl

theorem snapHeading_withPredators (L : Libm F) (s : Simulation F) (l : List (Predator F))
    (m : Movement F) :
    snapHeading L (withPredators s l) m =
      (snapHeading L s m).map (fun x => withPredators x l) := by
  unfold snapHeading
  rcases hr : m.rotating with _ | _ <;> rcases hy : m.y with _ | y <;> try rfl
  simp only [bind, Except.bind, withPredators]
  cases normalize L ⟨L.cos y, L.sin y⟩ s.prey_speed <;> rfl

theorem stepHead_withPredators (L : Libm F) (s : Simulation F) (l : List (Predator F)) :
    stepHead L (withPredators s l) = (stepHead L s).map (fun x => withPredators x l) := by
  unfold stepHead
  by_cases h0 : s.simulation_timer = 0
  · have h0' : (withPredators s l).simulation_timer = 0 := h0
    rw [if_pos h0, if_pos h0']
    simp only [bind, Except.bind, currentMovement]
    have hm : (withPredators s l).movements.get? (withPredators s l).current_movement =
        s.movements.get? s.current_movement := rfl
    rw [hm]
    cases s.movements.get? s.current_movement with
    | none => rfl
    | some m => exact snapHeading_withPredators L s l m
  · have h0' : ¬ (withPredators s l).simulation_timer = 0 := h0
    rw [if_neg h0, if_neg h0']
    rfl

theorem advanceMovement_withPredators (L : Libm F) (fuel : Nat) (s : Simulation F)
    (l : List (Predator F)) :
    advanceMovement L fuel (withPredators s l) =
      (advanceMovement L fuel s).map (fun x => withPredators x l) := by
  induction fuel generalizing s with
  | zero =>
    unfold advanceMovement
    by_cases h : s.time_of_next_movement ≤ (s.simulation_timer : WithTop F)
    · have h' : (withPredators s l).time_of_next_movement ≤
          ((withPredators s l).simulation_timer : WithTop F) := h
      rw [if_pos h, if_pos h']; rfl
    · have h' : ¬ (withPredators s l).time_of_next_movement ≤
          ((withPredators s l).simulation_timer : WithTop F) := h
      rw [if_neg h, if_neg h']; rfl
  | succ fuel ih =>
    unfold advanceMovement
    by_cases h : s.time_of_next_movement ≤ (s.simulation_timer : WithTop F)
    · have h' : (withPredators s l).time_of_next_movement ≤
          ((withPredators s l).simulation_timer : WithTop F) := h
      rw [if_pos h, if_pos h']
      simp only [bind, Except.bind, currentMovement]
      have hm : (withPredators s l).movements.get? ((withPredators s l).current_movement + 1) =
          s.movements.get? (s.current_movement + 1) := rfl
      rw [hm]
      cases s.movements.get? (s.current_movement + 1) with
      | none => rfl
      | some m =>
        simp only
        have hsn := snapHeading_withPredators L
          { s with current_movement := s.current_movement + 1,
                   time_of_next_movement := s.time_of_next_movement + m.duration } l m
        have hsn' : snapHeading L
            { withPredators s l with
              current_movement := (withPredators s l).current_movement + 1,
              time_of_next_movement := (withPredators s l).time_of_next_movement + m.duration } m =
            (snapHeading L
              { s with current_movement := s.current_movement + 1,
                       time_of_next_movement := s.time_of_next_movement + m.duration } m).map
              (fun x => withPredators x l) := hsn
        rw [hsn']
        cases snapHeading L
          { s with current_movement := s.current_movement + 1,
                   time_of_next_movement := s.time_of_next_movement + m.duration } m with
        | error e => rfl
        | ok s1 => exact ih s1
    · have h' : ¬ (withPredators s l).time_of_next_movement ≤
          ((withPredators s l).simulation_timer : WithTop F) := h
      rw [if_neg h, if_neg h']; rfl

theorem preyControl_withPredators (L : Libm F) (s : Simulation F) (l : List (Predator F))
    (elapsed : F) :
    preyControl L (withPredators s l) elapsed =
      (preyControl L s elapsed).map (fun x => withPredators x l) := by
  unfold preyControl
  by_cases hp : s.move_by_plan = true
  · have hp' : (withPredators s l).move_by_plan = true := hp
    rw [if_pos hp, if_pos hp']
    simp only [bind, Except.bind]
    have hlen : (withPredators s l).movements.length = s.movements.length := rfl
    rw [hlen, advanceMovement_withPredators]
    cases advanceMovement L s.movements.length s with
    | error e => rfl
    | ok s1 =>
      simp only [Except.map, currentMovement]
      have hm : (withPredators s1 l).movements.get? (withPredators s1 l).current_movement =
          s1.movements.get? s1.current_movement := rfl
      rw [hm]
      cases s1.movements.get? s1.current_movement with
      | none => rfl
      | some m =>
        simp only
        rcases hr : m.rotating with _ | _
        · simp only [Bool.not_false, if_true]
          rcases hy : m.y with _ | y
          · rfl
          · simp only [withPredators]
            cases normalize L ⟨m.x, y⟩ s1.prey_speed <;> rfl
        · simp only [Bool.not_true, Bool.false_eq_true, if_false, withPredators]
          cases normalize L ⟨L.cos (L.atan2 s1.prey_velocity.y s1.prey_velocity.x + elapsed * m.x),
            L.sin (L.atan2 s1.prey_velocity.y s1.prey_velocity.x + elapsed * m.x)⟩
            s1.prey_speed <;> rfl
  · have hp' : ¬ (withPredators s l).move_by_plan = true := hp
    rw [if_neg hp, if_neg hp']
    rfl

/-- The step on a state with the list `l` of predators, from the parts of the
step on the state of the prey: only the steering loop reads the list. -/
theorem step_withPredators (L : Libm F) (s : Simulation F) (l : List (Predator F))
    (elapsed : F) :
    singleStepSimulate L (withPredators s l) elapsed =
      (stepHead L s).bind fun sa =>
        (preyControl L (afterCapture L sa elapsed) elapsed).bind fun sb =>
          (forEachPredator (steer L sb elapsed)
            (l.map (markReached L (atCapture sa elapsed)))).bind fun ps =>
            (normalize L sb.prey_velocity (sb.prey_speed * elapsed)).bind fun mv =>
              .ok (stepTail sb ps mv elapsed) := by
  rw [singleStepSimulate_eq]
  simp only [bind]
  rw [stepHead_withPredators]
  cases stepHead L s with
  | error e => rfl
  | ok sa =>
    simp only [Except.map, Except.bind]
    have hA : afterCapture L (withPredators sa l) elapsed =
        withPredators (afterCapture L sa elapsed)
          (l.map (markReached L (atCapture sa elapsed))) := rfl
    rw [hA, preyControl_withPredators]
    cases preyControl L (afterCapture L sa elapsed) elapsed with
    | error e => rfl
    | ok sb => rfl

theorem forEachPredator_ok_iff {G : Type} (body : Predator G → Except Fault (Predator G))
    (l ps : List (Predator G)) :
    forEachPredator body l = .ok ps ↔
      (∀ p ∈ l, ∃ q, body p = .ok q) ∧ ps = l.map (fun p => resultOr p (body p)) := by
  induction l generalizing ps with
  | nil =>
    constructor
    · intro h
      cases h
      exact ⟨fun p hp => absurd hp (List.not_mem_nil p), rfl⟩
    · rintro ⟨-, rfl⟩
      rfl
  | cons a l ih =>
    unfold forEachPredator
    simp only [bind, Except.bind]
    constructor
    · intro h
      split at h
      · cases h
      · rename_i a' ha'
        split at h
        · cases h
        · rename_i l' hl'
          cases h
          obtain ⟨hall, rfl⟩ := (ih l').mp hl'
          refine ⟨?_, by simp [ha', resultOr]⟩
          intro p hp
          rcases List.mem_cons.mp hp with rfl | hp
          · exact ⟨a', ha'⟩
          · exact hall p hp
    · rintro ⟨hall, rfl⟩
      obtain ⟨a', ha'⟩ := hall a (List.mem_cons_self _ _)
      have hl := (ih (l.map (fun p => resultOr p (body p)))).mpr
        ⟨fun p hp => hall p (List.mem_cons_of_mem _ hp), rfl⟩
      simp only [ha', hl, List.map, resultOr]
      rfl

theorem predatorStep_withPredators (L : Libm F) (s : Simulation F) (l : List (Predator F))
    (elapsed : F) : predatorStep L (withPredators s l) elapsed = predatorStep L s elapsed := by
  funext p
  unfold predatorStep
  rw [stepHead_withPredators]
  cases stepHead L s with
  | error e =>
    simp only [Except.map, resultOr]
    have hA : afterCapture L (withPredators s l) elapsed =
        withPredators (afterCapture L s elapsed)
          (l.map (markReached L (atCapture s elapsed))) := rfl
    rw [hA, preyControl_withPredators]
    cases preyControl L (afterCapture L s elapsed) elapsed <;> rfl
  | ok sa =>
    simp only [Except.map, resultOr]
    have hA : afterCapture L (withPredators sa l) elapsed =
        withPredators (afterCapture L sa elapsed)
          (l.map (markReached L (atCapture sa elapsed))) := rfl
    rw [hA, preyControl_withPredators]
    cases preyControl L (afterCapture L sa elapsed) elapsed <;> rfl

/-- The step on a state with the list `l` of predators returns exactly when
the parts on the prey return and the steering of every predator of the list
does; the predators after it are those of `l`, each taken through
`predatorStep`, and the rest of the state is that of the step with no
predator. -/
theorem step_withPredators_ok (L : Libm F) (s : Simulation F) (l : List (Predator F))
    (elapsed : F) (s' : Simulation F) :
    singleStepSimulate L (withPredators s l) elapsed = .ok s' ↔
      ∃ sa sb mv, stepHead L s = .ok sa ∧
        preyControl L (afterCapture L sa elapsed) elapsed = .ok sb ∧
        normalize L sb.prey_velocity (sb.prey_speed * elapsed) = .ok mv ∧
        (∀ p ∈ l, ∃ q, steer L sb elapsed (markReached L (atCapture sa elapsed) p) = .ok q) ∧
        s' = withPredators (stepTail sb [] mv elapsed) (l.map (predatorStep L s elapsed)) := by
  rw [step_withPredators]
  cases hsa : stepHead L s with
  | error e =>
    simp only [Except.bind]
    constructor
    · intro h; cases h
    · rintro ⟨sa', sb', mv, hsa', -⟩; cases hsa'
  | ok sa =>
    simp only [Except.bind]
    cases hsb : preyControl L (afterCapture L sa elapsed) elapsed with
    | error e =>
      simp only
      constructor
      · intro h; cases h
      · rintro ⟨sa', sb', mv, hsa', hsb', -⟩
        cases hsa'
        rw [hsb] at hsb'
        cases hsb'
    | ok sb =>
      simp only
      have hstep : ∀ p, predatorStep L s elapsed p =
          (if sb.trail_timer - elapsed < 0 then
            sampleTrail (resultOr (markReached L (atCapture sa elapsed) p)
              (steer L sb elapsed (markReached L (atCapture sa elapsed) p)))
          else resultOr (markReached L (atCapture sa elapsed) p)
              (steer L sb elapsed (markReached L (atCapture sa elapsed) p))) := by
        intro p
        unfold predatorStep
        simp only [hsa, hsb, resultOr]
      have htail : ∀ mv, stepTail sb
          ((l.map (markReached L (atCapture sa elapsed))).map
            (fun p => resultOr p (steer L sb elapsed p))) mv elapsed =
          withPredators (stepTail sb [] mv elapsed) (l.map (predatorStep L s elapsed)) := by
        intro mv
        have hfun : predatorStep L s elapsed = fun p =>
            (if sb.trail_timer - elapsed < 0 then
              sampleTrail (resultOr (markReached L (atCapture sa elapsed) p)
                (steer L sb elapsed (markReached L (atCapture sa elapsed) p)))
            else resultOr (markReached L (atCapture sa elapsed) p)
                (steer L sb elapsed (markReached L (atCapture sa elapsed) p))) := funext hstep
        rw [hfun]
        simp only [stepTail, withPredators, List.map_map]
        split
        · simp only [List.map_map]
          rfl
        · rfl
      constructor
      · intro h
        split at h
        · cases h
        · rename_i ps hps
          obtain ⟨hall, rfl⟩ := (forEachPredator_ok_iff _ _ _).mp hps
          split at h
          · cases h
          · rename_i mv hmv
            cases h
            refine ⟨sa, sb, mv, rfl, hsb, hmv, ?_, htail mv⟩
            intro p hp
            exact hall _ (List.mem_map_of_mem _ hp)
      · rintro ⟨sa', sb', mv, hsa', hsb', hmv, hall, rfl⟩
        cases hsa'
        rw [hsb] at hsb'
        cases hsb'
        have hps := (forEachPredator_ok_iff (steer L sb elapsed)
          (l.map (markReached L (atCapture sa elapsed))) _).mpr
          ⟨by
            intro p hp
            obtain ⟨p0, hp0, rfl⟩ := List.mem_map.mp hp
            exact hall p0 hp0, rfl⟩
        simp only [hps, hmv]
        rw [htail mv]

/-- C21. The step takes every predator of the list through one function,
`predatorStep`, computed on the state with no predator (the state of the prey):
what it makes of a predator depends on that predator and on the state of the
prey only.  So when the step returns on a list of predators it returns on every
permutation of the list, with the same state of the prey, and the predators
after it are the same permutation of those after the step on the first list. -/
theorem step_permutation (L : Libm F) (s : Simulation F) (elapsed : F)
    (l1 l2 : List (Predator F)) (s1 : Simulation F) (hperm : l1.Perm l2)
    (h1 : singleStepSimulate L (withPredators s l1) elapsed = .ok s1) :
    ∃ s2, singleStepSimulate L (withPredators s l2) elapsed = .ok s2 ∧
      s1.predators = l1.map (predatorStep L (withPredators s []) elapsed) ∧
      s2.predators = l2.map (predatorStep L (withPredators s []) elapsed) ∧
      s2 = withPredators s1 s2.predators ∧ s1.predators.Perm s2.predators := by
  obtain ⟨sa, sb, mv, hsa, hsb, hmv, hall, rfl⟩ := (step_withPredators_ok L s l1 elapsed s1).mp h1
  have h2 := (step_withPredators_ok L s l2 elapsed
    (withPredators (stepTail sb [] mv elapsed) (l2.map (predatorStep L s elapsed)))).mpr
    ⟨sa, sb, mv, hsa, hsb, hmv, fun p hp => hall p (hperm.mem_iff.mpr hp), rfl⟩
  rw [predatorStep_withPredators]
  exact ⟨_, h2, rfl, rfl, rfl, hperm.map _⟩

end PredatorsOfStep

/-- The step of `pairState` and the step of the same state with its two
predators exchanged. -/
theorem step_permutation_witness :
    (pairState.predators = pairPredators ∧
      (resultOr pairState (singleStepSimulate exampleLibm
        (withPredators pairState pairPredators) 1)).predators.map
          (fun p => p.position) = [⟨9 / 5, 12 / 5⟩, ⟨3, 0⟩]) ∧
    ∃ s2, singleStepSimulate exampleLibm (withPredators pairState pairSwapped) 1 = .ok s2 ∧
      (resultOr pairState (singleStepSimulate exampleLibm
        (withPredators pairState pairPredators) 1)).predators =
        pairPredators.map (predatorStep exampleLibm (withPredators pairState []) 1) ∧
      s2.predators = pairSwapped.map (predatorStep exampleLibm (withPredators pairState []) 1) ∧
      s2 = withPredators (resultOr pairState (singleStepSimulate exampleLibm
        (withPredators pairState pairPredators) 1)) s2.predators ∧
      (resultOr pairState (singleStepSimulate exampleLibm
        (withPredators pairState pairPredators) 1)).predators.Perm s2.predators :=
  ⟨⟨by decide!, by decide!⟩,
    step_permutation exampleLibm pairState 1 pairPredators pairSwapped _
      (List.Perm.swap _ _ _) (ok_resultOr _ _ (by decide!))⟩

/-! ## Predators that are not faster than the prey -/

section SlowSteps
variable {F : Type} [LinearOrderedField F]

/-- The capture test of predators that are not faster than the prey marks no
predator, wherever it is. -/
theorem markReached_slow (L : Libm F) (hL : L.SqrtNonneg) (s : Simulation F) (p : Predator F)
    (hslow : s.predators_speed ≤ s.prey_speed) (he : 0 ≤ s.elapsed_last) :
    markReached L s p = p := by
  unfold markReached
  rw [if_neg]
  rintro ⟨-, hc⟩
  simp only [predator_close_to_prey, decide_eq_true_eq] at hc
  have h1 : 0 ≤ distance L s.prey_position p.position := hL _
  have h2 : (s.predators_speed - s.prey_speed) * s.elapsed_last ≤ 0 :=
    mul_nonpos_of_nonpos_of_nonneg (by linarith) he
  linarith

theorem predatorStep_when_reached (L : Libm F) (s : Simulation F) (elapsed : F)
    (p : Predator F) :
    (predatorStep L s elapsed p).when_reached =
      (markReached L (atCapture (resultOr s (stepHead L s)) elapsed) p).when_reached := by
  unfold predatorStep
  simp only
  have h : ∀ (sb : Simulation F) (q : Predator F),
      (resultOr q (steer L sb elapsed q)).when_reached = q.when_reached := by
    intro sb q
    cases hq : steer L sb elapsed q with
    | error e => rfl
    | ok q' => exact steer_when_reached L sb elapsed q q' hq
  split
  · rw [sampleTrail_when_reached, h]
  · rw [h]

theorem stepHead_speeds (L : Libm F) (s : Simulation F) :
    (resultOr s (stepHead L s)).predators_speed = s.predators_speed ∧
      (resultOr s (stepHead L s)).prey_speed = s.prey_speed := by
  cases h : stepHead L s with
  | error e => exact ⟨rfl, rfl⟩
  | ok sa =>
    have := stepHead_eq L s sa h
    simp only [resultOr]
    rw [this]
    exact ⟨rfl, rfl⟩

/-- A step of predators that are not faster than the prey marks none of
them. -/
theorem step_slow (L : Libm F) (hL : L.SqrtNonneg) (s s' : Simulation F) (elapsed : F)
    (he : 0 ≤ elapsed) (hs : SlowChase s) (h : singleStepSimulate L s elapsed = .ok s') :
    SlowChase s' := by
  have h' : singleStepSimulate L (withPredators s s.predators) elapsed = .ok s' := h
  obtain ⟨sa, sb, mv, hsa, hsb, hmv, -, rfl⟩ :=
    (step_withPredators_ok L s s.predators elapsed s').mp h'
  have ea := stepHead_eq L s sa hsa
  have eb := preyControl_eq L _ _ _ hsb
  have hsp := stepHead_speeds L s
  constructor
  · have h1 : (withPredators (stepTail sb [] mv elapsed)
        (s.predators.map (predatorStep L s elapsed))).predators_speed = sb.predators_speed := by
      simp only [withPredators, stepTail]; split <;> rfl
    have h2 : (withPredators (stepTail sb [] mv elapsed)
        (s.predators.map (predatorStep L s elapsed))).prey_speed = sb.prey_speed := by
      simp only [withPredators, stepTail]; split <;> rfl
    have h3 : sb.predators_speed = s.predators_speed := by rw [eb]; simp only [afterCapture, atCapture]; rw [ea]
    have h4 : sb.prey_speed = s.prey_speed := by rw [eb]; simp only [afterCapture, atCapture]; rw [ea]
    rw [h1, h2, h3, h4]
    exact hs.1
  · intro p' hp'
    have hp'' : p' ∈ s.predators.map (predatorStep L s elapsed) := hp'
    obtain ⟨p, hp, rfl⟩ := List.mem_map.mp hp''
    rw [predatorStep_when_reached, markReached_slow L hL _ p ?_ he]
    · exact hs.2 p hp
    · show (resultOr s (stepHead L s)).predators_speed ≤ (resultOr s (stepHead L s)).prey_speed
      rw [hsp.1, hsp.2]
      exact hs.1

theorem repeatStep_slow (L : Libm F) (hL : L.SqrtNonneg) (elapsed : F) (he : 0 ≤ elapsed)
    (n : Nat) (s s' : Simulation F) (hs : SlowChase s)
    (h : repeatStep L elapsed n s = .ok s') : SlowChase s' := by
  induction n generalizing s with
  | zero => cases h; exact hs
  | succ n ih =>
    unfold repeatStep at h
    simp only [bind, Except.bind] at h
    split at h
    · cases h
    · rename_i s1 hs1
      exact ih s1 (step_slow L hL s s1 elapsed he hs hs1) h

theorem apply_slow (L : Libm F) (hL : L.SqrtNonneg) (c : Call F) (hc : c.NonNeg)
    (s s' : Simulation F) (hs : SlowChase s) (h : c.apply L s = .ok s') : SlowChase s' := by
  cases c with
  | simulate elapsed =>
    simp only [Call.apply, simulate] at h
    split at h
    · cases h; exact hs
    · rename_i hsub
      have hpos : (0 : F) < (s.substeps : F) := by
        have : 0 < s.substeps := not_le.mp hsub
        exact_mod_cast this
      exact repeatStep_slow L hL _ (div_nonneg hc hpos.le) _ s s' hs h
  | setPreyVelocity value =>
    simp only [Call.apply, setPreyVelocity, bind, Except.bind] at h
    split at h
    · cases h
    · cases h; exact hs
  | rotatePreyVelocity rotation =>
    simp only [Call.apply, rotatePreyVelocity, bind, Except.bind] at h
    split at h
    · cases h
    · cases h; exact hs
  | setSubsteps n =>
    cases h; exact hs

theorem runCalls_slow (L : Libm F) (hL : L.SqrtNonneg) (calls : List (Call F))
    (hn : ∀ c ∈ calls, c.NonNeg) (s s' : Simulation F) (hs : SlowChase s)
    (h : runCalls L s calls = .ok s') : SlowChase s' := by
  induction calls generalizing s with
  | nil => cases h; exact hs
  | cons c cs ih =>
    unfold runCalls at h
    simp only [bind, Except.bind] at h
    split at h
    · cases h
    · rename_i s1 hs1
      exact ih (fun c' hc' => hn c' (List.mem_cons_of_mem _ hc')) s1
        (apply_slow L hL c (hn c (List.mem_cons_self _ _)) s s1 hs hs1) h

end SlowSteps

theorem modifyBack_forall {α : Type} (P : α → Prop) (f : α → α) (hf : ∀ a, P a → P (f a))
    (l : List α) (h : ∀ a ∈ l, P a) : ∀ a ∈ modifyBack f l, P a := by
  rcases List.eq_nil_or_concat l with rfl | ⟨init, b, rfl⟩
  · intro a ha
    cases ha
  · rw [List.concat_eq_append] at h ⊢
    rw [modifyBack_append]
    intro a ha
    rcases List.mem_append.mp ha with h1 | h1
    · exact h a (List.mem_append_left _ h1)
    · have : a = f b := by simpa using h1
      rw [this]
      exact hf b (h b (List.mem_append_right _ (List.mem_singleton.mpr rfl)))

section SetterUnreached
variable {F : Type} [LinearOrderedField F]

theorem callSetter_unreached (setters : List (List Char × Setter F))
    (hs : setters = simulation_setters ∨ setters = predator_setters)
    (m : SMatch) (s : Simulation F) (h : ∀ p ∈ s.predators, p.when_reached = -1) :
    ∀ p ∈ (callSetter setters m s).2.predators, p.when_reached = -1 := by
  rcases callSetter_cases setters m s with hc | ⟨kv, hkv, hc⟩
  · rw [hc]; exact h
  · rw [hc]
    rcases hs with rfl | rfl
    · simp only [simulation_setters, List.mem_cons, List.mem_singleton, List.not_mem_nil,
        or_false] at hkv
      rcases hkv with rfl | rfl | rfl | rfl | rfl | rfl | rfl | rfl | rfl | rfl | rfl | rfl
      all_goals
        simp only [set_prey_position, set_prey_speed, set_predators_speed, set_prey_color,
          set_background_color, set_text_color, set_character_size, set_point_radius,
          set_trail, set_scale_speed, set_rotation_acceleration, set_zoom, numberSetter,
          colorSetter]
        (repeat' split) <;> exact h
    · simp only [predator_setters, List.mem_cons, List.mem_singleton, List.not_mem_nil,
        or_false] at hkv
      rcases hkv with rfl | rfl | rfl
      all_goals
        simp only [set_predator_position, set_predator_color, set_lambda, numberSetter,
          colorSetter]
        (repeat' split) <;>
          first
            | exact h
            | (refine modifyBack_forall (fun p : Predator F => p.when_reached = -1) _ ?_ _ h
               intro a ha
               exact ha)

end SetterUnreached

section SlowOfFile
variable {F : Type} [LinearOrderedField F] [FloorRing F]

theorem readLine_unreached (rd : Reader F) (line : List Char)
    (h : ∀ p ∈ rd.sim.predators, p.when_reached = -1) :
    ∀ p ∈ (readLine rd line).sim.predators, p.when_reached = -1 := by
  by_cases hc : rd.state = .control
  · rw [(readLine_control rd line hc).2.1]
    exact h
  · have hinit : (Predator.init : Predator F).when_reached = -1 := rfl
    have hmark : ∀ p ∈ modifyBack markerColor rd.sim.predators, p.when_reached = -1 :=
      modifyBack_forall (fun p : Predator F => p.when_reached = -1) _
        (fun a ha => by unfold markerColor; split <;> exact ha) _ h
    unfold readLine
    simp only
    generalize (if endsWith line '\r' then line.dropLast else line) = l
    cases hst : rd.state with
    | control => exact absurd hst hc
    | started =>
      simp only
      cases regex_match S_re.property 2 l with
      | some m => exact callSetter_unreached _ (Or.inl rfl) m rd.sim h
      | none =>
        simp only
        repeat' split
        all_goals
          first
            | exact h
            | (intro p hp
               rcases List.mem_append.mp hp with h1 | h1
               · exact h p h1
               · rw [List.mem_singleton.mp h1]; exact hinit)
    | predator =>
      simp only
      cases regex_match S_re.property 2 l with
      | some m => exact callSetter_unreached _ (Or.inr rfl) m rd.sim h
      | none =>
        simp only
        repeat' split
        all_goals
          first
            | exact h
            | (intro p hp
               rcases List.mem_append.mp hp with h1 | h1
               · exact hmark p h1
               · rw [List.mem_singleton.mp h1]; exact hinit)

theorem readLines_unreached (file : List (List Char)) (rd : Reader F)
    (h : ∀ p ∈ rd.sim.predators, p.when_reached = -1) :
    ∀ p ∈ (readLines rd file).sim.predators, p.when_reached = -1 := by
  induction file generalizing rd with
  | nil => exact h
  | cons line rest ih => exact ih (readLine rd line) (readLine_unreached rd line h)

/-- No predator of a Simulation built is marked reached. -/
theorem ofLines_unreached (file : List (List Char)) :
    ∀ p ∈ (Simulation.ofLines F file).predators, p.when_reached = -1 := by
  have h := readLines_unreached file (⟨Simulation.init, .started, false, 0⟩ : Reader F)
    (fun p hp => absurd hp (List.not_mem_nil p))
  unfold Simulation.ofLines finish
  repeat' split
  · exact h
  · exact h
  · intro p hp
    obtain ⟨q, hq, rfl⟩ := List.mem_map.mp hp
    have hq' := h q hq
    unfold finalColor
    split <;> exact hq'

/-- If the predators are not faster than the prey in the Simulation built
(valid or not), then after every sequence of calls with non-negative `elapsed`
that stays in the real numbers every `when_reached` is -1.  The capture test of
such a state marks no predator wherever it is, also on the prey's position.
(The square root is taken not to be negative.) -/
theorem slow_real_run_unreached (L : Libm F) (hL : L.SqrtNonneg) (file : List (List Char))
    (calls : List (Call F)) (s : Simulation F)
    (hslow : (Simulation.ofLines F file).predators_speed ≤ (Simulation.ofLines F file).prey_speed)
    (hn : ∀ c ∈ calls, c.NonNeg)
    (h : runCalls L (Simulation.ofLines F file) calls = .ok s) :
    (∀ p ∈ s.predators, p.when_reached = -1) ∧
    s.predators_speed ≤ s.prey_speed ∧
    ∀ (elapsed : F) (p : Predator F), 0 ≤ elapsed →
      markReached L (atCapture s elapsed) p = p := by
  have hs := runCalls_slow L hL calls hn _ s ⟨hslow, ofLines_unreached file⟩ h
  exact ⟨hs.2, hs.1, fun elapsed p he => markReached_slow L hL _ p hs.1 he⟩

end SlowOfFile
theorem exampleLibm_sqrtNonneg : exampleLibm.SqrtNonneg := by
  intro x
  show (0 : ℚ) ≤ (natSqrt x.num.toNat : ℚ) / (natSqrt x.den : ℚ)
  exact div_nonneg (Nat.cast_nonneg _) (Nat.cast_nonneg _)

/-- The predator of `slowState`, as fast as the prey, after two ticks of 1
second: it is at the distance 3 and is not marked; the predator of
`coincidentState`, on the prey's position, is not marked by the capture
test. -/
theorem slow_real_run_unreached_example :
    ((resultOr slowState (runCalls exampleLibm slowState
        [.simulate 1, .simulate 1])).predators.map (fun p => p.position) = [⟨9 / 5, 12 / 5⟩] ∧
      (coincidentState.predators.map
        (markReached exampleLibm (atCapture coincidentState (1 / 10)))).map
          (fun p => p.when_reached) = [-1]) ∧
    (∀ p ∈ (resultOr slowState (runCalls exampleLibm slowState
        [.simulate 1, .simulate 1])).predators, p.when_reached = -1) ∧
    (resultOr slowState (runCalls exampleLibm slowState
      [.simulate 1, .simulate 1])).predators_speed ≤
      (resultOr slowState (runCalls exampleLibm slowState
        [.simulate 1, .simulate 1])).prey_speed ∧
    ∀ (elapsed : ℚ) (p : Predator ℚ), 0 ≤ elapsed →
      markReached exampleLibm (atCapture (resultOr slowState (runCalls exampleLibm slowState
        [.simulate 1, .simulate 1])) elapsed) p = p :=
  ⟨⟨by decide!, by decide!⟩,
    slow_real_run_unreached exampleLibm exampleLibm_sqrtNonneg
      ["PredatorsSpeed = 1".toList, "Predator:".toList, "Position = 3, 4".toList,
        "Lambda = 0".toList, "PreyControl:".toList, "0 0".toList]
      [.simulate 1, .simulate 1] _ (by decide!) (by simp [Call.NonNeg])
      (ok_resultOr _ _ (by decide!))⟩

/-! ## The engine on predators that leave the real numbers -/

section Escape
variable {F : Type} [LinearOrderedField F]

theorem markReachedN_slow (L : Libm F) (hL : L.SqrtNonneg) (s : Simulation F) (p : PredatorN F)
    (hslow : s.predators_speed ≤ s.prey_speed) (he : 0 ≤ s.elapsed_last) :
    markReachedN L s p = p := by
  unfold markReachedN
  split
  · rename_i pos _
    rw [if_neg]
    rintro ⟨-, hc⟩
    simp only [predator_close_to_prey, decide_eq_true_eq] at hc
    have h1 : 0 ≤ distance L s.prey_position (PredatorN.real p pos).position := hL _
    have h2 : (s.predators_speed - s.prey_speed) * s.elapsed_last ≤ 0 :=
      mul_nonpos_of_nonpos_of_nonneg (by linarith) he
    linarith
  · rfl

theorem steerN_when_reached (L : Libm F) (s : Simulation F) (elapsed : F) (p : PredatorN F) :
    (steerN L s elapsed p).when_reached = p.when_reached := by
  unfold steerN
  split
  · split
    · split <;> rfl
    · rfl
  · rfl

theorem sampleTrailN_when_reached (p : PredatorN F) :
    (sampleTrailN p).when_reached = p.when_reached := by
  unfold sampleTrailN
  split <;> rfl

theorem stepHead_total (L : Libm F) (hL : L.SqrtNonzero) (s : Simulation F)
    (hc : s.current_movement < s.movements.length) : ∃ s', stepHead L s = .ok s' := by
  unfold stepHead
  split
  · have hget : s.movements.get? s.current_movement = some (s.movements.get ⟨_, hc⟩) :=
      List.get?_eq_get hc
    simp only [bind, Except.bind, currentMovement, hget]
    exact snapHeading_total L hL s _
  · exact ⟨s, rfl⟩

theorem stepTailFloat_frame (fl : F → F) (s : Simulation F) (ps : List (Predator F))
    (mv : Vec2 F) (elapsed : F) :
    (stepTailFloat fl s ps mv elapsed).movements = s.movements ∧
      (stepTailFloat fl s ps mv elapsed).current_movement = s.current_movement ∧
      (stepTailFloat fl s ps mv elapsed).time_of_next_movement = s.time_of_next_movement ∧
      (stepTailFloat fl s ps mv elapsed).simulation_timer = s.simulation_timer + elapsed ∧
      (stepTailFloat fl s ps mv elapsed).predators_speed = s.predators_speed ∧
      (stepTailFloat fl s ps mv elapsed).prey_speed = s.prey_speed := by
  simp only [stepTailFloat]
  split <;> exact ⟨rfl, rfl, rfl, rfl, rfl, rfl⟩

/-- A step of a slow chase returns, and leaves a slow chase. -/
theorem stepN_slow (fl : F → F) (L : Libm F) (hL : L.SqrtNonneg) (hL0 : L.SqrtNonzero)
    (s : SimulationN F)
    (elapsed : F) (he : 0 ≤ elapsed) (hs : SlowChaseN s) :
    ∃ s', singleStepSimulateN fl L s elapsed = .ok s' ∧ SlowChaseN s' := by
  obtain ⟨hinv, hslow, hun⟩ := hs
  obtain ⟨sa, hsa⟩ := stepHead_total L hL0 s.prey hinv.1
  have ea := stepHead_eq L s.prey sa hsa
  have hinva : PlanInv (atCapture sa elapsed) :=
    planInv_frame s.prey _ hinv (by rw [ea]; rfl) (by rw [ea]; rfl) (by rw [ea]; rfl)
      (by rw [ea]; exact le_rfl)
  have hsla : (atCapture sa elapsed).predators_speed ≤ (atCapture sa elapsed).prey_speed := by
    rw [ea]; exact hslow
  have hcontrol : ∃ sb, preyControl L (atCapture sa elapsed) elapsed = .ok sb ∧ PlanInv sb := by
    by_cases hp : (atCapture sa elapsed).move_by_plan = true
    · obtain ⟨sb, hsb, hinv', -⟩ := preyControl_plan L hL0 _ elapsed hinva hp
      exact ⟨sb, hsb, hinv'⟩
    · refine ⟨atCapture sa elapsed, ?_, hinva⟩
      unfold preyControl
      rw [if_neg hp]
      rfl
  obtain ⟨sb, hsb, hinvb⟩ := hcontrol
  have eb := preyControl_eq L _ sb elapsed hsb
  obtain ⟨mv, hmv⟩ := normalize_total L hL0 sb.prey_velocity (sb.prey_speed * elapsed)
  have hstep : singleStepSimulateN fl L s elapsed = .ok
      { prey := stepTailFloat fl sb sb.predators mv elapsed
        predators :=
          if fl (sb.trail_timer - elapsed) < 0 then
            ((s.predators.map (markReachedN L (atCapture sa elapsed))).map
              (steerN L sb elapsed)).map sampleTrailN
          else (s.predators.map (markReachedN L (atCapture sa elapsed))).map
              (steerN L sb elapsed) } := by
    unfold singleStepSimulateN
    simp only [bind, Except.bind, hsa, hsb, hmv]
    rfl
  refine ⟨_, hstep, ?_, ?_, ?_⟩
  · obtain ⟨h1, h2, h3, h4, -⟩ := stepTailFloat_frame fl sb sb.predators mv elapsed
    exact planInv_frame sb _ hinvb h1 h2 h3 (by rw [h4]; exact le_add_of_nonneg_right he)
  · obtain ⟨-, -, -, -, h5, h6⟩ := stepTailFloat_frame fl sb sb.predators mv elapsed
    show (stepTailFloat fl sb sb.predators mv elapsed).predators_speed ≤
      (stepTailFloat fl sb sb.predators mv elapsed).prey_speed
    rw [h5, h6, eb]
    exact hsla
  · have hmark : s.predators.map (markReachedN L (atCapture sa elapsed)) = s.predators := by
      conv_rhs => rw [← List.map_id s.predators]
      exact List.map_congr_left (fun p _ => markReachedN_slow L hL _ p hsla he)
    intro p hp
    simp only [hmark] at hp
    split at hp
    · obtain ⟨q, hq, rfl⟩ := List.mem_map.mp hp
      obtain ⟨r, hr, rfl⟩ := List.mem_map.mp hq
      rw [sampleTrailN_when_reached, steerN_when_reached]
      exact hun r hr
    · obtain ⟨r, hr, rfl⟩ := List.mem_map.mp hp
      rw [steerN_when_reached]
      exact hun r hr

theorem repeatStepN_slow (fl : F → F) (L : Libm F) (hL : L.SqrtNonneg) (hL0 : L.SqrtNonzero)
    (elapsed : F)
    (he : 0 ≤ elapsed) (n : Nat) (s : SimulationN F) (hs : SlowChaseN s) :
    ∃ s', repeatStepN fl L elapsed n s = .ok s' ∧ SlowChaseN s' := by
  induction n generalizing s with
  | zero => exact ⟨s, rfl, hs⟩
  | succ n ih =>
    obtain ⟨s1, h1, hs1⟩ := stepN_slow fl L hL hL0 s elapsed he hs
    obtain ⟨s2, h2, hs2⟩ := ih s1 hs1
    refine ⟨s2, ?_, hs2⟩
    unfold repeatStepN
    simp only [bind, Except.bind, h1]
    exact h2

theorem applyN_slow (fl : F → F) (L : Libm F) (hL : L.SqrtNonneg) (hL0 : L.SqrtNonzero) (c : Call F)
    (hc : c.NonNeg) (s : SimulationN F) (hs : SlowChaseN s) :
    ∃ s', c.applyN fl L s = .ok s' ∧ SlowChaseN s' := by
  cases c with
  | simulate elapsed =>
    simp only [Call.applyN, simulateN]
    split
    · exact ⟨s, rfl, hs⟩
    · rename_i hsub
      have hpos : (0 : F) < (s.prey.substeps : F) := by
        have : 0 < s.prey.substeps := not_le.mp hsub
        exact_mod_cast this
      exact repeatStepN_slow fl L hL hL0 _ (div_nonneg hc hpos.le) _ s hs
  | setPreyVelocity value =>
    obtain ⟨v, hv⟩ := normalize_total L hL0 value s.prey.prey_speed
    refine ⟨{ s with prey := { s.prey with move_by_plan := false, prey_velocity := v } }, ?_, ?_⟩
    · simp only [Call.applyN, setPreyVelocity, bind, Except.bind, hv]
      rfl
    · exact ⟨planInv_frame s.prey _ hs.1 rfl rfl rfl le_rfl, hs.2.1, hs.2.2⟩
  | rotatePreyVelocity rotation =>
    obtain ⟨v, hv⟩ := normalize_total L hL0
      ⟨L.cos ((if s.prey.prey_velocity = Vec2.zero then 0
          else L.atan2 s.prey.prey_velocity.y s.prey.prey_velocity.x) + rotation),
        L.sin ((if s.prey.prey_velocity = Vec2.zero then 0
          else L.atan2 s.prey.prey_velocity.y s.prey.prey_velocity.x) + rotation)⟩
      s.prey.prey_speed
    refine ⟨{ s with prey := { s.prey with move_by_plan := false, prey_velocity := v } }, ?_, ?_⟩
    · simp only [Call.applyN, rotatePreyVelocity, bind, Except.bind, hv]
      rfl
    · exact ⟨planInv_frame s.prey _ hs.1 rfl rfl rfl le_rfl, hs.2.1, hs.2.2⟩
  | setSubsteps n =>
    exact ⟨_, rfl, planInv_frame s.prey _ hs.1 rfl rfl rfl le_rfl, hs.2.1, hs.2.2⟩

theorem runCallsN_slow (fl : F → F) (L : Libm F) (hL : L.SqrtNonneg) (hL0 : L.SqrtNonzero)
    (calls : List (Call F)) (hn : ∀ c ∈ calls, c.NonNeg) (s : SimulationN F)
    (hs : SlowChaseN s) : ∃ s', runCallsN fl L s calls = .ok s' ∧ SlowChaseN s' := by
  induction calls generalizing s with
  | nil => exact ⟨s, rfl, hs⟩
  | cons c cs ih =>
    obtain ⟨s1, h1, hs1⟩ := applyN_slow fl L hL hL0 c (hn c (List.mem_cons_self _ _)) s hs
    obtain ⟨s2, h2, hs2⟩ := ih (fun c' hc' => hn c' (List.mem_cons_of_mem _ hc')) s1 hs1
    refine ⟨s2, ?_, hs2⟩
    unfold runCallsN
    simp only [bind, Except.bind, h1]
    exact h2

theorem markReachedN_toN (L : Libm F) (s : Simulation F) (l : List (Predator F))
    (p : Predator F) :
    markReachedN L (withPredators s l) p.toN = (markReached L s p).toN := by
  unfold markReachedN markReached
  show (if p.when_reached < 0 ∧
      predator_close_to_prey L s (PredatorN.real p.toN p.position) = true then _ else _) = _
  have hc : predator_close_to_prey L s (PredatorN.real p.toN p.position) =
      predator_close_to_prey L s p := rfl
  rw [hc]
  split <;> rfl

theorem steer_movement (L : Libm F) (s : Simulation F) (elapsed : F) (p q : Predator F)
    (hp : p.when_reached < 0) (h : steer L s elapsed p = .ok q) :
    ∃ mv vx vy, steerMovement L s elapsed p = .ok mv ∧ fdiv mv.x elapsed = .ok vx ∧
      fdiv mv.y elapsed = .ok vy ∧
      q = { p with position := p.position.add mv, velocity := ⟨vx, vy⟩ } := by
  unfold steer at h
  rw [if_pos hp] at h
  unfold steerMovement
  simp only [bind, Except.bind] at h ⊢
  cases hn : naiveDirection L s p with
  | error e => rw [hn] at h; cases h
  | ok nd =>
    rw [hn] at h
    simp only at h ⊢
    cases hpd : parallelDirection L s p with
    | error e => rw [hpd] at h; cases h
    | ok pd =>
      rw [hpd] at h
      simp only at h ⊢
      cases hm : normalize L ((pd.scale p.lambda).add (nd.scale (1 - p.lambda)))
          (s.predators_speed * elapsed) with
      | error e => rw [hm] at h; cases h
      | ok mv =>
        rw [hm] at h
        simp only at h
        cases hx : fdiv mv.x elapsed with
        | error e => rw [hx] at h; cases h
        | ok vx =>
          rw [hx] at h
          simp only at h
          cases hy : fdiv mv.y elapsed with
          | error e => rw [hy] at h; cases h
          | ok vy =>
            rw [hy] at h
            cases h
            exact ⟨mv, vx, vy, rfl, hx, hy, rfl⟩

theorem steerN_toN (L : Libm F) (s : Simulation F) (l : List (Predator F)) (elapsed : F)
    (p q : Predator F) (h : steer L s elapsed p = .ok q) :
    steerN L (withPredators s l) elapsed p.toN = q.toN := by
  by_cases hp : p.when_reached < 0
  · obtain ⟨mv, vx, vy, hmv, hx, hy, rfl⟩ := steer_movement L s elapsed p q hp h
    have hm : steerMovement L (withPredators s l) elapsed (PredatorN.real p.toN p.position) =
        .ok mv := hmv
    unfold steerN
    rw [if_pos (show p.toN.when_reached < 0 from hp)]
    show (match steerMovement L (withPredators s l) elapsed (PredatorN.real p.toN p.position) with
      | .ok propnav_movement => _
      | .error _ => _) = _
    rw [hm]
    simp only [velocityOf, hx, hy]
    rfl
  · unfold steer at h
    rw [if_neg hp] at h
    cases h
    unfold steerN
    rw [if_neg (show ¬ p.toN.when_reached < 0 from hp)]

theorem sampleTrailN_toN (p : Predator F) : sampleTrailN p.toN = (sampleTrail p).toN := by
  unfold sampleTrailN sampleTrail
  by_cases hp : p.when_reached < 0
  · rw [if_pos (show p.toN.when_reached < 0 from hp), if_pos hp]
    simp [Predator.toN]
  · rw [if_neg (show ¬ p.toN.when_reached < 0 from hp), if_neg hp]

/-- Where a step on real predators stays in the real numbers, the step on
predators that may leave them makes the same state. -/
theorem stepN_agrees (L : Libm F) (s s' : Simulation F) (elapsed : F)
    (h : singleStepSimulate L s elapsed = .ok s') :
    singleStepSimulateN (fun x => x) L s.toN elapsed = .ok s'.toN := by
  obtain ⟨sa, sb, mv, hsa, hsb, hmv, hst, rfl⟩ :=
    (step_withPredators_ok L s s.predators elapsed s').mp h
  have hsaN : stepHead L (withPredators s []) = .ok (withPredators sa []) := by
    rw [stepHead_withPredators, hsa]; rfl
  have hA : afterCapture L sa elapsed = withPredators (atCapture sa elapsed)
      (sa.predators.map (markReached L (atCapture sa elapsed))) := rfl
  have hsbO := hsb
  rw [hA, preyControl_withPredators] at hsb
  cases hsb0 : preyControl L (atCapture sa elapsed) elapsed with
  | error e => rw [hsb0] at hsb; cases hsb
  | ok sb0 =>
    rw [hsb0] at hsb
    have hsb' :
        withPredators sb0 (sa.predators.map (markReached L (atCapture sa elapsed))) = sb := by
      cases hsb; rfl
    subst hsb'
    have hsbN : preyControl L (atCapture (withPredators sa []) elapsed) elapsed =
        .ok (withPredators sb0 []) := by
      have : atCapture (withPredators sa []) elapsed =
          withPredators (atCapture sa elapsed) [] := rfl
      rw [this, preyControl_withPredators, hsb0]; rfl
    have hmvN : normalize L (withPredators sb0 []).prey_velocity
        ((withPredators sb0 []).prey_speed * elapsed) = .ok mv := hmv
    unfold singleStepSimulateN
    simp only [bind, Except.bind]
    have hprey : (Simulation.toN s).prey = withPredators s [] := rfl
    rw [hprey, hsaN]
    simp only
    rw [hsbN]
    simp only
    rw [hmvN]
    simp only [pure, Except.pure]
    have hpred : ∀ p ∈ s.predators, (predatorStep L s elapsed p).toN =
        (if sb0.trail_timer - elapsed < 0 then
          sampleTrailN (steerN L (withPredators sb0 []) elapsed
            (markReachedN L (atCapture (withPredators sa []) elapsed) p.toN))
        else steerN L (withPredators sb0 []) elapsed
            (markReachedN L (atCapture (withPredators sa []) elapsed) p.toN)) := by
      intro p hp
      obtain ⟨q, hq⟩ := hst p hp
      have hq0 : steer L sb0 elapsed (markReached L (atCapture sa elapsed) p) = .ok q := hq
      rw [show atCapture (withPredators sa []) elapsed = withPredators (atCapture sa elapsed) []
        from rfl, markReachedN_toN, steerN_toN L sb0 [] elapsed _ q hq0, sampleTrailN_toN]
      unfold predatorStep
      simp only [hsa, resultOr, hsbO, hq]
      show (if sb0.trail_timer - elapsed < 0 then sampleTrail q else q).toN = _
      split <;> rfl
    have hprey' : (Simulation.toN (withPredators
        (stepTail (withPredators sb0
          (List.map (markReached L (atCapture sa elapsed)) sa.predators)) [] mv elapsed)
        (List.map (predatorStep L s elapsed) s.predators))).prey =
        stepTail (withPredators sb0 []) (withPredators sb0 []).predators mv elapsed := by
      show withPredators _ [] = _
      simp only [stepTail, withPredators]
      split <;> rfl
    have hpreds : (Simulation.toN (withPredators
        (stepTail (withPredators sb0
          (List.map (markReached L (atCapture sa elapsed)) sa.predators)) [] mv elapsed)
        (List.map (predatorStep L s elapsed) s.predators))).predators =
        (if (withPredators sb0 []).trail_timer - elapsed < 0 then
          List.map sampleTrailN (List.map (steerN L (withPredators sb0 []) elapsed)
            (List.map (markReachedN L (atCapture (withPredators sa []) elapsed))
              (Simulation.toN s).predators))
        else List.map (steerN L (withPredators sb0 []) elapsed)
            (List.map (markReachedN L (atCapture (withPredators sa []) elapsed))
              (Simulation.toN s).predators)) := by
      show (List.map (predatorStep L s elapsed) s.predators).map Predator.toN = _
      have htr : (withPredators sb0 []).trail_timer = sb0.trail_timer := rfl
      rw [htr]
      show _ = (if sb0.trail_timer - elapsed < 0 then _ else _)
      have hl : (Simulation.toN s).predators = s.predators.map Predator.toN := rfl
      rw [hl]
      simp only [List.map_map]
      by_cases hc : sb0.trail_timer - elapsed < 0
      · rw [if_pos hc]
        refine List.map_congr_left (fun p hp => ?_)
        have := hpred p hp
        rw [if_pos hc] at this
        exact this
      · rw [if_neg hc]
        refine List.map_congr_left (fun p hp => ?_)
        have := hpred p hp
        rw [if_neg hc] at this
        exact this
    have hext : ∀ a b : SimulationN F, a.prey = b.prey → a.predators = b.predators → a = b := by
      intro a b h1 h2
      cases a
      cases b
      cases h1
      cases h2
      rfl
    exact congrArg Except.ok (hext _ _ hprey'.symm hpreds.symm)

theorem repeatStepN_agrees (L : Libm F) (elapsed : F) (n : Nat) (s s' : Simulation F)
    (h : repeatStep L elapsed n s = .ok s') :
    repeatStepN (fun x => x) L elapsed n s.toN = .ok s'.toN := by
  induction n generalizing s with
  | zero => cases h; rfl
  | succ n ih =>
    unfold repeatStep at h
    simp only [bind, Except.bind] at h
    split at h
    · cases h
    · rename_i s1 hs1
      unfold repeatStepN
      simp only [bind, Except.bind, stepN_agrees L s s1 elapsed hs1]
      exact ih s1 h

theorem applyN_agrees (L : Libm F) (c : Call F) (s s' : Simulation F)
    (h : c.apply L s = .ok s') : c.applyN (fun x => x) L s.toN = .ok s'.toN := by
  cases c with
  | simulate elapsed =>
    simp only [Call.apply, simulate] at h
    simp only [Call.applyN, simulateN]
    have hsub : (Simulation.toN s).prey.substeps = s.substeps := rfl
    rw [hsub]
    split at h
    · rename_i hle
      cases h
      rw [if_pos hle]
      rfl
    · rename_i hle
      rw [if_neg hle]
      exact repeatStepN_agrees L _ _ s s' h
  | setPreyVelocity value =>
    simp only [Call.apply, setPreyVelocity, bind, Except.bind] at h
    simp only [Call.applyN, setPreyVelocity, bind, Except.bind]
    have hsp : (Simulation.toN s).prey.prey_speed = s.prey_speed := rfl
    rw [hsp]
    split at h
    · cases h
    · rename_i v hv
      cases h
      rfl
  | rotatePreyVelocity rotation =>
    simp only [Call.apply, rotatePreyVelocity, bind, Except.bind] at h
    simp only [Call.applyN, rotatePreyVelocity, bind, Except.bind]
    have hsp : (Simulation.toN s).prey.prey_speed = s.prey_speed := rfl
    have hve : (Simulation.toN s).prey.prey_velocity = s.prey_velocity := rfl
    rw [hsp, hve]
    split at h
    · cases h
    · rename_i v hv
      cases h
      rfl
  | setSubsteps n =>
    cases h
    rfl

/-- Where a run on real predators stays in the real numbers, the run on
predators that may leave them ends in the same state. -/
theorem runCallsN_agrees (L : Libm F) (calls : List (Call F)) (s s' : Simulation F)
    (h : runCalls L s calls = .ok s') : runCallsN (fun x => x) L s.toN calls = .ok s'.toN := by
  induction calls generalizing s with
  | nil => cases h; rfl
  | cons c cs ih =>
    unfold runCalls at h
    simp only [bind, Except.bind] at h
    split at h
    · cases h
    · rename_i s1 hs1
      unfold runCallsN
      simp only [bind, Except.bind, applyN_agrees L c s s1 hs1]
      exact ih s1 h

end Escape

section SlowFileN
variable {F : Type} [LinearOrderedField F] [FloorRing F]

/-- C24. If the predators are not faster than the prey in the Simulation built
from a valid configuration, then every sequence of calls with non-negative
`elapsed` returns, also where the arithmetic of a predator leaves the real
numbers (a predator on the prey's position, no direction that keeps the line of
sight parallel, a tick of zero seconds) and whatever the rounding `fl` of the
trail timer, and after it every `when_reached` is -1: no predator is ever marked
reached.  The capture test of the state reached marks no predator wherever it
is.  (The square root is taken not to be negative, and not zero of a positive
number.) -/
theorem slow_predators_never_reach (fl : F → F) (L : Libm F) (hL : L.SqrtNonneg)
    (hL0 : L.SqrtNonzero)
    (file : List (List Char)) (calls : List (Call F))
    (hv : (Simulation.ofLines F file).is_valid = true)
    (hslow : (Simulation.ofLines F file).predators_speed ≤ (Simulation.ofLines F file).prey_speed)
    (hn : ∀ c ∈ calls, c.NonNeg) :
    ∃ s, runCallsN fl L (Simulation.ofLines F file).toN calls = .ok s ∧
      (∀ p ∈ s.predators, p.when_reached = -1) ∧
      s.prey.predators_speed ≤ s.prey.prey_speed ∧
      ∀ (elapsed : F) (p : PredatorN F), 0 ≤ elapsed →
        markReachedN L (atCapture s.prey elapsed) p = p := by
  have h0 : SlowChaseN (Simulation.ofLines F file).toN := by
    refine ⟨planInv_frame _ _ (planInv_ofLines file hv) rfl rfl rfl le_rfl, hslow, ?_⟩
    intro p hp
    obtain ⟨q, hq, rfl⟩ := List.mem_map.mp hp
    exact ofLines_unreached file q hq
  obtain ⟨s, hs, -, hsl, hun⟩ := runCallsN_slow fl L hL hL0 calls hn _ h0
  exact ⟨s, hs, hun, hsl, fun elapsed p he => markReachedN_slow L hL _ p hsl he⟩

end SlowFileN

/-- The predator of `outrunProgram`, half as fast as the prey: the run on real
predators leaves the real numbers in the first tick (the discriminant of the
parallel direction is negative), the position of the predator is no real vector
from then on, and after two ticks of 1 second it is not marked (shown on the
run with an exact trail timer).  The same for the predator of `coincidentState`,
on the prey's position. -/
theorem slow_predators_never_reach_witness :
    (faultOf (runCalls exampleLibm (Simulation.ofLines ℚ outrunProgram)
        [.simulate 1, .simulate 1]) = some .notReal ∧
      (predatorsOf (runCallsN (fun x => x) exampleLibm (Simulation.ofLines ℚ outrunProgram).toN
        [.simulate 1, .simulate 1])).map (fun p => (p.position, p.when_reached)) = [(none, -1)] ∧
      (predatorsOf (runCallsN (fun x => x) exampleLibm coincidentState.toN
        [.simulate 1, .simulate 1])).map (fun p => (p.position, p.when_reached)) = [(none, -1)]) ∧
    ∃ s, runCallsN binary32 exampleLibm (Simulation.ofLines ℚ outrunProgram).toN
        [.simulate 1, .simulate 1] = .ok s ∧
      (∀ p ∈ s.predators, p.when_reached = -1) ∧
      s.prey.predators_speed ≤ s.prey.prey_speed ∧
      ∀ (elapsed : ℚ) (p : PredatorN ℚ), 0 ≤ elapsed →
        markReachedN exampleLibm (atCapture s.prey elapsed) p = p :=
  ⟨⟨by decide!, by decide!, by decide!⟩,
    slow_predators_never_reach binary32 exampleLibm exampleLibm_sqrtNonneg
      exampleLibm_sqrtNonzero outrunProgram [.simulate 1, .simulate 1] (by decide!) (by decide!)
      (by simp [Call.NonNeg])⟩

/-! ## The chase on the distances the code computes -/

section CloseTicks
variable {F : Type} [LinearOrderedField F]

end CloseTicks

theorem roundHalfEven_near (y : ℚ) : |(roundHalfEven y : ℚ) - y| ≤ 1 / 2 := by
  have h0 : (⌊y⌋ : ℚ) ≤ y := Int.floor_le y
  have h1 : y < ⌊y⌋ + 1 := Int.lt_floor_add_one y
  unfold roundHalfEven
  split
  · rw [abs_le]; constructor <;> linarith
  · split
    · push_cast
      rw [abs_le]; constructor <;> linarith
    · have he : y - ⌊y⌋ = 1 / 2 := by
        rename_i ha hb
        exact le_antisymm (not_lt.mp hb) (not_lt.mp ha)
      split
      · rw [abs_le]; constructor <;> linarith
      · push_cast
        rw [abs_le]; constructor <;> linarith

theorem binaryShift_ge (p : Nat) (x : ℚ) (smax s : Nat) (hs : s ≤ smax)
    (h : |x| * 2 ^ s < 2 ^ p) : s ≤ binaryShift p x smax := by
  induction smax with
  | zero => exact hs
  | succ n ih =>
    unfold binaryShift
    split
    · exact hs
    · rename_i hn
      rcases Nat.lt_or_ge s (n + 1) with hlt | hge
      · exact ih (Nat.lt_succ_iff.mp hlt)
      · have : s = n + 1 := le_antisymm hs hge
        subst this
        exact absurd h hn

/-- The rounding to a `float` of a number below 1/8 is off by at most
`2^-28`. -/
theorem binary32_near (x : ℚ) (hx : |x| < 1 / 8) : |binary32 x - x| ≤ 1 / 2 ^ 28 := by
  have hge := binaryShift_ge 24 x 149 27 (by norm_num) (by
    have : |x| * 2 ^ 27 < 1 / 8 * 2 ^ 27 := mul_lt_mul_of_pos_right hx (by positivity)
    calc |x| * 2 ^ 27 < 1 / 8 * 2 ^ 27 := this
      _ = 2 ^ 24 := by norm_num)
  have hxp : |x| < 2 ^ 24 := lt_trans hx (by norm_num)
  unfold binary32 roundBinary
  rw [if_pos hxp]
  generalize binaryShift 24 x 149 = s at hge
  have hpos : (0 : ℚ) < 2 ^ s := by positivity
  have h27 : (2 : ℚ) ^ 27 ≤ 2 ^ s := pow_le_pow_right₀ (by norm_num) hge
  have hr := roundHalfEven_near (x * 2 ^ s)
  have heq : (roundHalfEven (x * 2 ^ s) : ℚ) / 2 ^ s - x =
      ((roundHalfEven (x * 2 ^ s) : ℚ) - x * 2 ^ s) / 2 ^ s := by
    field_simp
    ring
  rw [heq, abs_div, abs_of_pos hpos, div_le_iff₀ hpos]
  calc |(roundHalfEven (x * 2 ^ s) : ℚ) - x * 2 ^ s| ≤ 1 / 2 := hr
    _ = 1 / 2 ^ 28 * 2 ^ 27 := by norm_num
    _ ≤ 1 / 2 ^ 28 * 2 ^ s := mul_le_mul_of_nonneg_left h27 (by positivity)

section RoundedAlpha
variable {F : Type} [LinearOrderedField F]

end RoundedAlpha

section FloatTrail
variable {F : Type} [LinearOrderedField F]

theorem stepTailFloat_trail (fl : F → F) (s : Simulation F) (ps : List (Predator F))
    (mv : Vec2 F) (elapsed : F) :
    (stepTailFloat fl s ps mv elapsed).trail_dash_time = s.trail_dash_time ∧
    (stepTailFloat fl s ps mv elapsed).trail_gap_time = s.trail_gap_time ∧
    (fl (s.trail_timer - elapsed) < 0 →
      (stepTailFloat fl s ps mv elapsed).prey_trail.length = s.prey_trail.length + 1 ∧
      (stepTailFloat fl s ps mv elapsed).trail_timer = fl (fl (s.trail_timer - elapsed) +
        (if s.trail_gap_now then s.trail_dash_time else s.trail_gap_time)) ∧
      (stepTailFloat fl s ps mv elapsed).trail_gap_now = !s.trail_gap_now) ∧
    (¬ fl (s.trail_timer - elapsed) < 0 →
      (stepTailFloat fl s ps mv elapsed).prey_trail.length = s.prey_trail.length ∧
      (stepTailFloat fl s ps mv elapsed).trail_timer = fl (s.trail_timer - elapsed) ∧
      (stepTailFloat fl s ps mv elapsed).trail_gap_now = s.trail_gap_now) := by
  simp only [stepTailFloat]
  split
  · rename_i h
    refine ⟨rfl, rfl, fun _ => ⟨?_, rfl, rfl⟩, fun hn => absurd h hn⟩
    simp
  · rename_i h
    exact ⟨rfl, rfl, fun hl => absurd hl h, fun _ => ⟨rfl, rfl, rfl⟩⟩

set_option maxHeartbeats 1000000 in
/-- A tick takes the phase of the `float` trail timer to the phase of the next
tick: with the rounding off by `δ` at most, a tick of `δ` at least and of
`0.02 - 3 δ` at most, the timer never stays negative and a sample is taken when
it lapses. -/
theorem trailDrift_step (fl : F → F) (δ : F) (hfl : ∀ x, |x| < 1 / 8 → |fl x - x| ≤ δ)
    (hδ : 0 ≤ δ) (s s' : Simulation F) (elapsed T : F) (N k : Nat)
    (he0 : δ ≤ elapsed) (he : elapsed + 3 * δ ≤ 2 / 100) (hph : TrailDrift δ s T N k)
    (hd' : s'.trail_dash_time = s.trail_dash_time) (hg' : s'.trail_gap_time = s.trail_gap_time)
    (hlapse : fl (s.trail_timer - elapsed) < 0 →
      s'.trail_timer = fl (fl (s.trail_timer - elapsed) +
        (if s.trail_gap_now then s.trail_dash_time else s.trail_gap_time)) ∧
      s'.trail_gap_now = !s.trail_gap_now)
    (hkeep : ¬ fl (s.trail_timer - elapsed) < 0 →
      s'.trail_timer = fl (s.trail_timer - elapsed) ∧ s'.trail_gap_now = s.trail_gap_now) :
    TrailDrift δ s' (T + elapsed)
      (N + (if fl (s.trail_timer - elapsed) < 0 then 1 else 0)) (k + 1) := by
  obtain ⟨hd, hg, h0, hcase⟩ := hph
  obtain ⟨hd2, hd3⟩ := abs_le.mp hd
  obtain ⟨hg2, hg3⟩ := abs_le.mp hg
  have hk0 : (0 : F) ≤ (k : F) := Nat.cast_nonneg k
  have hkδ : 0 ≤ 3 * (k : F) * δ := by positivity
  have hk1 : 3 * ((k + 1 : Nat) : F) * δ = 3 * (k : F) * δ + 3 * δ := by push_cast; ring
  have hup : s.trail_timer < 5 / 100 + 2 * δ := by
    rcases hcase with ⟨-, j, -, -, hlt⟩ | ⟨-, j, -, -, hlt⟩
    · linarith
    · exact hlt
  have hx1 : |s.trail_timer - elapsed| < 1 / 8 := by
    rw [abs_lt]; constructor <;> linarith
  obtain ⟨hu1, hu2⟩ := abs_le.mp (hfl _ hx1)
  by_cases hl : fl (s.trail_timer - elapsed) < 0
  · obtain ⟨ht', hgn'⟩ := hlapse hl
    rw [if_pos hl]
    rcases hcase with ⟨hgn, j, hN, herr, hlt⟩ | ⟨hgn, j, hN, herr, hlt⟩
    · rw [hgn] at ht' hgn'
      simp only [if_true] at ht'
      have hx2 : |fl (s.trail_timer - elapsed) + s.trail_dash_time| < 1 / 8 := by
        rw [abs_lt]; constructor <;> linarith
      obtain ⟨hw1, hw2⟩ := abs_le.mp (hfl _ hx2)
      obtain ⟨herr2, herr3⟩ := abs_le.mp herr
      refine ⟨by rw [hd']; exact hd, by rw [hg']; exact hg, by rw [ht']; linarith, Or.inr
        ⟨by rw [hgn']; rfl, j, by rw [hN], ?_, by rw [ht']; linarith⟩⟩
      rw [ht', hk1, abs_le]
      constructor <;> linarith
    · rw [hgn] at ht' hgn'
      simp only [Bool.false_eq_true, if_false] at ht'
      have hx2 : |fl (s.trail_timer - elapsed) + s.trail_gap_time| < 1 / 8 := by
        rw [abs_lt]; constructor <;> linarith
      obtain ⟨hw1, hw2⟩ := abs_le.mp (hfl _ hx2)
      obtain ⟨herr2, herr3⟩ := abs_le.mp herr
      refine ⟨by rw [hd']; exact hd, by rw [hg']; exact hg, by rw [ht']; linarith, Or.inl
        ⟨by rw [hgn']; rfl, j + 1, by rw [hN]; ring, ?_, by rw [ht']; linarith⟩⟩
      rw [ht', hk1, abs_le]
      push_cast
      constructor <;> linarith
  · obtain ⟨ht', hgn'⟩ := hkeep hl
    rw [if_neg hl, Nat.add_zero]
    have hu0 : 0 ≤ fl (s.trail_timer - elapsed) := not_lt.mp hl
    rcases hcase with ⟨hgn, j, hN, herr, hlt⟩ | ⟨hgn, j, hN, herr, hlt⟩
    · obtain ⟨herr2, herr3⟩ := abs_le.mp herr
      refine ⟨by rw [hd']; exact hd, by rw [hg']; exact hg, by rw [ht']; exact hu0, Or.inl
        ⟨by rw [hgn']; exact hgn, j, hN, ?_, by rw [ht']; linarith⟩⟩
      rw [ht', hk1, abs_le]
      constructor <;> linarith
    · obtain ⟨herr2, herr3⟩ := abs_le.mp herr
      refine ⟨by rw [hd']; exact hd, by rw [hg']; exact hg, by rw [ht']; exact hu0, Or.inr
        ⟨by rw [hgn']; exact hgn, j, hN, ?_, by rw [ht']; linarith⟩⟩
      rw [ht', hk1, abs_le]
      constructor <;> linarith

/-- In a phase of the `float` trail timer the number of samples is within
`1 + 200/7 (3 k + 2) δ` of `2 T / 0.07`. -/
theorem trailDrift_count (δ : F) (hδ : 0 ≤ δ) (s : Simulation F) (T : F) (N k : Nat)
    (hph : TrailDrift δ s T N k) :
    |(N : F) - 2 * T / (7 / 100)| < 1 + 200 / 7 * (3 * (k : F) + 2) * δ := by
  obtain ⟨-, -, h0, hcase⟩ := hph
  have hk0 : (0 : F) ≤ (k : F) := Nat.cast_nonneg k
  have hkδ : 0 ≤ (k : F) * δ := mul_nonneg hk0 hδ
  rw [abs_lt]
  rcases hcase with ⟨-, j, hN, herr, hlt⟩ | ⟨-, j, hN, herr, hlt⟩
  · obtain ⟨herr2, herr3⟩ := abs_le.mp herr
    have hNF : (N : F) = 2 * (j : F) := by rw [hN]; push_cast; ring
    have hdiv : 2 * T / (7 / 100) = 200 / 7 * T := by field_simp; ring
    rw [hNF, hdiv]
    constructor <;> linarith
  · obtain ⟨herr2, herr3⟩ := abs_le.mp herr
    have hNF : (N : F) = 2 * (j : F) + 1 := by rw [hN]; push_cast; ring
    have hdiv : 2 * T / (7 / 100) = 200 / 7 * T := by field_simp; ring
    rw [hNF, hdiv]
    constructor <;> linarith

theorem markReachedN_trail (L : Libm F) (s : Simulation F) (p : PredatorN F) :
    (markReachedN L s p).trail = p.trail ∧
      ((markReachedN L s p).when_reached < 0 → p.when_reached < 0) := by
  unfold markReachedN
  split
  · split
    · rename_i h
      exact ⟨rfl, fun _ => h.1⟩
    · exact ⟨rfl, fun h => h⟩
  · exact ⟨rfl, fun h => h⟩

theorem steerN_trail (L : Libm F) (s : Simulation F) (elapsed : F) (p : PredatorN F) :
    (steerN L s elapsed p).trail = p.trail := by
  unfold steerN
  split
  · split
    · split <;> rfl
    · rfl
  · rfl

/-- A tick on a state whose plan executor is in its invariant returns; the
prey part of the new state is made by `stepTailFloat` of a state with the trail
of the old one, and every predator is sampled when the trail timer lapses, if
it is unreached. -/
theorem stepN_total (fl : F → F) (L : Libm F) (hL0 : L.SqrtNonzero) (s : SimulationN F)
    (elapsed : F) (he : 0 ≤ elapsed) (hinv : PlanInv s.prey) :
    ∃ s' sb mv, singleStepSimulateN fl L s elapsed = .ok s' ∧
      s'.prey = stepTailFloat fl sb sb.predators mv elapsed ∧ PlanInv s'.prey ∧
      sb.trail_timer = s.prey.trail_timer ∧ sb.trail_gap_now = s.prey.trail_gap_now ∧
      sb.trail_dash_time = s.prey.trail_dash_time ∧
      sb.trail_gap_time = s.prey.trail_gap_time ∧ sb.prey_trail = s.prey.prey_trail ∧
      ∀ i q, s.predators.get? i = some q →
        ∃ q', s'.predators.get? i = some q' ∧
          (q'.when_reached < 0 → q.when_reached < 0 ∧
            q'.trail.length = q.trail.length +
              (if fl (s.prey.trail_timer - elapsed) < 0 then 1 else 0)) := by
  obtain ⟨sa, hsa⟩ := stepHead_total L hL0 s.prey hinv.1
  have ea := stepHead_eq L s.prey sa hsa
  have hinva : PlanInv (atCapture sa elapsed) :=
    planInv_frame s.prey _ hinv (by rw [ea]; rfl) (by rw [ea]; rfl) (by rw [ea]; rfl)
      (by rw [ea]; exact le_rfl)
  have hcontrol : ∃ sb, preyControl L (atCapture sa elapsed) elapsed = .ok sb ∧ PlanInv sb := by
    by_cases hp : (atCapture sa elapsed).move_by_plan = true
    · obtain ⟨sb, hsb, hinv', -⟩ := preyControl_plan L hL0 _ elapsed hinva hp
      exact ⟨sb, hsb, hinv'⟩
    · refine ⟨atCapture sa elapsed, ?_, hinva⟩
      unfold preyControl
      rw [if_neg hp]
      rfl
  obtain ⟨sb, hsb, hinvb⟩ := hcontrol
  have eb := preyControl_eq L _ sb elapsed hsb
  obtain ⟨mv, hmv⟩ := normalize_total L hL0 sb.prey_velocity (sb.prey_speed * elapsed)
  have htimer : sb.trail_timer = s.prey.trail_timer := by rw [eb, ea]; rfl
  have hstep : singleStepSimulateN fl L s elapsed = .ok
      { prey := stepTailFloat fl sb sb.predators mv elapsed
        predators :=
          if fl (sb.trail_timer - elapsed) < 0 then
            ((s.predators.map (markReachedN L (atCapture sa elapsed))).map
              (steerN L sb elapsed)).map sampleTrailN
          else (s.predators.map (markReachedN L (atCapture sa elapsed))).map
              (steerN L sb elapsed) } := by
    unfold singleStepSimulateN
    simp only [bind, Except.bind, hsa, hsb, hmv]
    rfl
  refine ⟨_, sb, mv, hstep, rfl, ?_, htimer, by rw [eb, ea]; rfl, by rw [eb, ea]; rfl,
    by rw [eb, ea]; rfl, by rw [eb, ea]; rfl, ?_⟩
  · obtain ⟨h1, h2, h3, h4, -⟩ := stepTailFloat_frame fl sb sb.predators mv elapsed
    exact planInv_frame sb _ hinvb h1 h2 h3 (by rw [h4]; exact le_add_of_nonneg_right he)
  · intro i q hq
    simp only
    rw [htimer]
    have hm := markReachedN_trail L (atCapture sa elapsed) q
    by_cases hl : fl (s.prey.trail_timer - elapsed) < 0
    · rw [if_pos hl, if_pos hl]
      refine ⟨sampleTrailN (steerN L sb elapsed (markReachedN L (atCapture sa elapsed) q)), ?_, ?_⟩
      · rw [List.get?_eq_getElem?] at hq ⊢
        rw [List.getElem?_map, List.getElem?_map, List.getElem?_map, hq]
        rfl
      · intro hneg
        rw [sampleTrailN_when_reached, steerN_when_reached] at hneg
        refine ⟨hm.2 hneg, ?_⟩
        unfold sampleTrailN
        rw [if_pos (by rw [steerN_when_reached]; exact hneg)]
        simp [steerN_trail, hm.1]
    · rw [if_neg hl, if_neg hl]
      refine ⟨steerN L sb elapsed (markReachedN L (atCapture sa elapsed) q), ?_, ?_⟩
      · rw [List.get?_eq_getElem?] at hq ⊢
        rw [List.getElem?_map, List.getElem?_map, hq]
        rfl
      · intro hneg
        rw [steerN_when_reached] at hneg
        exact ⟨hm.2 hneg, by simp [steerN_trail, hm.1]⟩

/-- The ticks of a run from a phase of the `float` trail timer return and end in
a phase of the timer; the prey's trail and the trail of every predator that is
unreached at the end have grown by the number of samples. -/
theorem trailDrift_run (fl : F → F) (L : Libm F) (hL0 : L.SqrtNonzero) (δ : F)
    (hfl : ∀ x, |x| < 1 / 8 → |fl x - x| ≤ δ) (hδ : 0 ≤ δ) (elapsed : F)
    (he0 : δ ≤ elapsed) (he : elapsed + 3 * δ ≤ 2 / 100) (n : Nat) (s : SimulationN F)
    (T : F) (N k : Nat) (hinv : PlanInv s.prey) (hph : TrailDrift δ s.prey T N k) :
    ∃ s' d, repeatStepN fl L elapsed n s = .ok s' ∧
      TrailDrift δ s'.prey (T + (n : F) * elapsed) (N + d) (k + n) ∧
      s'.prey.prey_trail.length = s.prey.prey_trail.length + d ∧
      ∀ i q, s.predators.get? i = some q →
        ∃ q', s'.predators.get? i = some q' ∧
          (q'.when_reached < 0 → q.when_reached < 0 ∧ q'.trail.length = q.trail.length + d) := by
  induction n generalizing s T N k with
  | zero =>
    exact ⟨s, 0, rfl, by simpa using hph, rfl, fun i q hq => ⟨q, hq, fun hneg => ⟨hneg, rfl⟩⟩⟩
  | succ n ih =>
    obtain ⟨s1, sb, mv, hs1, hprey, hinv1, htm, hgn, hdash, hgap, htrail, hpred1⟩ :=
      stepN_total fl L hL0 s elapsed (le_trans hδ he0) hinv
    obtain ⟨hd', hg', hlapse, hkeep⟩ := stepTailFloat_trail fl sb sb.predators mv elapsed
    simp only [← hprey, htm, hgn, hdash, hgap, htrail] at hd' hg' hlapse hkeep
    have hph1 := trailDrift_step fl δ hfl hδ s.prey s1.prey elapsed T N k he0 he hph hd' hg'
      (fun hl => (hlapse hl).2) (fun hl => (hkeep hl).2)
    have hlen1 : s1.prey.prey_trail.length = s.prey.prey_trail.length +
        (if fl (s.prey.trail_timer - elapsed) < 0 then 1 else 0) := by
      by_cases hl : fl (s.prey.trail_timer - elapsed) < 0
      · rw [if_pos hl]; exact (hlapse hl).1
      · rw [if_neg hl]; exact (hkeep hl).1
    obtain ⟨s2, d2, hs2, hph2, hlen2, hpred2⟩ := ih s1 (T + elapsed) _ (k + 1) hinv1 hph1
    refine ⟨s2, (if fl (s.prey.trail_timer - elapsed) < 0 then 1 else 0) + d2, ?_, ?_, ?_, ?_⟩
    · unfold repeatStepN
      simp only [bind, Except.bind, hs1]
      exact hs2
    · have e1 : T + ((n + 1 : Nat) : F) * elapsed = T + elapsed + (n : F) * elapsed := by
        push_cast; ring
      have e2 : k + (n + 1) = k + 1 + n := by omega
      rw [e1, e2, ← Nat.add_assoc]
      exact hph2
    · rw [hlen2, hlen1, Nat.add_assoc]
    · intro i q hq
      obtain ⟨q1, hq1, hstep⟩ := hpred1 i q hq
      obtain ⟨q', hq', hrest⟩ := hpred2 i q1 hq1
      refine ⟨q', hq', fun hneg => ?_⟩
      obtain ⟨hneg1, hl2⟩ := hrest hneg
      obtain ⟨hneg0, hl1⟩ := hstep hneg1
      exact ⟨hneg0, by rw [hl2, hl1, Nat.add_assoc]⟩

/-- C16 (as amended). With the `float` arithmetic of the trail timer (every
operation on it off by `δ` at most), a `trail_dash_time` and a `trail_gap_time`
within `δ` of 0.05 and 0.02, and a fixed tick length from `δ` to `0.02 - 3 δ`,
from a fresh trail timer every number `n` of ticks is run, and after them (the
simulated time `T = n * elapsed`) the number `N` of trail points sampled for the
prey, and for each predator that is still unreached, differs from
`2 * T / (0.05 + 0.02)` by less than `1 + 200/7 (3 n + 2) δ`: a point is sampled
when a dash ends and when a gap ends, and the rounding shifts the tick of a
sample. -/
theorem trail_points_float (fl : F → F) (L : Libm F) (hL0 : L.SqrtNonzero) (δ : F)
    (s : SimulationN F) (elapsed : F) (n : Nat)
    (hfl : ∀ x, |x| < 1 / 8 → |fl x - x| ≤ δ) (hδ : 0 ≤ δ) (hinv : PlanInv s.prey)
    (hd : |s.prey.trail_dash_time - 5 / 100| ≤ δ) (hg : |s.prey.trail_gap_time - 2 / 100| ≤ δ)
    (ht : s.prey.trail_timer = 0) (hgn : s.prey.trail_gap_now = true)
    (he0 : δ ≤ elapsed) (hpos : 0 < elapsed) (he : elapsed + 3 * δ ≤ 2 / 100) :
    ∃ s' N, repeatStepN fl L elapsed n s = .ok s' ∧
      s'.prey.prey_trail.length = s.prey.prey_trail.length + N ∧
      |(N : F) - 2 * ((n : F) * elapsed) / (5 / 100 + 2 / 100)| <
        1 + 200 / 7 * (3 * (n : F) + 2) * δ ∧
      ∀ i q, s.predators.get? i = some q →
        ∃ q', s'.predators.get? i = some q' ∧
          (q'.when_reached < 0 → q'.trail.length = q.trail.length + N) := by
  have hph : TrailDrift δ s.prey 0 0 0 :=
    ⟨hd, hg, by rw [ht], Or.inl ⟨hgn, 0, rfl, by rw [ht]; simp, by rw [ht]; linarith⟩⟩
  obtain ⟨s', N, hs', hphN, hlen, hpred⟩ :=
    trailDrift_run fl L hL0 δ hfl hδ elapsed he0 he n s 0 0 0 hinv hph
  refine ⟨s', N, hs', hlen, ?_, ?_⟩
  · have := trailDrift_count δ hδ s'.prey _ _ _ hphN
    simp only [zero_add] at this
    have e : (5 : F) / 100 + 2 / 100 = 7 / 100 := by norm_num
    rw [e]
    exact this
  · intro i q hq
    obtain ⟨q', hq', hrest⟩ := hpred i q hq
    exact ⟨q', hq', fun hneg => (hrest hneg).2⟩

end FloatTrail

theorem planInv_floatTrailState : PlanInv floatTrailState.prey :=
  planInv_frame exampleState _
    (planInv_ofLines (F := ℚ) ["PredatorsSpeed = 2".toList, "Predator:".toList,
      "Position = 3, 4".toList, "Lambda = 0".toList, "PreyControl:".toList, "0 0".toList]
      (by decide!)) rfl rfl rfl le_rfl

theorem binary32_tick (x : ℚ) (h0 : 1 / 2 ^ 27 ≤ x) (h1 : x ≤ 1 / 100) :
    1 / 2 ^ 28 ≤ binary32 x ∧ 0 < binary32 x ∧ binary32 x + 3 * (1 / 2 ^ 28) ≤ 2 / 100 := by
  have hx : |x| < 1 / 8 := by
    rw [abs_lt]; constructor <;> linarith [show (0 : ℚ) < 1 / 2 ^ 27 by norm_num]
  have h := abs_le.mp (binary32_near x hx)
  have e27 : (1 : ℚ) / 2 ^ 27 = 2 * (1 / 2 ^ 28) := by norm_num
  have e28 : (0 : ℚ) < 1 / 2 ^ 28 := by norm_num
  have e100 : (1 : ℚ) / 100 + 4 * (1 / 2 ^ 28) ≤ 2 / 100 := by norm_num
  refine ⟨by linarith, by linarith, by linarith⟩

/-- C16 (the claim as stated fails). With the `float` arithmetic of the trail
timer, after 70 ticks of the `float` 0.01 (0.7 seconds) from the fresh state with
the dash time 0.05 and the gap time 0.02 the prey trail has from 19 to 21
points, while 0.7 / 0.07 is 10: a point is sampled twice in each period. -/
theorem trail_points_float_twice :
    floatTrailState.prey.trail_timer = 0 ∧ floatTrailState.prey.trail_gap_now = true ∧
    floatTrailState.prey.prey_trail = [] ∧
    ∃ s', repeatStepN binary32 exampleLibm (binary32 (1 / 100)) 70 floatTrailState = .ok s' ∧
      19 ≤ s'.prey.prey_trail.length ∧ s'.prey.prey_trail.length ≤ 21 ∧
      ¬ |(s'.prey.prey_trail.length : ℚ) -
          ((70 : Nat) : ℚ) * binary32 (1 / 100) / (5 / 100 + 2 / 100)| ≤ 1 := by
  refine ⟨by decide!, by decide!, by decide!, ?_⟩
  obtain ⟨hb1, hb2, hb3⟩ := binary32_tick (1 / 100) (by norm_num) le_rfl
  have hb := abs_le.mp (binary32_near (1 / 100) (by norm_num [abs_lt]))
  have hph : TrailDrift (1 / 2 ^ 28) floatTrailState.prey 0 0 0 :=
    ⟨binary32_near (5 / 100) (by norm_num [abs_lt]),
      binary32_near (2 / 100) (by norm_num [abs_lt]), by decide!,
      Or.inl ⟨by decide!, 0, rfl, by
        have h0 : floatTrailState.prey.trail_timer = 0 := by decide!
        rw [h0]; norm_num, by
        have h0 : floatTrailState.prey.trail_timer = 0 := by decide!
        rw [h0]; norm_num⟩⟩
  obtain ⟨s', N, hs', hphN, hlen, -⟩ :=
    trailDrift_run binary32 exampleLibm exampleLibm_sqrtNonzero (1 / 2 ^ 28)
      (fun x hx => binary32_near x hx) (by norm_num) (binary32 (1 / 100)) hb1 hb3 70
      floatTrailState 0 0 0 planInv_floatTrailState hph
  have hcount := abs_lt.mp (trailDrift_count (1 / 2 ^ 28) (by norm_num) s'.prey _ _ _ hphN)
  have h0 : floatTrailState.prey.prey_trail.length = 0 := by decide!
  rw [h0, Nat.zero_add] at hlen
  simp only [zero_add] at hcount
  have hdiv : 2 * (((70 : Nat) : ℚ) * binary32 (1 / 100)) / (7 / 100) =
      2000 * binary32 (1 / 100) := by
    push_cast; field_simp; ring
  have hdiv2 : ((70 : Nat) : ℚ) * binary32 (1 / 100) / (5 / 100 + 2 / 100) =
      1000 * binary32 (1 / 100) := by
    push_cast; field_simp; ring
  rw [hdiv] at hcount
  have hk : ((0 + 70 : Nat) : ℚ) = 70 := by norm_num
  rw [hk] at hcount
  have e28 : (1 : ℚ) / 2 ^ 28 < 1 / 100000000 := by norm_num
  have e28' : (0 : ℚ) < 1 / 2 ^ 28 := by norm_num
  refine ⟨s', hs', ?_, ?_, ?_⟩
  · rw [hlen]
    by_contra hlt
    have : N ≤ 18 := by omega
    have : (N : ℚ) ≤ 18 := by exact_mod_cast this
    linarith
  · rw [hlen]
    by_contra hlt
    have : 22 ≤ N := by omega
    have : (22 : ℚ) ≤ (N : ℚ) := by exact_mod_cast this
    linarith
  · rw [hlen, hdiv2, abs_le]
    rintro ⟨-, hle⟩
    linarith

/-- The trail count on a run with a pursuing predator, of 56 ticks of the
`float` 0.0025: the rounding to `float` is off by `2^-28` at most. -/
theorem trail_points_float_witness :
    ∃ s' N, repeatStepN binary32 exampleLibm (binary32 (1 / 400)) 56 floatTrailState = .ok s' ∧
      s'.prey.prey_trail.length = floatTrailState.prey.prey_trail.length + N ∧
      |(N : ℚ) - 2 * (((56 : Nat) : ℚ) * binary32 (1 / 400)) / (5 / 100 + 2 / 100)| <
        1 + 200 / 7 * (3 * ((56 : Nat) : ℚ) + 2) * (1 / 2 ^ 28) ∧
      ∀ i q, floatTrailState.predators.get? i = some q →
        ∃ q', s'.predators.get? i = some q' ∧
          (q'.when_reached < 0 → q'.trail.length = q.trail.length + N) :=
  trail_points_float binary32 exampleLibm exampleLibm_sqrtNonzero (1 / 2 ^ 28) floatTrailState
    (binary32 (1 / 400)) 56 (fun x hx => binary32_near x hx) (by norm_num)
    planInv_floatTrailState (binary32_near (5 / 100) (by norm_num [abs_lt]))
    (binary32_near (2 / 100) (by norm_num [abs_lt])) (by decide!) (by decide!)
    (binary32_tick (1 / 400) (by norm_num) (by norm_num)).1
    (binary32_tick (1 / 400) (by norm_num) (by norm_num)).2.1
    (binary32_tick (1 / 400) (by norm_num) (by norm_num)).2.2

/-! ## The directives as they are written -/

section WrittenDirectives
variable {F : Type} [LinearOrderedField F] [FloorRing F]

end WrittenDirectives

end Pursuit
